import Mathlib

set_option maxRecDepth 100000

/-!
# Orb anchor events: generator and vocabulary

A shallow embedding of

* `pkg/anchor/anchorevent/generator/didorbgenerator/didorbgenerator.go`
  (the did:orb v0 generator: `CreateContentObject`, `CreatePayload` and helpers),
* `pkg/activitypub/vocab/anchoreventtype.go`
  (`AnchorEventType.Validate`, `validateAnchorObject`, `AnchorObject`, `Witness`,
  `NewAnchorObject`),
* `pkg/activitypub/resthandler/activityhandler.go`
  (the REST handlers `Activities.handle`, `Activity.handle`, `ReadOutbox.handleOutbox` and
  helpers), and
* `pkg/activitypub/service/mempubsub/mempubsub.go`
  (the publisher/subscriber: `Subscribe`, `Publish`, `publish`, `check`,
  `postToUndeliverable`),

followed by theorems about them.  The iterators of the in-memory store and the handling of a
`Follow` activity, of which only the tests are among the sources, are modelled from the spec.

Conventions of the embedding.

* A Go `string` is a list of characters (`Str`): strings are Unicode text, as every string
  read from JSON is.  All string operations used by the sources (`==`, `strings.HasPrefix`,
  `strings.LastIndex`, slicing at the index of `:`, concatenation) act position by position,
  and the separator `:` is a single position whether one counts bytes or characters.
* A Go `map[string]string` is an association list with pairwise distinct keys; the order of the
  list is the order in which `range` visits the map in the run under consideration.
* A function returning `(T, error)` returns `Except Err T`; pointers that may be `nil` are
  `Option`s.
* Functions of other packages (`encoding/json`, `net/url`, the canonicalizer, the hashlink
  package) are fields of `Lib`, so that every theorem holds for whatever they compute.
* A Go channel is its buffer: a capacity and the queue of the values sent and not yet
  received.  The goroutines of the publisher/subscriber and its callers make steps on its
  state; a step that is not ready (a send that would block) is the result `none`, and a run is
  a sequence of steps in any order in which they are ready.
* A REST handler returns an `Outcome`: the status and body it wrote and the calls it made to
  the activity store.  The base `handler`, which is not among the sources, holds the store and
  the functions the handlers call on it as fields.
-/

namespace Orb

/-! ## Strings -/

/-- Go `string`. -/
abbrev Str := List Char

/-- Byte slice (`[]byte`), the output of the JSON serialisers. -/
abbrev Bytes := List Char

/-- `strings.HasPrefix(s, pre)`. -/
def HasPrefix (s pre : Str) : Bool :=
  pre.isPrefixOf s

/-- `strings.LastIndex(s, substr)`: the index of the last occurrence of `substr` in `s`,
or `-1` when there is none. -/
def LastIndex : Str → Str → Int
  | [], substr => if substr = [] then 0 else -1
  | c :: cs, substr =>
    let r := LastIndex cs substr
    if r ≠ -1 then r + 1
    else if substr.isPrefixOf (c :: cs) then 0
    else -1

/-- Slice expression `s[:pos]`. -/
def sliceTo (s : Str) (pos : Int) : Str :=
  s.take pos.toNat

/-- Slice expression `s[n:]`. -/
def sliceFrom (s : Str) (n : Nat) : Str :=
  s.drop n

/-! ## Errors -/

/-- One constructor for each error the embedded functions return. -/
inductive Err where
  /-- "payload is missing core index" -/
  | missingCoreIndex
  /-- "payload is missing previous anchors" -/
  | missingPreviousAnchors
  /-- "invalid previous anchor hashlink[%s] - must contain separator ':'" -/
  | invalidPreviousAnchor (value : Str)
  /-- "anchor object for [%s]: %w" wrapping `orberrors.ErrContentNotFound` -/
  | contentNotFound
  /-- "unmarshal content object: %w" -/
  | unmarshalContentObject
  /-- "content object is missing subject" -/
  | missingSubject
  /-- "ID has to start with %s" -/
  | missingPrefix
  /-- "resource[%s] not found in previous anchor list" -/
  | resourceNotFound (res : Str)
  /-- "nil anchor event" -/
  | nilAnchorEvent
  /-- "either anchors or URL is required on anchor event" -/
  | anchorsOrURLRequired
  /-- "unsupported attachment type [%s] in anchor event" -/
  | unsupportedAttachmentType
  /-- "anchor object must have exactly one URL" -/
  | exactlyOneURL
  /-- "generator is required in anchor event" -/
  | generatorRequired
  /-- "content object is required in anchor event" -/
  | contentObjectRequired
  /-- "marshal content object: %w" -/
  | marshalContentObject
  /-- "create hashlink from content object: %w" / "create hashlink to content object: %w" -/
  | createHashLink
  /-- "create hashlink URL to content object: %w" -/
  | createHashLinkURL
  /-- "hashlink of content object [%s] does not match the anchor object URL %s" -/
  | hashlinkMismatch (hl url : Str)
  /-- "unable to find the attachment that matches the anchors URL in the anchor event [%s]" -/
  | noMatchingAttachment
  /-- "witness is required" -/
  | witnessRequired
  /-- The run-time failure of an index expression `xs[0]` on an empty list. -/
  | indexOutOfRange
  deriving DecidableEq, Repr

/-! ## JSON documents -/

/-- The JSON values a content object is made of: strings, arrays and objects. Numbers,
booleans and `null` occur in no content object of this generator and are left out. -/
inductive Value where
  | str (s : Str)
  | arr (items : List Value)
  | obj (fields : List (Str × Value))

/-- `vocab.Document`, a `map[string]interface{}`; `none` is the nil map. -/
abbrev Document := Option (List (Str × Value))

/-! ## Generator data types (`didorbgenerator.go`) -/

/-- `ID`, the ID of the generator. -/
def ID : Str := "https://w3id.org/orb#v0".toList

/-- `Namespace`, the namespace of the generator. -/
def Namespace : Str := "did:orb".toList

/-- `Version`, the version of the generator. -/
def Version : Nat := 0

/-- `multihashPrefix`. -/
def multihashPrefix : Str := "did:orb:uAAA".toList

/-- `multihashPrefixDelimiter`. -/
def multihashPrefixDelimiter : Str := ":".toList

/-- `options` / `Generator`: the generator is its options. -/
structure Generator where
  id : Str
  namespace_ : Str
  version : Nat
  deriving DecidableEq, Repr

/-- `Opt`, a function that edits the options. -/
abbrev Opt := Generator → Generator

/-- `WithNamespace`. -/
def WithNamespace (ns : Str) : Opt := fun opts => { opts with namespace_ := ns }

/-- `WithVersion`. -/
def WithVersion (version : Nat) : Opt := fun opts => { opts with version := version }

/-- `WithID`. -/
def WithID (id : Str) : Opt := fun opts => { opts with id := id }

/-- `New(opts...)`: start from the defaults and apply the options in order. -/
def New (opts : List Opt) : Generator :=
  opts.foldl (fun optns opt => opt optns) { id := ID, namespace_ := Namespace, version := Version }

/-- `subject.Payload`, with the fields the generator reads and writes. -/
structure Payload where
  Namespace : Str
  Version : Nat
  CoreIndex : Str
  OperationCount : Nat
  PreviousAnchors : List (Str × Str)
  AnchorOrigin : Str
  Published : Option Nat
  deriving DecidableEq, Repr

/-- `resource`. -/
structure resource where
  ID : Str
  PreviousAnchor : Str
  deriving DecidableEq, Repr

/-- `propertiesType`. -/
structure propertiesType where
  Generator : Str
  Resources : List resource
  deriving DecidableEq, Repr

/-- `contentObject`; `Properties` is a pointer. -/
structure contentObject where
  Subject : Str
  Properties : Option propertiesType
  deriving DecidableEq, Repr

/-- `(*contentObject).Resources`. -/
def contentObject.Resources (t : contentObject) : List resource :=
  match t.Properties with
  | none => []
  | some props => props.Resources

/-! ### JSON field names, from the struct tags -/

/-- The tag `subject`. -/
def subjectKey : Str := "subject".toList

/-- The tag `properties`. -/
def propertiesKey : Str := "properties".toList

/-- The tag `https://w3id.org/activityanchors#generator`. -/
def generatorKey : Str := "https://w3id.org/activityanchors#generator".toList

/-- The tag `https://w3id.org/activityanchors#resources`. -/
def resourcesKey : Str := "https://w3id.org/activityanchors#resources".toList

/-- The tag `ID`. -/
def idKey : Str := "ID".toList

/-- The tag `previousAnchor`. -/
def previousAnchorKey : Str := "previousAnchor".toList

/-- A string field tagged `omitempty`: left out when empty. -/
def omitEmptyStr (key s : Str) : List (Str × Value) :=
  if s = [] then [] else [(key, Value.str s)]

/-- JSON object of a `resource`: `ID` always, `previousAnchor` unless empty. -/
def encodeResource (r : resource) : Value :=
  Value.obj ((idKey, Value.str r.ID) :: omitEmptyStr previousAnchorKey r.PreviousAnchor)

/-- JSON object of a `propertiesType`: both fields are `omitempty`. -/
def encodeProperties (p : propertiesType) : Value :=
  Value.obj (omitEmptyStr generatorKey p.Generator ++
    (if p.Resources = [] then [] else [(resourcesKey, Value.arr (p.Resources.map encodeResource))]))

/-- Modelled from the spec: `vocab.MarshalToDoc` is not among the sources. The content object is
marshalled to JSON following the struct tags of `contentObject`, `propertiesType` and `resource`
(a field tagged `omitempty` is left out when it is the empty string, a nil pointer or an empty
list) and read back as a document. -/
def MarshalToDoc (c : contentObject) : Document :=
  some (omitEmptyStr subjectKey c.Subject ++
    (match c.Properties with
     | none => []
     | some p => [(propertiesKey, encodeProperties p)]))

/-- A string field read from a JSON object: absent leaves the zero value, a string is taken,
anything else is a type error. -/
def decodeStr : Option Value → Except Err Str
  | none => .ok []
  | some (Value.str s) => .ok s
  | some _ => .error Err.unmarshalContentObject

/-- A `resource` read from an element of the resources array. -/
def decodeResource : Value → Except Err resource
  | Value.obj fields =>
    match decodeStr (fields.lookup idKey), decodeStr (fields.lookup previousAnchorKey) with
    | .ok id, .ok prev => .ok { ID := id, PreviousAnchor := prev }
    | _, _ => .error Err.unmarshalContentObject
  | _ => .error Err.unmarshalContentObject

/-- All elements of the resources array, in order; the first failure fails the whole. -/
def decodeResourceList : List Value → Except Err (List resource)
  | [] => .ok []
  | v :: vs =>
    match decodeResource v, decodeResourceList vs with
    | .ok r, .ok rs => .ok (r :: rs)
    | _, _ => .error Err.unmarshalContentObject

/-- The `resources` field. -/
def decodeResources : Option Value → Except Err (List resource)
  | none => .ok []
  | some (Value.arr items) => decodeResourceList items
  | some _ => .error Err.unmarshalContentObject

/-- The `properties` field. -/
def decodeProperties : Option Value → Except Err (Option propertiesType)
  | none => .ok none
  | some (Value.obj fields) =>
    match decodeStr (fields.lookup generatorKey), decodeResources (fields.lookup resourcesKey) with
    | .ok gen, .ok res => .ok (some { Generator := gen, Resources := res })
    | _, _ => .error Err.unmarshalContentObject
  | some _ => .error Err.unmarshalContentObject

/-- Modelled from the spec: `Document.Unmarshal` is not among the sources. The document is read
into a `contentObject` following the struct tags: a missing key leaves the zero value, a value of
the wrong JSON kind is an error, keys that are no field of the struct are ignored, and the nil
document leaves the whole struct zero. -/
def Document.Unmarshal : Document → Except Err contentObject
  | none => .ok { Subject := [], Properties := none }
  | some fields =>
    match decodeStr (fields.lookup subjectKey), decodeProperties (fields.lookup propertiesKey) with
    | .ok subj, .ok props => .ok { Subject := subj, Properties := props }
    | _, _ => .error Err.unmarshalContentObject

/-! ## Generator functions (`didorbgenerator.go`) -/

/-- The loop of `CreateContentObject` over the entries of `payload.PreviousAnchors`, in the
order `range` visits them: one resource per entry, or the error of the first entry whose
non-empty value has no separator. -/
def createResources : List (Str × Str) → Except Err (List resource)
  | [] => .ok []
  | (key, value) :: rest =>
    let resourceID := multihashPrefix ++ ":".toList ++ key
    if value = [] then
      match createResources rest with
      | .ok resources => .ok ({ ID := resourceID, PreviousAnchor := [] } :: resources)
      | .error e => .error e
    else
      let pos := LastIndex value ":".toList
      if pos = -1 then
        .error (Err.invalidPreviousAnchor value)
      else
        match createResources rest with
        | .ok resources => .ok ({ ID := resourceID, PreviousAnchor := sliceTo value pos } :: resources)
        | .error e => .error e

/-- `(*Generator).CreateContentObject`. -/
def CreateContentObject (g : Generator) (payload : Payload) : Except Err Document :=
  if payload.CoreIndex = [] then
    .error Err.missingCoreIndex
  else if payload.PreviousAnchors.length = 0 then
    .error Err.missingPreviousAnchors
  else
    match createResources payload.PreviousAnchors with
    | .error e => .error e
    | .ok resources =>
      .ok (MarshalToDoc
        { Subject := payload.CoreIndex,
          Properties := some { Generator := g.id, Resources := resources } })

/-- `removeMultihashPrefix`. -/
def removeMultihashPrefix (id : Str) : Except Err Str :=
  let pre := multihashPrefix ++ multihashPrefixDelimiter
  if !HasPrefix id pre then
    .error Err.missingPrefix
  else
    .ok (sliceFrom id pre.length)

/-! ## Vocabulary (`anchoreventtype.go`) -/

/-- `*url.URL`, known through the string that `String()` returns. -/
structure URL where
  str : Str
  deriving DecidableEq, Repr

/-- `(*url.URL).String`. -/
def URL.String (u : URL) : Str := u.str

/-- `vocab.Urls`. -/
abbrev Urls := List URL

/-- Modelled from the spec: `Urls.Contains` is not among the sources. The list contains the
given URL when one of its entries has the same string. -/
def Urls.Contains (urls : Urls) (v : URL) : Bool :=
  urls.any (fun iri => decide (iri.String = v.String))

/-- `vocab.Type`. -/
abbrev Type_ := Str

/-- `TypeAnchorObject`. -/
def TypeAnchorObject : Type_ := "AnchorObject".toList

/-- Modelled from the spec: `TypeProperty.Is` is not among the sources. The property, a list of
types, is of the given type when the list holds it. -/
def TypeProperty.Is (types : List Type_) (t : Type_) : Bool :=
  types.contains t

/-- `ObjectType`, with the fields of the base object read here. -/
structure ObjectType where
  types : List Type_
  url : Urls
  generator : Str
  deriving DecidableEq, Repr

/-- `ObjectProperty` as it is used for the witness: a property that may hold an object. -/
structure ObjectProperty where
  object : Option ObjectType
  deriving DecidableEq, Repr

/-- `AnchorObjectType`: the base object (`types`, `url`, `generator`) and the `anchorObjectType`
part (`contentObject`, `witness`), each field as its nil-safe accessor returns it. Every
attachment of an anchor event is taken to hold one of these; its declared type is `types`. -/
structure AnchorObjectType where
  types : List Type_
  url : Urls
  generator : Str
  contentObject : Document
  witness : Option ObjectProperty

/-- `AnchorEventType`: the base object (`url`, `attachment`, `attributedTo`, `published`) and
the `anchorEventType` part (`anchors`, `parent`), each field as its nil-safe accessor returns
it. A nil event is `none : Option AnchorEventType`. -/
structure AnchorEventType where
  url : Urls
  attachment : List AnchorObjectType
  attributedTo : Option URL
  published : Option Nat
  anchors : Option URL
  parent : Urls

/-- Functions of other packages that the vocabulary calls; `none` is their error return. -/
structure Lib where
  /-- `json.Marshal` of `encoding/json`, applied to a document. -/
  jsonMarshal : Document → Option Bytes
  /-- `canonicalizer.MarshalCanonical`, applied to a document. -/
  MarshalCanonical : Document → Option Bytes
  /-- `hashlink.New().CreateHashLink(bytes, nil)`. -/
  CreateHashLink : Bytes → Option Str
  /-- `url.Parse`. -/
  urlParse : Str → Option URL

/-- `(*AnchorEventType).Anchors`. -/
def AnchorEventType.Anchors (t : Option AnchorEventType) : Option URL :=
  match t with
  | none => none
  | some e => e.anchors

/-- `(*AnchorEventType).Parent`. -/
def AnchorEventType.Parent (t : Option AnchorEventType) : Urls :=
  match t with
  | none => []
  | some e => e.parent

/-- `validateAnchorObject`. -/
def validateAnchorObject (lib : Lib) (anchorObj : AnchorObjectType) : Except Err Unit :=
  if anchorObj.url.length ≠ 1 then
    .error Err.exactlyOneURL
  else
    match anchorObj.url with
    | [] => .error Err.indexOutOfRange
    | anchorObjURL :: _ =>
      if anchorObj.generator = [] then
        .error Err.generatorRequired
      else if anchorObj.contentObject.isNone then
        .error Err.contentObjectRequired
      else
        match lib.MarshalCanonical anchorObj.contentObject with
        | none => .error Err.marshalContentObject
        | some contentObjBytes =>
          match lib.CreateHashLink contentObjBytes with
          | none => .error Err.createHashLink
          | some hl =>
            if hl ≠ anchorObjURL.String then
              .error (Err.hashlinkMismatch hl anchorObjURL.String)
            else
              .ok ()

/-- The loop of `Validate` over the attachments: every attachment up to and including the first
one whose URL is the anchors URL is checked; the result is that attachment (the variable
`anchorObj` after the loop), `none` when the loop ends without a match. -/
def validateAttachments (lib : Lib) (anchors : URL) :
    List AnchorObjectType → Except Err (Option AnchorObjectType)
  | [] => .ok none
  | attachment :: rest =>
    if !TypeProperty.Is attachment.types TypeAnchorObject then
      .error Err.unsupportedAttachmentType
    else
      let ao := attachment
      match validateAnchorObject lib ao with
      | .error e => .error e
      | .ok () =>
        match ao.url with
        | [] => .error Err.indexOutOfRange
        | u :: _ =>
          if u.String = anchors.String then
            .ok (some ao)
          else
            validateAttachments lib anchors rest

/-- `(*AnchorEventType).Validate`. -/
def AnchorEventType.Validate (lib : Lib) (t : Option AnchorEventType) : Except Err Unit :=
  match t with
  | none => .error Err.nilAnchorEvent
  | some e =>
    match AnchorEventType.Anchors (some e) with
    | none =>
      if e.url.length > 0 then
        .ok ()
      else
        .error Err.anchorsOrURLRequired
    | some anchors =>
      match validateAttachments lib anchors e.attachment with
      | .error err => .error err
      | .ok none => .error Err.noMatchingAttachment
      | .ok (some anchorObj) =>
        if anchorObj.witness.isNone then
          .error Err.witnessRequired
        else
          .ok ()

/-- `(*AnchorEventType).Witness`. -/
def AnchorEventType.Witness (t : Option AnchorEventType) : Option ObjectType :=
  match t with
  | none => none
  | some e =>
    match e.attachment with
    | [] => none
    | attachment :: _ =>
      match attachment.witness with
      | none => none
      | some property => property.object

/-- `(*AnchorEventType).AnchorObject`. -/
def AnchorEventType.AnchorObject (t : Option AnchorEventType) (u : Option URL) :
    Except Err AnchorObjectType :=
  match t, u with
  | some e, some u =>
    match e.attachment.find? (fun attachment => Urls.Contains attachment.url u) with
    | some attachment => .ok attachment
    | none => .error Err.contentNotFound
  | _, _ => .error Err.contentNotFound

/-- `NewAnchorObject`. The options only add JSON-LD contexts, which are not part of the
embedding. -/
def NewAnchorObject (lib : Lib) (generator : Str) (contentObject : Document)
    (witness : Option ObjectType) : Except Err AnchorObjectType :=
  match lib.jsonMarshal contentObject with
  | none => .error Err.marshalContentObject
  | some contentObjBytes =>
    match lib.CreateHashLink contentObjBytes with
    | none => .error Err.createHashLink
    | some hl =>
      match lib.urlParse hl with
      | none => .error Err.createHashLinkURL
      | some hlURL =>
        let witnessProperty : Option ObjectProperty :=
          match witness with
          | none => none
          | some w => some { object := some w }
        .ok { types := [TypeAnchorObject],
              generator := generator,
              url := [hlURL],
              contentObject := contentObject,
              witness := witnessProperty }

/-! ## Payload from anchor event (`didorbgenerator.go`) -/

/-- Assignment `m[k] = v` on a map held as an association list. -/
def mapSet : List (Str × Str) → Str → Str → List (Str × Str)
  | [], k, v => [(k, v)]
  | (k0, v0) :: m, k, v => if k0 = k then (k, v) :: m else (k0, v0) :: mapSet m k v

/-- `getPreviousAnchorForResource`. -/
def getPreviousAnchorForResource (suffix res : Str) : Urls → Except Err (Str × Str)
  | [] => .error (Err.resourceNotFound res)
  | prev :: previous =>
    if !HasPrefix prev.String res then
      getPreviousAnchorForResource suffix res previous
    else
      .ok (suffix, prev.String)

/-- The loop of `getPreviousAnchors`, with the map built so far. -/
def getPreviousAnchorsLoop (previous : Urls) :
    List (Str × Str) → List resource → Except Err (List (Str × Str))
  | previousAnchors, [] => .ok previousAnchors
  | previousAnchors, res :: rest =>
    match removeMultihashPrefix res.ID with
    | .error err => .error err
    | .ok suffix =>
      if res.PreviousAnchor ≠ [] then
        match getPreviousAnchorForResource suffix res.PreviousAnchor previous with
        | .error err => .error err
        | .ok (suffix1, prevAnchor) =>
          getPreviousAnchorsLoop previous (mapSet previousAnchors suffix1 prevAnchor) rest
      else
        getPreviousAnchorsLoop previous (mapSet previousAnchors suffix []) rest

/-- `(*Generator).getPreviousAnchors`. -/
def getPreviousAnchors (resources : List resource) (previous : Urls) :
    Except Err (List (Str × Str)) :=
  getPreviousAnchorsLoop previous [] resources

/-- `(*Generator).CreatePayload`. `AttributedTo().String()` is the empty string when the event
has no `attributedTo`. -/
def CreatePayload (g : Generator) (anchorEvent : Option AnchorEventType) : Except Err Payload :=
  match AnchorEventType.AnchorObject anchorEvent (AnchorEventType.Anchors anchorEvent) with
  | .error _ => .error Err.contentNotFound
  | .ok anchorObj =>
    match Document.Unmarshal anchorObj.contentObject with
    | .error _ => .error Err.unmarshalContentObject
    | .ok contentObj =>
      if contentObj.Subject = [] then
        .error Err.missingSubject
      else
        let resources := contentObj.Resources
        let operationCount := resources.length
        match getPreviousAnchors resources (AnchorEventType.Parent anchorEvent) with
        | .error err => .error err
        | .ok prevAnchors =>
          .ok { Namespace := g.namespace_,
                Version := g.version,
                CoreIndex := contentObj.Subject,
                OperationCount := operationCount,
                PreviousAnchors := prevAnchors,
                AnchorOrigin := (match anchorEvent with
                  | some e => (match e.attributedTo with
                    | some u => u.String
                    | none => [])
                  | none => []),
                Published := (match anchorEvent with
                  | some e => e.published
                  | none => none) }

/-! ## The library functions on JSON documents

`NewAnchorObject` serialises the content object with `json.Marshal`, `validateAnchorObject` with
`canonicalizer.MarshalCanonical`. Both write the document without white space and with the
members of every object sorted by key; they differ in the characters they escape inside
strings and in the order of keys outside the basic multilingual plane. -/

/-- Lower-case hexadecimal digit. -/
def hexDigit (n : Nat) : Char :=
  if n < 10 then Char.ofNat (48 + n) else Char.ofNat (87 + n)

/-- The escape `\u00XX` of a character below U+0100. -/
def escapeU00 (c : Char) : Str :=
  [Char.ofNat 92, 'u', '0', '0', hexDigit (c.toNat / 16), hexDigit (c.toNat % 16)]

/-- The two-character escapes shared by both serialisers, and `\u00XX` for the other control
characters. -/
def escapeBasic (c : Char) : Option Str :=
  if c = Char.ofNat 34 then some [Char.ofNat 92, Char.ofNat 34]
  else if c = Char.ofNat 92 then some [Char.ofNat 92, Char.ofNat 92]
  else if c = Char.ofNat 10 then some [Char.ofNat 92, 'n']
  else if c = Char.ofNat 13 then some [Char.ofNat 92, 'r']
  else if c = Char.ofNat 9 then some [Char.ofNat 92, 't']
  else if c.toNat < 32 then some (escapeU00 c)
  else none

/-- One character inside a string literal written by `encoding/json` (`json.Marshal` escapes
for HTML: `<`, `>`, `&`, U+2028 and U+2029 are written as `\u` escapes). -/
def goEscape (c : Char) : Str :=
  match escapeBasic c with
  | some s => s
  | none =>
    if c = '<' ∨ c = '>' ∨ c = '&' then escapeU00 c
    else if c.toNat = 0x2028 ∨ c.toNat = 0x2029 then
      [Char.ofNat 92, 'u', '2', '0', '2', hexDigit (c.toNat % 16)]
    else [c]

/-- One character inside a string literal of canonical JSON (RFC 8785): only the quote, the
backslash and the control characters are escaped. -/
def canonicalEscape (c : Char) : Str :=
  if c = Char.ofNat 8 then [Char.ofNat 92, 'b']
  else if c = Char.ofNat 12 then [Char.ofNat 92, 'f']
  else
    match escapeBasic c with
    | some s => s
    | none => [c]

/-- A JSON string literal. -/
def quoteWith (esc : Char → Str) (s : Str) : Bytes :=
  Char.ofNat 34 :: (s.map esc).flatten ++ [Char.ofNat 34]

/-- Comma-separated items. -/
def commaJoin : List Bytes → Bytes
  | [] => []
  | [x] => x
  | x :: y :: rest => x ++ ',' :: commaJoin (y :: rest)

/-- Lexicographic order on sequences of code units. -/
def unitsLt : List Nat → List Nat → Bool
  | [], [] => false
  | [], _ :: _ => true
  | _ :: _, [] => false
  | a :: as, b :: bs => decide (a < b) || (decide (a = b) && unitsLt as bs)

/-- Code units of a key as Go compares strings: by their bytes, which orders strings as their
code points do. -/
def goUnits (s : Str) : List Nat :=
  s.map Char.toNat

/-- UTF-16 code units of a key, by which canonical JSON sorts the members of an object. -/
def utf16Units (s : Str) : List Nat :=
  (s.map fun c =>
    if c.toNat < 0x10000 then [c.toNat]
    else [0xD800 + (c.toNat - 0x10000) / 0x400, 0xDC00 + (c.toNat - 0x10000) % 0x400]).flatten

/-- Insertion of a member into a list of members sorted by key. -/
def insertMember (units : Str → List Nat) (kv : Str × Bytes) : List (Str × Bytes) → List (Str × Bytes)
  | [] => [kv]
  | x :: xs =>
    if unitsLt (units x.1) (units kv.1) then x :: insertMember units kv xs else kv :: x :: xs

/-- Members sorted by key. -/
def sortMembers (units : Str → List Nat) : List (Str × Bytes) → List (Str × Bytes)
  | [] => []
  | kv :: rest => insertMember units kv (sortMembers units rest)

mutual
/-- Serialisation of a JSON value without white space, the members of objects sorted by key. -/
def marshalValue (esc : Char → Str) (units : Str → List Nat) : Value → Bytes
  | Value.str s => quoteWith esc s
  | Value.arr items => '[' :: commaJoin (marshalItems esc units items) ++ [']']
  | Value.obj fields =>
    Char.ofNat 123 ::
      commaJoin ((sortMembers units (marshalMembers esc units fields)).map
        fun kv => quoteWith esc kv.1 ++ ':' :: kv.2) ++ [Char.ofNat 125]
/-- Serialisation of the items of an array. -/
def marshalItems (esc : Char → Str) (units : Str → List Nat) : List Value → List Bytes
  | [] => []
  | v :: vs => marshalValue esc units v :: marshalItems esc units vs
/-- Serialisation of the values of the members of an object. -/
def marshalMembers (esc : Char → Str) (units : Str → List Nat) :
    List (Str × Value) → List (Str × Bytes)
  | [] => []
  | (k, v) :: rest => (k, marshalValue esc units v) :: marshalMembers esc units rest
end

/-- `json.Marshal` on a document. -/
def goMarshal : Document → Bytes
  | none => "null".toList
  | some fields => marshalValue goEscape goUnits (Value.obj fields)

/-- `canonicalizer.MarshalCanonical` on a document. `validateAnchorObject` never passes the nil
document on. -/
def canonicalMarshal : Document → Bytes
  | none => "null".toList
  | some fields => marshalValue canonicalEscape utf16Units (Value.obj fields)

/-- The library functions on JSON documents and hashlinks. `digest` stands for the multibase
multihash of the bytes; `url.Parse` followed by `String()` gives back a hashlink unchanged. -/
def stdLib (digest : Bytes → Str) : Lib :=
  { jsonMarshal := fun doc => some (goMarshal doc)
    MarshalCanonical := fun doc => some (canonicalMarshal doc)
    CreateHashLink := fun bytes => some ("hl:".toList ++ digest bytes)
    urlParse := fun s => some { str := s } }

/-! ## REST handlers (`resthandler/activityhandler.go`) -/

/-- `http.StatusOK`. -/
def StatusOK : Nat := 200

/-- `http.StatusBadRequest`. -/
def StatusBadRequest : Nat := 400

/-- `http.StatusUnauthorized`. -/
def StatusUnauthorized : Nat := 401

/-- `http.StatusNotFound`. -/
def StatusNotFound : Nat := 404

/-- `http.StatusInternalServerError`. -/
def StatusInternalServerError : Nat := 500

/-- A Go `error` value, known through the two tests the handlers apply to it. Wrapping an
error with `%w` keeps both. -/
structure Error where
  /-- `orberrors.IsBadRequest(err)`. -/
  IsBadRequest : Bool
  /-- `errors.Is(err, spi.ErrNotFound)`. -/
  IsNotFound : Bool
  deriving DecidableEq, Repr

/-- `errors.New(...)` and the errors of `url.Parse`: neither a bad request nor not-found. -/
def Error.plain : Error := { IsBadRequest := false, IsNotFound := false }

/-- `orberrors.NewBadRequest(errors.New(...))`. -/
def Error.NewBadRequest : Error := { IsBadRequest := true, IsNotFound := false }

/-- `spi.ErrNotFound`. -/
def ErrNotFound : Error := { IsBadRequest := false, IsNotFound := true }

/-- `spi.ReferenceType`. -/
inductive ReferenceType where
  | Inbox
  | Outbox
  | PublicOutbox
  | Follower
  | Following
  | Witness
  | Like
  | Share
  | AnchorCredential
  deriving DecidableEq, Repr

/-- `spi.SortOrder`. -/
inductive SortOrder where
  | SortAscending
  | SortDescending
  deriving DecidableEq, Repr

/-- `spi.Criteria`, with the two fields the handlers set. -/
structure Criteria where
  ReferenceType : Option ReferenceType
  ObjectIRI : Option URL
  deriving DecidableEq, Repr

/-- `spi.QueryOpt`, the options the handlers pass. -/
inductive QueryOpt where
  | WithPageSize (pageSize : Int)
  | WithPageNum (pageNum : Int)
  | WithSortOrder (sortOrder : SortOrder)
  deriving DecidableEq, Repr

/-- `spi.QueryOptions`. -/
structure QueryOptions where
  PageNumber : Int
  PageSize : Int
  SortOrder : SortOrder
  deriving DecidableEq, Repr

/-- `vocab.ActivityType`, with its ID, its types and its `to` list (`to_`). -/
structure ActivityType where
  id : Option URL
  types : List Type_
  to_ : Urls
  deriving DecidableEq, Repr

/-- Modelled from the spec: `vocab.PublicIRI` is not among the sources. The well-known IRI
`https://www.w3.org/ns/activitystreams#Public` that tags publicly visible activities. -/
def PublicIRI : URL := { str := "https://www.w3.org/ns/activitystreams#Public".toList }

/-- `(*ActivityType).To`. -/
def ActivityType.To (a : ActivityType) : Urls := a.to_

/-- `spi.ActivityIterator`, as the handlers read it: the activities that `Next` returns one
after the other, and the result of `TotalItems`. -/
structure ActivityIterator where
  results : List ActivityType
  totalItems : Except Error Int

/-- `spi.ReferenceIterator`, as the handlers read it. -/
structure ReferenceIterator where
  results : List URL
  totalItems : Except Error Int

/-- `spi.Store`, with the three queries the handlers make. -/
structure Store where
  GetActivity : URL → Except Error ActivityType
  QueryReferences : ReferenceType → Criteria → Except Error ReferenceIterator
  QueryActivities : Criteria → List QueryOpt → Except Error ActivityIterator

/-- A call to the activity store. -/
inductive StoreCall where
  | GetActivity (activityIRI : URL)
  | QueryReferences (refType : ReferenceType) (criteria : Criteria)
  | QueryActivities (criteria : Criteria) (opts : List QueryOpt)
  deriving DecidableEq, Repr

/-- The reference set that a store call reads, if it reads one. -/
def StoreCall.refType : StoreCall → Option ReferenceType
  | StoreCall.GetActivity _ => none
  | StoreCall.QueryReferences refType _ => some refType
  | StoreCall.QueryActivities criteria _ => criteria.ReferenceType

/-- `vocab.OrderedCollectionType`, as `getActivities` builds it. -/
structure OrderedCollectionType where
  id : URL
  first : URL
  last : URL
  totalItems : Int
  deriving DecidableEq, Repr

/-- `vocab.OrderedCollectionPageType`, as `getPage` builds it. -/
structure OrderedCollectionPageType where
  items : List ActivityType
  id : Option URL
  prev : Option URL
  next : Option URL
  totalItems : Int
  deriving DecidableEq, Repr

/-- The values handed to `h.marshal`. -/
inductive Marshalable where
  | activity (a : ActivityType)
  | collection (c : OrderedCollectionType)
  | page (p : OrderedCollectionPageType)

/-- The body of a response: one of the fixed texts or marshalled bytes. -/
inductive Body where
  | internalServerErrorResponse
  | unauthorizedResponse
  | badRequestResponse
  | notFoundResponse
  | bytes (b : Bytes)
  deriving DecidableEq, Repr

/-- `*http.Request`, known through what the handlers read from it: the `id` parameter
(`getIDParam`), whether a page is asked for (`isPaging`), the page number (`getPageNum`), and
the headers that authorization looks at. -/
structure Request where
  id : Str
  paging : Bool
  pageNum : Option Int
  header : List (Str × Str)
  deriving DecidableEq, Repr

/-- `getIDParam`. -/
def getIDParam (req : Request) : Str := req.id

/-- `handler`, the base of every REST handler: its configuration (`endpoint`, `ObjectIRI`,
`PageSize`, `sortOrder`), the activity store, and the functions of other files and packages
that the handlers call. -/
structure handler where
  endpoint : Str
  ObjectIRI : URL
  PageSize : Int
  sortOrder : SortOrder
  activityStore : Store
  /-- `h.Authorize(req)`: whether the caller is authorized, or an error. -/
  Authorize : Request → Except Error Bool
  /-- `h.marshal(v)`. -/
  marshal : Marshalable → Except Error Bytes
  /-- `h.getPageURL(id, pageNum)`. -/
  getPageURL : URL → Int → Except Error URL
  /-- `h.getIDPrevNextURL(id, totalItems, options)`. -/
  getIDPrevNextURL : URL → Int → QueryOptions → Except Error (Option URL × Option URL × Option URL)
  /-- `getLastPageNum(totalItems, pageSize, sortOrder)`. -/
  getLastPageNum : Int → Int → SortOrder → Int
  /-- `storeutil.GetQueryOptions(opts...)`. -/
  GetQueryOptions : List QueryOpt → QueryOptions
  /-- `storeutil.ReadActivities(it, maxItems)`. -/
  ReadActivities : ActivityIterator → Int → Except Error (List ActivityType)
  /-- `url.Parse`. -/
  urlParse : Str → Option URL

/-- `h.isPaging(req)`. -/
def handler.isPaging (_ : handler) (req : Request) : Bool := req.paging

/-- `h.getPageNum(req)`. -/
def handler.getPageNum (_ : handler) (req : Request) : Option Int := req.pageNum

/-- What a handler did: the calls it made to the activity store, in order, and the status and
body it wrote with `h.writeResponse`. -/
structure Outcome where
  calls : List StoreCall
  status : Nat
  body : Body
  deriving DecidableEq, Repr

/-- `Activities`, the handler of a collection of activities. -/
structure Activities extends handler where
  refType : ReferenceType
  getID : URL → Request → Except Error URL
  getObjectIRI : Request → Except Error URL

/-- `Activity`, the handler of a single activity. -/
structure Activity extends handler

/-- `ReadOutbox`, the handler of the outbox. -/
structure ReadOutbox extends Activities

/-- `(*Activities).getObjectIRIAndID`. -/
def Activities.getObjectIRIAndID (h : Activities) (req : Request) : Except Error (URL × URL) :=
  match h.getObjectIRI req with
  | .error err => .error err
  | .ok objectIRI =>
    match h.getID objectIRI req with
    | .error err => .error err
    | .ok id => .ok (objectIRI, id)

/-- `(*Activities).getActivities`, with the store calls it makes. Closing the iterator only
logs. -/
def Activities.getActivities (h : Activities) (objectIRI id : URL) (refType : ReferenceType) :
    List StoreCall × Except Error OrderedCollectionType :=
  let criteria : Criteria := { ReferenceType := none, ObjectIRI := some objectIRI }
  let calls := [StoreCall.QueryReferences refType criteria]
  match h.activityStore.QueryReferences refType criteria with
  | .error err => (calls, .error err)
  | .ok it =>
    match h.getPageURL id (-1) with
    | .error err => (calls, .error err)
    | .ok firstURL =>
      match it.totalItems with
      | .error err => (calls, .error err)
      | .ok totalItems =>
        match h.getPageURL id (h.getLastPageNum totalItems h.PageSize h.sortOrder) with
        | .error err => (calls, .error err)
        | .ok lastURL =>
          (calls, .ok { id := id, first := firstURL, last := lastURL, totalItems := totalItems })

/-- `(*Activities).getPage`, with the store calls it makes. -/
def Activities.getPage (h : Activities) (objectIRI id : URL) (refType : ReferenceType)
    (opts : List QueryOpt) : List StoreCall × Except Error OrderedCollectionPageType :=
  let criteria : Criteria := { ReferenceType := some refType, ObjectIRI := some objectIRI }
  let calls := [StoreCall.QueryActivities criteria opts]
  match h.activityStore.QueryActivities criteria opts with
  | .error err => (calls, .error err)
  | .ok it =>
    let options := h.GetQueryOptions opts
    match h.ReadActivities it options.PageSize with
    | .error err => (calls, .error err)
    | .ok activities =>
      let items := activities
      match it.totalItems with
      | .error err => (calls, .error err)
      | .ok totalItems =>
        match h.getIDPrevNextURL id totalItems options with
        | .error err => (calls, .error err)
        | .ok (id1, prev, next) =>
          (calls, .ok { items := items, id := id1, prev := prev, next := next,
                        totalItems := totalItems })

/-- `(*Activities).handleActivities`. -/
def Activities.handleActivities (h : Activities) (objectIRI id : URL) (refType : ReferenceType) :
    Outcome :=
  match h.getActivities objectIRI id refType with
  | (calls, .error _) =>
    { calls := calls, status := StatusInternalServerError, body := Body.internalServerErrorResponse }
  | (calls, .ok activities) =>
    match h.marshal (Marshalable.collection activities) with
    | .error _ =>
      { calls := calls, status := StatusInternalServerError,
        body := Body.internalServerErrorResponse }
    | .ok activitiesCollBytes =>
      { calls := calls, status := StatusOK, body := Body.bytes activitiesCollBytes }

/-- `(*Activities).handleActivitiesPage`. -/
def Activities.handleActivitiesPage (h : Activities) (req : Request) (objectIRI id : URL)
    (refType : ReferenceType) : Outcome :=
  let result :=
    match h.getPageNum req with
    | some pageNum =>
      h.getPage objectIRI id refType
        [QueryOpt.WithPageSize h.PageSize, QueryOpt.WithPageNum pageNum,
         QueryOpt.WithSortOrder h.sortOrder]
    | none =>
      h.getPage objectIRI id refType
        [QueryOpt.WithPageSize h.PageSize, QueryOpt.WithSortOrder h.sortOrder]
  match result with
  | (calls, .error _) =>
    { calls := calls, status := StatusInternalServerError, body := Body.internalServerErrorResponse }
  | (calls, .ok page) =>
    match h.marshal (Marshalable.page page) with
    | .error _ =>
      { calls := calls, status := StatusInternalServerError,
        body := Body.internalServerErrorResponse }
    | .ok pageBytes => { calls := calls, status := StatusOK, body := Body.bytes pageBytes }

/-- `(*Activities).handleActivityRefsOfType`. -/
def Activities.handleActivityRefsOfType (h : Activities) (req : Request)
    (refType : ReferenceType) : Outcome :=
  match h.getObjectIRIAndID req with
  | .error err =>
    if err.IsBadRequest then
      { calls := [], status := StatusBadRequest, body := Body.badRequestResponse }
    else
      { calls := [], status := StatusInternalServerError,
        body := Body.internalServerErrorResponse }
  | .ok (objectIRI, id) =>
    if h.isPaging req then
      h.handleActivitiesPage req objectIRI id refType
    else
      h.handleActivities objectIRI id refType

/-- `(*Activities).handle`. -/
def Activities.handle (h : Activities) (req : Request) : Outcome :=
  match h.Authorize req with
  | .error _ =>
    { calls := [], status := StatusInternalServerError, body := Body.internalServerErrorResponse }
  | .ok ok =>
    if !ok then
      { calls := [], status := StatusUnauthorized, body := Body.unauthorizedResponse }
    else
      h.handleActivityRefsOfType req h.refType

/-- `(*Activity).getActivityIRI`. -/
def Activity.getActivityIRI (h : Activity) (req : Request) : Except Error URL :=
  let id := getIDParam req
  if id = [] then
    .error Error.plain
  else
    let activityID := h.ObjectIRI.String ++ "/activities/".toList ++ id
    match h.urlParse activityID with
    | none => .error Error.plain
    | some activityIRI => .ok activityIRI

/-- `(*Activity).handle`. -/
def Activity.handle (h : Activity) (req : Request) : Outcome :=
  match h.Authorize req with
  | .error _ =>
    { calls := [], status := StatusInternalServerError, body := Body.internalServerErrorResponse }
  | .ok authorized =>
    match h.getActivityIRI req with
    | .error _ => { calls := [], status := StatusBadRequest, body := Body.badRequestResponse }
    | .ok activityIRI =>
      let calls := [StoreCall.GetActivity activityIRI]
      match h.activityStore.GetActivity activityIRI with
      | .error err =>
        if err.IsNotFound then
          { calls := calls, status := StatusNotFound, body := Body.notFoundResponse }
        else
          { calls := calls, status := StatusInternalServerError,
            body := Body.internalServerErrorResponse }
      | .ok activity =>
        if !authorized && !Urls.Contains activity.To PublicIRI then
          { calls := calls, status := StatusUnauthorized, body := Body.unauthorizedResponse }
        else
          match h.marshal (Marshalable.activity activity) with
          | .error _ =>
            { calls := calls, status := StatusInternalServerError,
              body := Body.internalServerErrorResponse }
          | .ok activityBytes =>
            { calls := calls, status := StatusOK, body := Body.bytes activityBytes }

/-- `(*ReadOutbox).handleOutbox`. -/
def ReadOutbox.handleOutbox (h : ReadOutbox) (req : Request) : Outcome :=
  match h.Authorize req with
  | .error _ =>
    { calls := [], status := StatusInternalServerError, body := Body.internalServerErrorResponse }
  | .ok ok =>
    if ok then
      h.toActivities.handleActivityRefsOfType req ReferenceType.Outbox
    else
      h.toActivities.handleActivityRefsOfType req ReferenceType.PublicOutbox

/-- `getObjectIRIFromIDParam`. -/
def getObjectIRIFromIDParam (urlParse : Str → Option URL) (req : Request) : Except Error URL :=
  let id := getIDParam req
  if id = [] then
    .error Error.NewBadRequest
  else
    match urlParse id with
    | none => .error Error.plain
    | some u => .ok u

/-- `NewActivities`. The base handler stands for what `newHandler` returns. -/
def NewActivities (base : handler) (refType : ReferenceType)
    (getObjectIRI : Request → Except Error URL) (getID : URL → Request → Except Error URL) :
    Activities :=
  { tohandler := base
    refType := refType
    getID := getID
    getObjectIRI := getObjectIRI }

/-- `NewShares`. The function `getIDFromParam(cfg.ObjectIRI, SharesPath)` is not among the
sources and is taken as it comes. -/
def NewShares (base : handler) (getIDFromParam : URL → Request → Except Error URL) : Activities :=
  NewActivities base ReferenceType.Share (getObjectIRIFromIDParam base.urlParse) getIDFromParam

/-- `NewLikes`. The function `getIDFromParam(cfg.ObjectIRI, LikesPath)` is not among the
sources and is taken as it comes. -/
def NewLikes (base : handler) (getIDFromParam : URL → Request → Except Error URL) : Activities :=
  NewActivities base ReferenceType.Like (getObjectIRIFromIDParam base.urlParse) getIDFromParam

/-! ## Publisher/subscriber (`mempubsub/mempubsub.go`)

The publisher/subscriber is embedded as a state and the steps that its goroutines and its
callers make on it: a call of `Publish` or `Subscribe`, a round of the loop of
`processMessages`, a send of `publish`, a round of the loop of `processAcks`, a run of `check`,
and a receive of a subscriber. A run is a sequence of such steps, in any order in which they
are ready. A Go channel is its buffer; a send completes when the buffer has room, or when
nothing is buffered and the receiver waits at the channel. `stop` is not embedded. -/

/-- `message.Message`, by its UUID and payload. -/
structure Message where
  UUID : Str
  Payload : Bytes
  deriving DecidableEq, Repr

/-- `(*Message).Copy`: a message with the same UUID and payload, to be acknowledged on its
own. -/
def Message.Copy (m : Message) : Message :=
  { UUID := m.UUID, Payload := m.Payload }

/-- A buffered Go channel: its capacity and the values sent and not yet received. -/
structure Chan (α : Type) where
  capacity : Nat
  queue : List α
  deriving DecidableEq, Repr

/-- `make(chan T, capacity)`. -/
def Chan.make {α : Type} (capacity : Nat) : Chan α :=
  { capacity := capacity, queue := [] }

/-- The send statement `c <- v`: it completes when the buffer has room; `none` when it
blocks. -/
def Chan.send {α : Type} (c : Chan α) (v : α) : Option (Chan α) :=
  if c.queue.length < c.capacity then some { c with queue := c.queue ++ [v] } else none

/-- The send `select { case c <- v: ... default: ... }`: the value is added when the buffer has
room and dropped otherwise. -/
def Chan.trySend {α : Type} (c : Chan α) (v : α) : Chan α :=
  if c.queue.length < c.capacity then { c with queue := c.queue ++ [v] } else c

/-- Modelled from the spec: `service.State` is not among the sources. The lifecycle states
`NotStarted`, `Started` and `Stopped`. -/
inductive State where
  | StateNotStarted
  | StateStarted
  | StateStopped
  deriving DecidableEq, Repr

/-- Modelled from the spec: `service.ErrNotStarted` is not among the sources. The error of an
operation on a service that is not started. -/
inductive ServiceError where
  | ErrNotStarted
  deriving DecidableEq, Repr

/-- Modelled from the spec: `service.UndeliverableTopic` is not among the sources. The
distinguished topic that receives the messages that were nacked or timed out. -/
def UndeliverableTopic : Str := "undeliverable".toList

/-- `Config`. -/
structure Config where
  Timeout : Nat
  Concurrency : Nat
  BufferSize : Nat
  deriving DecidableEq, Repr

/-- `DefaultConfig`; the timeout is in seconds. -/
def DefaultConfig : Config :=
  { Timeout := 10, Concurrency := 20, BufferSize := 20 }

/-- `entry`. -/
structure entry where
  topic : Str
  messages : List Message
  deriving DecidableEq, Repr

/-- A send statement of `publish`: `msgChan <- msg`, where `msgChan` is the channel at the
given index among the channels of the topic, or `p.ackChan <- msg`. -/
inductive sendOp where
  | toChan (topic : Str) (index : Nat) (msg : Message)
  | toAck (msg : Message)
  deriving DecidableEq, Repr

/-- `PubSub`. `state` is what `p.State()` of the embedded lifecycle returns; the map
`msgChansByTopic` is an association list with distinct keys. The two goroutines that `New`
starts are part of the state: `publishing` holds the sends that the call of `publish` in which
the goroutine of `processMessages` stands has still to make, and is empty when the goroutine
waits for an entry at `publishChan`; `checking` holds the messages of the goroutines of `check`
that the goroutine of `processAcks` has started and that wait for their signal. -/
structure PubSub extends Config where
  state : State
  serviceName : Str
  msgChansByTopic : List (Str × List (Chan Message))
  publishChan : Chan entry
  ackChan : Chan Message
  publishing : List sendOp
  checking : List Message
  deriving DecidableEq, Repr

/-- The map read `m[topic]`: the channels of the topic, none when the topic is no key. -/
def chansOf (m : List (Str × List (Chan Message))) (topic : Str) : List (Chan Message) :=
  match m.lookup topic with
  | some chans => chans
  | none => []

/-- The map assignment `m[topic] = chans`. -/
def chansSet : List (Str × List (Chan Message)) → Str → List (Chan Message) →
    List (Str × List (Chan Message))
  | [], topic, chans => [(topic, chans)]
  | (t0, c0) :: m, topic, chans =>
    if t0 = topic then (topic, chans) :: m else (t0, c0) :: chansSet m topic chans

/-- The channels of a topic after sends on them: the map keeps its keys, and the channels
under `topic` are the given ones. -/
def chansPut (m : List (Str × List (Chan Message))) (topic : Str) (chans : List (Chan Message)) :
    List (Str × List (Chan Message)) :=
  m.map (fun kv => if kv.1 = topic then (kv.1, chans) else kv)

/-- `New`: the publisher/subscriber is started at once; its two goroutines wait at their
channels. -/
def PubSub.New (name : Str) (cfg : Config) : PubSub :=
  { toConfig := cfg
    state := State.StateStarted
    serviceName := name
    msgChansByTopic := []
    publishChan := Chan.make cfg.BufferSize
    ackChan := Chan.make cfg.Concurrency
    publishing := []
    checking := [] }

/-- `(*PubSub).Subscribe`: the state after the call, and the channel or the error returned. -/
def PubSub.Subscribe (p : PubSub) (topic : Str) : PubSub × Except ServiceError (Chan Message) :=
  if p.state ≠ State.StateStarted then
    (p, .error ServiceError.ErrNotStarted)
  else
    let msgChan : Chan Message := Chan.make p.BufferSize
    let msgChans := chansOf p.msgChansByTopic topic ++ [msgChan]
    ({ p with msgChansByTopic := chansSet p.msgChansByTopic topic msgChans }, .ok msgChan)

/-- The send statements that a call of `publish` makes, in the order of its two loops: for
each of the `n` channels of the topic, for each message, the copy of the message goes to the
channel and then to `ackChan`. -/
def publishOps (topic : Str) (n : Nat) (messages : List Message) : List sendOp :=
  (List.range n).flatMap (fun index =>
    messages.flatMap (fun m => [sendOp.toChan topic index m.Copy, sendOp.toAck m.Copy]))

/-- `(*PubSub).publish`, up to its first send: the goroutine reads the channels of the topic
and has the sends of its loops before it. The sends are the steps `PubSub.publishSend`. -/
def PubSub.publish (p : PubSub) (e : entry) : PubSub :=
  let msgChans := chansOf p.msgChansByTopic e.topic
  { p with publishing := publishOps e.topic msgChans.length e.messages }

/-- How a call of `Publish` ends in the state in which it is made: it returns an error or nil,
or its send to `publishChan` is not ready and the call waits for the goroutine of
`processMessages`. -/
inductive PublishResult where
  | returned (err : Option ServiceError)
  | blocks
  deriving DecidableEq, Repr

/-- `(*PubSub).Publish`: the state after the call, and how the call ends. The send to
`publishChan` completes when the buffer has room, and also when nothing is buffered and the
goroutine of `processMessages` waits at the channel: then the goroutine receives the entry at
once and enters `publish`. -/
def PubSub.Publish (p : PubSub) (topic : Str) (messages : List Message) :
    PubSub × PublishResult :=
  if p.state ≠ State.StateStarted then
    (p, PublishResult.returned (some ServiceError.ErrNotStarted))
  else
    match p.publishChan.send { topic := topic, messages := messages } with
    | some publishChan => ({ p with publishChan := publishChan }, PublishResult.returned none)
    | none =>
      if p.publishing = [] ∧ p.publishChan.queue = [] then
        (p.publish { topic := topic, messages := messages }, PublishResult.returned none)
      else
        (p, PublishResult.blocks)

/-- A round of the loop of `(*PubSub).processMessages`: the goroutine, when it is not in
`publish`, receives the next entry from `publishChan` and enters `publish`. `none` when the
round is not ready. -/
def PubSub.processMessages (p : PubSub) : Option PubSub :=
  if p.publishing ≠ [] then
    none
  else
    match p.publishChan.queue with
    | [] => none
    | e :: queue =>
      some (PubSub.publish { p with publishChan := { p.publishChan with queue := queue } } e)

/-- What a run shows of the channels: a send of `publish` to the channel at the given index
among the channels of a topic, or to `ackChan`, has completed; the subscriber of a channel has
received a message from it; the goroutine of `processAcks` has received a message from
`ackChan` and started `check` on it. -/
inductive Event where
  | delivered (topic : Str) (index : Nat) (msg : Message)
  | tracked (msg : Message)
  | received (topic : Str) (index : Nat) (msg : Message)
  | dispatched (msg : Message)
  deriving DecidableEq, Repr

/-- The next send of `publish`. The send `msgChan <- msg` completes when the buffer of the
subscriber channel has room, and also when nothing is buffered and the subscriber waits at the
channel (`receiverWaits`): then the subscriber receives the message at once. The send
`p.ackChan <- msg` completes when the buffer has room, and also when nothing is buffered: the
goroutine of `processAcks` receives the message at once and starts `check`. `none` when the
send is not ready. -/
def PubSub.publishSend (p : PubSub) (receiverWaits : Bool) : Option (PubSub × List Event) :=
  match p.publishing with
  | [] => none
  | sendOp.toChan topic index msg :: ops =>
    let msgChans := chansOf p.msgChansByTopic topic
    match msgChans[index]? with
    | none => none
    | some msgChan =>
      match msgChan.send msg with
      | some msgChan1 =>
        some ({ p with
                msgChansByTopic := chansPut p.msgChansByTopic topic (msgChans.set index msgChan1)
                publishing := ops },
              [Event.delivered topic index msg])
      | none =>
        if receiverWaits = true ∧ msgChan.queue = [] then
          some ({ p with publishing := ops },
                [Event.delivered topic index msg, Event.received topic index msg])
        else
          none
  | sendOp.toAck msg :: ops =>
    match p.ackChan.send msg with
    | some ackChan1 =>
      some ({ p with ackChan := ackChan1, publishing := ops }, [Event.tracked msg])
    | none =>
      if p.ackChan.queue = [] then
        some ({ p with checking := p.checking ++ [msg], publishing := ops },
              [Event.tracked msg, Event.dispatched msg])
      else
        none

/-- A round of the loop of `(*PubSub).processAcks`: the goroutine receives the next message
from `ackChan` and starts `check` on it; the state after the round, and the message. `none`
when `ackChan` is empty. -/
def PubSub.processAcks (p : PubSub) : Option (PubSub × Message) :=
  match p.ackChan.queue with
  | [] => none
  | msg :: queue =>
    some ({ p with
            ackChan := { p.ackChan with queue := queue }
            checking := p.checking ++ [msg] },
          msg)

/-- `(*PubSub).postToUndeliverable`. -/
def PubSub.postToUndeliverable (p : PubSub) (msg : Message) : PubSub :=
  let msgChans := chansOf p.msgChansByTopic UndeliverableTopic
  let msgChans1 := msgChans.map (fun msgChan => msgChan.trySend msg)
  { p with msgChansByTopic := chansPut p.msgChansByTopic UndeliverableTopic msgChans1 }

/-- The case of the `select` in `check` that runs. -/
inductive Signal where
  /-- `<-msg.Acked()` -/
  | Acked
  /-- `<-msg.Nacked()` -/
  | Nacked
  /-- `<-time.After(p.Timeout)` -/
  | Timeout
  deriving DecidableEq, Repr

/-- `(*PubSub).check`, given the case of its `select` that runs. -/
def PubSub.check (p : PubSub) (msg : Message) (signal : Signal) : PubSub :=
  match signal with
  | Signal.Acked => p
  | Signal.Nacked => p.postToUndeliverable msg
  | Signal.Timeout => p.postToUndeliverable msg

/-- The end of a goroutine of `check`: the `select` of the goroutine that checks the given
message runs the given case. `none` when no goroutine checks the message. -/
def PubSub.checkDone (p : PubSub) (msg : Message) (signal : Signal) : Option PubSub :=
  if msg ∈ p.checking then
    some { p.check msg signal with checking := p.checking.erase msg }
  else
    none

/-- A subscriber receives from its channel, the channel at the given index among the channels
of the topic: `<-msgChan`; the state after the receive, and the message. `none` when nothing
is buffered. -/
def PubSub.receive (p : PubSub) (topic : Str) (index : Nat) : Option (PubSub × Message) :=
  let msgChans := chansOf p.msgChansByTopic topic
  match msgChans[index]? with
  | none => none
  | some msgChan =>
    match msgChan.queue with
    | [] => none
    | msg :: queue =>
      some ({ p with
              msgChansByTopic :=
                chansPut p.msgChansByTopic topic
                  (msgChans.set index { msgChan with queue := queue }) },
            msg)

/-- A step of a run: a call of `Publish` that returns nil, a call of `Subscribe` that returns
a channel, a round of `processMessages`, a send of `publish`, a round of `processAcks`, the end
of a `check`, or a receive of a subscriber. -/
inductive Action where
  | Publish (topic : Str) (messages : List Message)
  | Subscribe (topic : Str)
  | processMessages
  | publish (receiverWaits : Bool)
  | processAcks
  | check (msg : Message) (signal : Signal)
  | receive (topic : Str) (index : Nat)
  deriving DecidableEq, Repr

/-- The state after a step and what the step shows; `none` when the step is not ready in the
state. -/
def PubSub.step (p : PubSub) : Action → Option (PubSub × List Event)
  | Action.Publish topic messages =>
    match p.Publish topic messages with
    | (p1, PublishResult.returned none) => some (p1, [])
    | _ => none
  | Action.Subscribe topic =>
    match p.Subscribe topic with
    | (p1, .ok _) => some (p1, [])
    | _ => none
  | Action.processMessages =>
    match p.processMessages with
    | some p1 => some (p1, [])
    | none => none
  | Action.publish receiverWaits => p.publishSend receiverWaits
  | Action.processAcks =>
    match p.processAcks with
    | some (p1, msg) => some (p1, [Event.dispatched msg])
    | none => none
  | Action.check msg signal =>
    match p.checkDone msg signal with
    | some p1 => some (p1, [])
    | none => none
  | Action.receive topic index =>
    match p.receive topic index with
    | some (p1, msg) => some (p1, [Event.received topic index msg])
    | none => none

/-- A run: the state after the steps and what they show, in order; `none` when one of the
steps is not ready when its turn comes. -/
def PubSub.run (p : PubSub) : List Action → Option (PubSub × List Event)
  | [] => some (p, [])
  | a :: acts =>
    match p.step a with
    | none => none
    | some (p1, log1) =>
      match PubSub.run p1 acts with
      | none => none
      | some (p2, log2) => some (p2, log1 ++ log2)

/-- The entry of a step that is a call of `Publish`. -/
def Action.call : Action → Option entry
  | Action.Publish topic messages => some { topic := topic, messages := messages }
  | _ => none

/-- The copies that a step hands over for the channels of a topic: those of the messages of a
call of `Publish` for the topic. -/
def Action.published (topic : Str) : Action → List Message
  | Action.Publish t messages => if t = topic then messages.map Message.Copy else []
  | _ => []

/-- The message of an event, when the event is a send to the given channel. -/
def Event.deliveredTo (topic : Str) (index : Nat) : Event → Option Message
  | Event.delivered t i msg => if t = topic ∧ i = index then some msg else none
  | _ => none

/-- The message of an event, when the event is a send to a subscriber channel. -/
def Event.deliveredMsg : Event → Option Message
  | Event.delivered _ _ msg => some msg
  | _ => none

/-- The message of an event, when the event is a send to `ackChan`. -/
def Event.trackedMsg : Event → Option Message
  | Event.tracked msg => some msg
  | _ => none

/-- The message of an event, when the event is a receive from the given channel. -/
def Event.receivedFrom (topic : Str) (index : Nat) : Event → Option Message
  | Event.received t i msg => if t = topic ∧ i = index then some msg else none
  | _ => none

/-- The message of an event, when the event is a receive of `processAcks` from `ackChan`. -/
def Event.dispatchedMsg : Event → Option Message
  | Event.dispatched msg => some msg
  | _ => none

/-- The message of a send statement, when it sends to the given channel. -/
def sendOp.forChan (topic : Str) (index : Nat) : sendOp → Option Message
  | sendOp.toChan t i msg => if t = topic ∧ i = index then some msg else none
  | sendOp.toAck _ => none

/-- The message of a send statement, when it sends to a subscriber channel. -/
def sendOp.chanMsg : sendOp → Option Message
  | sendOp.toChan _ _ msg => some msg
  | sendOp.toAck _ => none

/-- The message of a send statement, when it sends to `ackChan`. -/
def sendOp.ackMsg : sendOp → Option Message
  | sendOp.toChan _ _ _ => none
  | sendOp.toAck msg => some msg

/-- What is buffered in the channel at the given index among the channels of a topic. -/
def bufferOf (m : List (Str × List (Chan Message))) (topic : Str) (index : Nat) : List Message :=
  match (chansOf m topic)[index]? with
  | some msgChan => msgChan.queue
  | none => []

/-- What is buffered in the channel at the given index among the channels of a topic. -/
def PubSub.buffer (p : PubSub) (topic : Str) (index : Nat) : List Message :=
  bufferOf p.msgChansByTopic topic index

/-- The copies that are on their way to the given channel: those that the call of `publish`
under way has still to send to it, and then those of the entries for the topic that wait in
`publishChan`. -/
def PubSub.pendingFor (p : PubSub) (topic : Str) (index : Nat) : List Message :=
  p.publishing.filterMap (sendOp.forChan topic index) ++
    (p.publishChan.queue.filter (fun e => decide (e.topic = topic))).flatMap
      (fun e => e.messages.map Message.Copy)

/-- Whether a send statement of `publish` goes to a channel that is there. -/
def sendOp.inRange (m : List (Str × List (Chan Message))) : sendOp → Bool
  | sendOp.toChan topic index _ => decide (index < (chansOf m topic).length)
  | sendOp.toAck _ => true

/-- The state of a publisher/subscriber in a run that `New` starts: it is started, and the
sends under way go to channels that are there. -/
def PubSub.ready (p : PubSub) : Bool :=
  decide (p.state = State.StateStarted) && p.publishing.all (sendOp.inRange p.msgChansByTopic)

/-! ## Iterators of the in-memory store (`memstore`)

Only the test of the iterators is among the sources (`iterator_test.go`); the iterators are
modelled from the spec and from the calls the test makes. -/

/-- Modelled from the spec: the iterators of `memstore` are not among the sources. An iterator
holds the results of the query, the position of the next item, and the total number of items
captured at query time. -/
structure iterator (α : Type) where
  results : List α
  current : Nat
  totalItems : Int
  deriving DecidableEq, Repr

/-- Modelled from the spec: `newActivityIterator` is not among the sources. An iterator over
the given activities that reports the given total. -/
def newActivityIterator (results : List ActivityType) (totalItems : Int) :
    iterator ActivityType :=
  { results := results, current := 0, totalItems := totalItems }

/-- Modelled from the spec: `newReferenceIterator` is not among the sources. An iterator over
the given references that reports the given total. -/
def newReferenceIterator (results : List URL) (totalItems : Int) : iterator URL :=
  { results := results, current := 0, totalItems := totalItems }

/-- Modelled from the spec: `TotalItems` of the iterators is not among the sources. The total
captured at query time. -/
def iterator.TotalItems {α : Type} (it : iterator α) : Int := it.totalItems

/-- Modelled from the spec: `Next` of the iterators is not among the sources. The item at the
current position and the iterator moved past it, or `ErrNotFound` without an item at the end
of the results. -/
def iterator.Next {α : Type} (it : iterator α) : iterator α × Except Error α :=
  match it.results.get? it.current with
  | some item => ({ it with current := it.current + 1 }, .ok item)
  | none => (it, .error ErrNotFound)

/-- The iterator after the given number of calls of `Next`. -/
def iterator.afterNext {α : Type} (it : iterator α) : Nat → iterator α
  | 0 => it
  | n + 1 => iterator.afterNext (it.Next).1 n

/-! ## Inbox handler (`activityhandler`)

Only the test of the handler is among the sources (`activityhandler_test.go`); the handling of
a `Follow` activity is modelled from the spec and from what the test sets up and reads: the
actors and the activities of the store, the follower set of the service, the activities posted
to the outbox and the activities forwarded to the subscribers. -/

/-- Modelled from the spec: `vocab.TypeFollow` is not among the sources. The type `Follow`. -/
def TypeFollow : Type_ := "Follow".toList

/-- Modelled from the spec: `vocab.TypeAccept` is not among the sources. The type `Accept`. -/
def TypeAccept : Type_ := "Accept".toList

/-- Modelled from the spec: `vocab.TypeReject` is not among the sources. The type `Reject`. -/
def TypeReject : Type_ := "Reject".toList

/-- Modelled from the spec: the types of activity are not among the sources. The types that
the handler recognizes: `Create`, `Follow`, `Accept`, `Reject`, `Announce`, `Like`, `Undo`. -/
def recognizedTypes : List Type_ :=
  ["Create".toList, TypeFollow, TypeAccept, TypeReject, "Announce".toList, "Like".toList,
   "Undo".toList]

/-- Modelled from the spec: an activity as the inbox handler reads it, with its ID, types,
actor, the IRI of its `object` property and its recipients. -/
structure InboxActivity where
  id : Str
  types : List Type_
  actor : Option URL
  object : Option URL
  to_ : Urls
  deriving DecidableEq, Repr

/-- Modelled from the spec: a reply posted to the outbox, `Accept` or `Reject`, with its
recipient and the `Follow` activity it answers. -/
structure Reply where
  types : List Type_
  to_ : Urls
  object : InboxActivity
  deriving DecidableEq, Repr

/-- Modelled from the spec: the inbox handler with what it works on: the IRI of the service,
the actors in the store, the IDs of the activities in the store, the follower set of the
service, the activities posted to the outbox, and the activities forwarded to the
subscribers. -/
structure Inbox where
  ServiceIRI : URL
  actors : List URL
  activities : List Str
  followers : List URL
  outbox : List Reply
  delivered : List InboxActivity
  deriving DecidableEq, Repr

/-- Modelled from the spec: `AddReference` on a reference set, which keeps the order of
insertion and holds an IRI once. -/
def AddReference (refs : List URL) (target : URL) : List URL :=
  if target ∈ refs then refs else refs ++ [target]

/-- Modelled from the spec: the handling of a `Follow` activity is not among the sources. The
actor and the object IRI must be there; a `Follow` for another service is ignored without a
change; the actor must be in the store; a `Follow` of an actor that is a follower already is
answered with another `Accept`; otherwise `FollowerAuth` decides: on accept the actor is added
to the follower set and an `Accept` is posted to the outbox; on reject a `Reject` is posted,
the follower set stays as it is and the `Follow` is not forwarded to the subscribers. A
`Follow` that is handled with success is persisted and, unless it is rejected, forwarded to
the subscribers. -/
def Inbox.handleFollowActivity (h : Inbox) (AuthorizeFollower : URL → Except Error Bool)
    (follow : InboxActivity) : Except Error Inbox :=
  match follow.actor with
  | none => .error Error.plain
  | some actorIRI =>
    match follow.object with
    | none => .error Error.plain
    | some iri =>
      if iri.String ≠ h.ServiceIRI.String then
        .ok h
      else if ¬ Urls.Contains h.actors actorIRI then
        .error ErrNotFound
      else if Urls.Contains h.followers actorIRI then
        .ok { h with
          activities := h.activities ++ [follow.id]
          outbox := h.outbox ++ [{ types := [TypeAccept], to_ := [actorIRI], object := follow }]
          delivered := h.delivered ++ [follow] }
      else
        match AuthorizeFollower actorIRI with
        | .error err => .error err
        | .ok true =>
          .ok { h with
            activities := h.activities ++ [follow.id]
            followers := AddReference h.followers actorIRI
            outbox := h.outbox ++ [{ types := [TypeAccept], to_ := [actorIRI], object := follow }]
            delivered := h.delivered ++ [follow] }
        | .ok false =>
          .ok { h with
            activities := h.activities ++ [follow.id]
            outbox := h.outbox ++ [{ types := [TypeReject], to_ := [actorIRI], object := follow }] }

/-- Modelled from the spec: `HandleActivity` is not among the sources. The rules for every
activity come first: an activity whose ID is in the store already is a success without a
change and without another broadcast, the actor must be there, the list `to` must not be empty
and the type must be one that the handler recognizes. Then the activity is dispatched by its
type; the handling of the types other than `Follow` is taken as it comes. -/
def Inbox.HandleActivity (h : Inbox) (AuthorizeFollower : URL → Except Error Bool)
    (handleOther : Inbox → InboxActivity → Except Error Inbox) (a : InboxActivity) :
    Except Error Inbox :=
  if a.id ∈ h.activities then
    .ok h
  else if a.actor = none then
    .error Error.plain
  else if a.to_ = [] then
    .error Error.plain
  else if ¬ recognizedTypes.any (fun t => TypeProperty.Is a.types t) then
    .error Error.plain
  else if TypeProperty.Is a.types TypeFollow then
    h.handleFollowActivity AuthorizeFollower a
  else
    handleOther h a

/-! ## Sample data -/

/-- A payload with one resource that has a previous anchor and one that has none. -/
def samplePayload : Payload :=
  { Namespace := Namespace
    Version := Version
    CoreIndex := "hl:uEiCore".toList
    OperationCount := 2
    PreviousAnchors := [("s1".toList, "hl:a:y".toList), ("s2".toList, [])]
    AnchorOrigin := []
    Published := none }

/-- The content object of `samplePayload` as the default generator writes it. -/
def sampleContentObject : contentObject :=
  { Subject := "hl:uEiCore".toList
    Properties := some
      { Generator := ID
        Resources :=
          [{ ID := "did:orb:uAAA:s1".toList, PreviousAnchor := "hl:a".toList },
           { ID := "did:orb:uAAA:s2".toList, PreviousAnchor := [] }] } }

/-- An anchor object around a content object, with the URL that `validateAnchorObject` under
`stdLib id` recomputes, and a witness. -/
def anchorObjectOf (c : contentObject) : AnchorObjectType :=
  { types := [TypeAnchorObject]
    url := [{ str := "hl:".toList ++ canonicalMarshal (MarshalToDoc c) }]
    generator := ID
    contentObject := MarshalToDoc c
    witness := some { object := some { types := ["VerifiableCredential".toList], url := [], generator := [] } } }

/-- An anchor event with one attachment, the anchor object around the given content object,
and the given parents. -/
def eventOf (c : contentObject) (parent : Urls) : AnchorEventType :=
  { url := []
    attachment := [anchorObjectOf c]
    attributedTo := some { str := "https://orb.domain1.com/services/orb".toList }
    published := none
    anchors := some { str := "hl:".toList ++ canonicalMarshal (MarshalToDoc c) }
    parent := parent }

/-- The anchor event of `samplePayload`: its only parent is the previous anchor. -/
def sampleEvent : AnchorEventType :=
  eventOf sampleContentObject [{ str := "hl:a:y".toList }]

/-- The anchor event of `samplePayload` with a second parent, listed first, that has the same
hash `hl:a` and other metadata. -/
def twoParentEvent : AnchorEventType :=
  eventOf sampleContentObject [{ str := "hl:a:z".toList }, { str := "hl:a:y".toList }]

/-- The anchor event of `samplePayload` without parents. -/
def orphanEvent : AnchorEventType :=
  eventOf sampleContentObject []

/-- An anchor event whose content object has a resource ID without the delimiter. -/
def shortIDEvent : AnchorEventType :=
  eventOf
    { Subject := "hl:uEiCore".toList
      Properties := some
        { Generator := ID, Resources := [{ ID := "did:orb:uAAA".toList, PreviousAnchor := [] }] } }
    []

/-- An anchor event reference: no anchors, one URL. -/
def referenceEvent : AnchorEventType :=
  { url := [{ str := "hl:uEiRef".toList }]
    attachment := []
    attributedTo := none
    published := none
    anchors := none
    parent := [] }

/-- A generator whose ID has a query string. -/
def queryGenerator : Generator :=
  New [WithID "https://orb.domain1.com/generator?ns=did:orb&v=0".toList]

/-- The content object of `samplePayload` as `queryGenerator` writes it. -/
def queryDocument : Document :=
  MarshalToDoc
    { Subject := "hl:uEiCore".toList
      Properties := some
        { Generator := "https://orb.domain1.com/generator?ns=did:orb&v=0".toList
          Resources :=
            [{ ID := "did:orb:uAAA:s1".toList, PreviousAnchor := "hl:a".toList },
             { ID := "did:orb:uAAA:s2".toList, PreviousAnchor := [] }] } }

/-- An anchor event whose anchors URL is the URL of none of its attachments. -/
def strayAnchorsEvent : AnchorEventType :=
  { sampleEvent with anchors := some { str := "hl:uEiOther".toList } }

/-- An anchor event whose content object has no subject. -/
def noSubjectEvent : AnchorEventType :=
  eventOf { Subject := [], Properties := sampleContentObject.Properties } [{ str := "hl:a:y".toList }]

/-- An anchor event whose content object has a subject and nothing else. -/
def noResourcesEvent : AnchorEventType :=
  eventOf { Subject := "hl:uEiCore".toList, Properties := none } []

/-- The payload `samplePayload` with its map visited in the other order. -/
def swappedPayload : Payload :=
  { samplePayload with PreviousAnchors := [("s2".toList, []), ("s1".toList, "hl:a:y".toList)] }

/-- A content object for another batch. -/
def otherContentObject : contentObject :=
  { Subject := "hl:uEiOtherCore".toList
    Properties := some
      { Generator := ID
        Resources := [{ ID := "did:orb:uAAA:s3".toList, PreviousAnchor := [] }] } }

/-- An anchor event with two attachments: a valid anchor object without witness for another
content object, then the anchor object that the anchors URL names, with its witness. -/
def twoAttachmentEvent : AnchorEventType :=
  { sampleEvent with
    attachment :=
      [{ anchorObjectOf otherContentObject with witness := none },
       anchorObjectOf sampleContentObject] }

/-- An attachment that is no anchor object: a service without URL, generator or content
object. -/
def serviceAttachment : AnchorObjectType :=
  { types := ["Service".toList]
    url := []
    generator := []
    contentObject := none
    witness := none }

/-- An anchor event whose first attachment is the anchor object named by the anchors URL and
whose second attachment is `serviceAttachment`. -/
def trailingAttachmentEvent : AnchorEventType :=
  { sampleEvent with
    attachment := [anchorObjectOf sampleContentObject, serviceAttachment] }

/-- An anchor event that lists the anchor object named by the anchors URL twice. -/
def duplicateAttachmentEvent : AnchorEventType :=
  { sampleEvent with
    attachment := [anchorObjectOf sampleContentObject, anchorObjectOf sampleContentObject] }

/-- An activity addressed to the public. -/
def publicActivity : ActivityType :=
  { id := some { str := "https://orb.domain1.com/services/orb/activities/a1".toList }
    types := ["Create".toList]
    to_ := [{ str := "https://orb.domain2.com/services/orb".toList }, PublicIRI] }

/-- An activity addressed to one service only. -/
def privateActivity : ActivityType :=
  { id := some { str := "https://orb.domain1.com/services/orb/activities/a2".toList }
    types := ["Create".toList]
    to_ := [{ str := "https://orb.domain2.com/services/orb".toList }] }

/-- A store that holds `publicActivity` and `privateActivity` and has empty reference sets. -/
def sampleStore : Store :=
  { GetActivity := fun activityIRI =>
      match [publicActivity, privateActivity].find? (fun a => decide (a.id = some activityIRI)) with
      | some a => .ok a
      | none => .error ErrNotFound
    QueryReferences := fun _ _ => .ok { results := [], totalItems := .ok 0 }
    QueryActivities := fun _ _ => .ok { results := [], totalItems := .ok 0 } }

/-- A handler base over `sampleStore`: a caller is authorized by the header `Authorization:
Bearer ADMIN`, every value marshals to `{}`, and every string parses as a URL. -/
def sampleHandler : handler :=
  { endpoint := "/services/orb".toList
    ObjectIRI := { str := "https://orb.domain1.com/services/orb".toList }
    PageSize := 5
    sortOrder := SortOrder.SortAscending
    activityStore := sampleStore
    Authorize := fun req =>
      .ok (decide (("Authorization".toList, "Bearer ADMIN".toList) ∈ req.header))
    marshal := fun _ => .ok [Char.ofNat 123, Char.ofNat 125]
    getPageURL := fun id _ => .ok id
    getIDPrevNextURL := fun id _ _ => .ok (some id, none, none)
    getLastPageNum := fun _ _ _ => 0
    GetQueryOptions := fun _ =>
      { PageNumber := -1, PageSize := 5, SortOrder := SortOrder.SortAscending }
    ReadActivities := fun it maxItems => .ok (it.results.take maxItems.toNat)
    urlParse := fun s => some { str := s } }

/-- The handler of a single activity over `sampleHandler`. -/
def sampleActivity : Activity := { tohandler := sampleHandler }

/-- The handler of the inbox over `sampleHandler`. -/
def sampleInbox : Activities :=
  { tohandler := sampleHandler
    refType := ReferenceType.Inbox
    getID := fun objectIRI _ => .ok { str := objectIRI.String ++ "/inbox".toList }
    getObjectIRI := fun _ => .ok sampleHandler.ObjectIRI }

/-- The handler of the outbox over `sampleHandler`. -/
def sampleOutbox : ReadOutbox :=
  { tohandler := sampleHandler
    refType := ReferenceType.Outbox
    getID := fun objectIRI _ => .ok { str := objectIRI.String ++ "/outbox".toList }
    getObjectIRI := fun _ => .ok sampleHandler.ObjectIRI }

/-- A request without credentials for the given activity ID. -/
def anonymousRequest (id : Str) : Request :=
  { id := id
    paging := false
    pageNum := none
    header := [] }

/-- A request with the credentials that `sampleHandler` accepts. -/
def adminRequest (id : Str) : Request :=
  { id := id
    paging := false
    pageNum := none
    header := [("Authorization".toList, "Bearer ADMIN".toList)] }

/-- A handler base like `sampleHandler` whose URL parser rejects, as `url.Parse` does, a string
that starts with a colon (missing protocol scheme). -/
def strictHandler : handler :=
  { sampleHandler with
    urlParse := fun s =>
      match s with
      | ':' :: _ => none
      | _ => some { str := s } }

/-- A `getIDFromParam(cfg.ObjectIRI, SharesPath)` that always succeeds. -/
def sampleGetIDFromParam (objectIRI : URL) (_ : Request) : Except Error URL :=
  .ok { str := objectIRI.String ++ "/shares".toList }

/-- A publisher/subscriber that was stopped. -/
def stoppedPubSub : PubSub :=
  { PubSub.New "service1".toList DefaultConfig with state := State.StateStopped }

/-- A message. -/
def sampleMessage (uuid payload : String) : Message :=
  { UUID := uuid.toList, Payload := payload.toList }

/-- A started publisher/subscriber with two subscribers of `activities` and one subscriber of
`undeliverable`. -/
def samplePubSub : PubSub :=
  let p0 := PubSub.New "service1".toList DefaultConfig
  let p1 := (p0.Subscribe "activities".toList).1
  let p2 := (p1.Subscribe "activities".toList).1
  (p2.Subscribe UndeliverableTopic).1

/-- The service that handles the activities. -/
def service1IRI : URL := { str := "http://localhost:8301/services/service1".toList }

/-- A service that asks to follow. -/
def service2IRI : URL := { str := "http://localhost:8302/services/service2".toList }

/-- Another service that asks to follow. -/
def service3IRI : URL := { str := "http://localhost:8303/services/service3".toList }

/-- The inbox handler of service1 whose store knows service2 and service3. -/
def sampleInboxHandler : Inbox :=
  { ServiceIRI := service1IRI
    actors := [service2IRI, service3IRI]
    activities := []
    followers := []
    outbox := []
    delivered := [] }

/-- A `Follow` activity of the given actor for service1. -/
def followOf (actor : URL) : InboxActivity :=
  { id := actor.String ++ "/f1".toList
    types := [TypeFollow]
    actor := some actor
    object := some service1IRI
    to_ := [service1IRI] }

/-- A `FollowerAuth` that accepts service2 and rejects every other actor. -/
def sampleFollowerAuth (actor : URL) : Except Error Bool :=
  .ok (decide (actor = service2IRI))

/-- The calls of `Subscribe` that lead from `New` to `samplePubSub`. -/
def sampleSetup : List Action :=
  [Action.Subscribe "activities".toList, Action.Subscribe "activities".toList,
   Action.Subscribe UndeliverableTopic]

/-- A run with three calls of `Publish`: two messages for `activities`, one message for a
topic without subscribers, and one more message for `activities`, each published to the end
before the next call. -/
def sampleRun : List Action :=
  [Action.Publish "activities".toList [sampleMessage "m1" "one", sampleMessage "m2" "two"],
   Action.processMessages,
   Action.publish false, Action.publish false, Action.publish false, Action.publish false,
   Action.publish false, Action.publish false, Action.publish false, Action.publish false,
   Action.Publish "other".toList [sampleMessage "m3" "three"],
   Action.processMessages,
   Action.Publish "activities".toList [sampleMessage "m4" "four"],
   Action.processMessages,
   Action.publish false, Action.publish false, Action.publish false, Action.publish false]

/-- A publisher/subscriber without buffers (`BufferSize` and `Concurrency` are 0) with one
subscriber of `activities`. -/
def unbufferedPubSub : PubSub :=
  ((PubSub.New "service1".toList { Timeout := 10, Concurrency := 0, BufferSize := 0 }).Subscribe
    "activities".toList).1

/-! ## Lemmas -/

theorem HasPrefix_iff (s pre : Str) : HasPrefix s pre = true ↔ pre <+: s := by
  unfold HasPrefix
  exact List.isPrefixOf_iff_prefix

theorem HasPrefix_append (pre rest : Str) : HasPrefix (pre ++ rest) pre = true :=
  (HasPrefix_iff _ _).2 (List.prefix_append pre rest)

theorem isPrefixOf_singleton_cons (c x : Char) (xs : Str) :
    List.isPrefixOf [c] (x :: xs) = decide (c = x) := by
  by_cases h : c = x <;> simp [List.isPrefixOf, h]

theorem LastIndex_singleton_nil (c : Char) : LastIndex [] [c] = -1 := by
  simp [LastIndex]

theorem LastIndex_singleton_cons (c x : Char) (xs : Str) :
    LastIndex (x :: xs) [c] =
      if LastIndex xs [c] ≠ -1 then LastIndex xs [c] + 1 else if c = x then 0 else -1 := by
  simp [LastIndex, isPrefixOf_singleton_cons]

theorem LastIndex_singleton_ge (c : Char) (s : Str) : -1 ≤ LastIndex s [c] := by
  induction s with
  | nil => simp [LastIndex_singleton_nil]
  | cons x xs ih =>
    rw [LastIndex_singleton_cons]
    split_ifs <;> omega

theorem LastIndex_singleton_eq_neg_one_iff (c : Char) (s : Str) :
    LastIndex s [c] = -1 ↔ c ∉ s := by
  induction s with
  | nil => simp [LastIndex_singleton_nil]
  | cons x xs ih =>
    rw [LastIndex_singleton_cons]
    have hge := LastIndex_singleton_ge c xs
    by_cases h : LastIndex xs [c] = -1
    · have hc : c ∉ xs := ih.1 h
      by_cases hx : c = x
      · subst hx
        simp [h]
      · simp [h, hx, hc]
    · have hc : c ∈ xs := by
        by_contra hn
        exact h (ih.2 hn)
      simp [h, hc]
      omega

/-- Cutting a string at the last occurrence of a character: the cut, the character and a tail
free of it make up the string. -/
theorem LastIndex_singleton_split (c : Char) (s : Str) (h : LastIndex s [c] ≠ -1) :
    ∃ tail, s = sliceTo s (LastIndex s [c]) ++ [c] ++ tail ∧ c ∉ tail := by
  induction s with
  | nil => simp [LastIndex_singleton_nil] at h
  | cons x xs ih =>
    rw [LastIndex_singleton_cons] at h ⊢
    have hge := LastIndex_singleton_ge c xs
    by_cases h1 : LastIndex xs [c] = -1
    · have hc : c ∉ xs := (LastIndex_singleton_eq_neg_one_iff c xs).1 h1
      by_cases hx : c = x
      · subst hx
        refine ⟨xs, ?_, hc⟩
        simp [h1, sliceTo]
      · simp [h1, hx] at h
    · obtain ⟨tail, htail, hnot⟩ := ih h1
      refine ⟨tail, ?_, hnot⟩
      have hnn : 0 ≤ LastIndex xs [c] := by omega
      obtain ⟨n, hn⟩ := Int.eq_ofNat_of_zero_le hnn
      simp only [sliceTo] at htail ⊢
      rw [if_pos h1]
      rw [hn] at htail ⊢
      have : ((n : Int) + 1).toNat = n + 1 := by omega
      rw [this]
      simp only [Int.toNat_ofNat] at htail
      simp only [List.take_succ_cons, List.cons_append]
      congr 1

theorem decodeResource_encodeResource (r : resource) :
    decodeResource (encodeResource r) = .ok r := by
  obtain ⟨id, prev⟩ := r
  by_cases h : prev = []
  · subst h
    simp [encodeResource, decodeResource, omitEmptyStr, decodeStr, List.lookup, idKey, previousAnchorKey]
  · simp [encodeResource, decodeResource, omitEmptyStr, decodeStr, List.lookup, idKey, previousAnchorKey, h]

theorem decodeResourceList_map_encodeResource (rs : List resource) :
    decodeResourceList (rs.map encodeResource) = .ok rs := by
  induction rs with
  | nil => rfl
  | cons r rs ih => simp [decodeResourceList, decodeResource_encodeResource, ih]

theorem decodeProperties_encodeProperties (p : propertiesType) :
    decodeProperties (some (encodeProperties p)) = .ok (some p) := by
  obtain ⟨gen, res⟩ := p
  by_cases hg : gen = [] <;> by_cases hr : res = [] <;>
    simp [encodeProperties, decodeProperties, omitEmptyStr, decodeStr, decodeResources, List.lookup,
      generatorKey, resourcesKey, hg, hr, decodeResourceList_map_encodeResource, decodeResourceList]

/-- Reading back a marshalled content object gives the content object. -/
theorem Unmarshal_MarshalToDoc (c : contentObject) :
    Document.Unmarshal (MarshalToDoc c) = .ok c := by
  obtain ⟨subj, props⟩ := c
  cases props with
  | none =>
    by_cases hs : subj = [] <;>
      simp [MarshalToDoc, Document.Unmarshal, omitEmptyStr, decodeStr, decodeProperties, List.lookup,
        subjectKey, propertiesKey, hs]
  | some p =>
    by_cases hs : subj = [] <;>
      simp [MarshalToDoc, Document.Unmarshal, omitEmptyStr, decodeStr, List.lookup,
        subjectKey, propertiesKey, hs, decodeProperties_encodeProperties]

/-- The resource that the loop of `CreateContentObject` builds for one entry. -/
theorem createResources_mem {entries : List (Str × Str)} {resources : List resource}
    (h : createResources entries = .ok resources) (suffix prev : Str)
    (hmem : (suffix, prev) ∈ entries) :
    ∃ r ∈ resources, r.ID = multihashPrefix ++ ":".toList ++ suffix ∧
      (prev = [] → r.PreviousAnchor = []) ∧
      (prev ≠ [] → ∃ tail, prev = r.PreviousAnchor ++ ":".toList ++ tail ∧ ':' ∉ tail) := by
  induction entries generalizing resources with
  | nil => simp at hmem
  | cons entry rest ih =>
    obtain ⟨key, value⟩ := entry
    simp only [createResources] at h
    by_cases hv : value = []
    · simp only [hv, if_true] at h
      cases hrest : createResources rest with
      | error e => simp [hrest] at h
      | ok rs =>
        simp only [hrest, Except.ok.injEq] at h
        subst h
        rcases List.mem_cons.1 hmem with heq | hin
        · simp only [Prod.mk.injEq] at heq
          obtain ⟨h1, h2⟩ := heq
          subst h1; subst h2
          exact ⟨_, List.mem_cons_self _ _, rfl, fun _ => rfl, fun hne => absurd hv hne⟩
        · obtain ⟨r, hr, hrest⟩ := ih hrest hin
          exact ⟨r, List.mem_cons_of_mem _ hr, hrest⟩
    · simp only [hv, if_false] at h
      by_cases hpos : LastIndex value ":".toList = -1
      · rw [if_pos hpos] at h
        cases h
      · rw [if_neg hpos] at h
        cases hrest : createResources rest with
        | error e => simp [hrest] at h
        | ok rs =>
          simp only [hrest, Except.ok.injEq] at h
          subst h
          rcases List.mem_cons.1 hmem with heq | hin
          · simp only [Prod.mk.injEq] at heq
            obtain ⟨h1, h2⟩ := heq
            subst h1; subst h2
            refine ⟨_, List.mem_cons_self _ _, rfl, fun he => absurd he hv, fun _ => ?_⟩
            exact LastIndex_singleton_split ':' prev hpos
          · obtain ⟨r, hr, hrest⟩ := ih hrest hin
            exact ⟨r, List.mem_cons_of_mem _ hr, hrest⟩

theorem createResources_error_iff (entries : List (Str × Str)) :
    (∃ e, createResources entries = .error e) ↔
      ∃ kv ∈ entries, kv.2 ≠ [] ∧ ':' ∉ kv.2 := by
  induction entries with
  | nil => simp [createResources]
  | cons entry rest ih =>
    obtain ⟨key, value⟩ := entry
    simp only [createResources]
    by_cases hv : value = []
    · simp only [hv, if_true]
      cases hrest : createResources rest with
      | error e =>
        have := ih.1 (by simp [hrest])
        simpa using this
      | ok rs =>
        have hno : ¬ ∃ kv ∈ rest, kv.2 ≠ [] ∧ ':' ∉ kv.2 := by
          intro hex
          obtain ⟨e, he⟩ := ih.2 hex
          simp [hrest] at he
        simp
        simpa using hno
    · simp only [hv, if_false]
      by_cases hpos : LastIndex value ":".toList = -1
      · have hc : ':' ∉ value := (LastIndex_singleton_eq_neg_one_iff ':' value).1 hpos
        rw [if_pos hpos]
        simp [hv, hc]
      · have hc : ':' ∈ value := by
          by_contra hn
          exact hpos ((LastIndex_singleton_eq_neg_one_iff ':' value).2 hn)
        rw [if_neg hpos]
        cases hrest : createResources rest with
        | error e =>
          have := ih.1 (by simp [hrest])
          simp [hc]
          simpa using this
        | ok rs =>
          have hno : ¬ ∃ kv ∈ rest, kv.2 ≠ [] ∧ ':' ∉ kv.2 := by
            intro hex
            obtain ⟨e, he⟩ := ih.2 hex
            simp [hrest] at he
          simp [hc]
          simpa using hno

theorem createResources_error_kind {entries : List (Str × Str)} {e : Err}
    (h : createResources entries = .error e) :
    ∃ kv ∈ entries, e = Err.invalidPreviousAnchor kv.2 ∧ kv.2 ≠ [] ∧ ':' ∉ kv.2 := by
  induction entries with
  | nil => simp [createResources] at h
  | cons entry rest ih =>
    obtain ⟨key, value⟩ := entry
    simp only [createResources] at h
    by_cases hv : value = []
    · simp only [hv, if_true] at h
      cases hrest : createResources rest with
      | error e1 =>
        simp only [hrest, Except.error.injEq] at h
        subst h
        obtain ⟨kv, hkv, hrest⟩ := ih hrest
        exact ⟨kv, List.mem_cons_of_mem _ hkv, hrest⟩
      | ok rs => simp [hrest] at h
    · simp only [hv, if_false] at h
      by_cases hpos : LastIndex value ":".toList = -1
      · rw [if_pos hpos] at h
        simp only [Except.error.injEq] at h
        have hc : ':' ∉ value := (LastIndex_singleton_eq_neg_one_iff ':' value).1 hpos
        exact ⟨(key, value), List.mem_cons_self _ _, h.symm, hv, hc⟩
      · rw [if_neg hpos] at h
        cases hrest : createResources rest with
        | error e1 =>
          simp only [hrest, Except.error.injEq] at h
          subst h
          obtain ⟨kv, hkv, hrest⟩ := ih hrest
          exact ⟨kv, List.mem_cons_of_mem _ hkv, hrest⟩
        | ok rs => simp [hrest] at h

theorem lookup_mapSet_self (m : List (Str × Str)) (k v : Str) :
    (mapSet m k v).lookup k = some v := by
  induction m with
  | nil => simp [mapSet, List.lookup]
  | cons entry m ih =>
    obtain ⟨k0, v0⟩ := entry
    by_cases h : k0 = k
    · simp [mapSet, h, List.lookup]
    · have h1 : (k == k0) = false := by
        simp only [beq_eq_false_iff_ne, ne_eq]
        exact fun he => h he.symm
      simp [mapSet, h, List.lookup, h1, ih]

theorem lookup_mapSet_of_ne (m : List (Str × Str)) (k v k1 : Str) (hne : k1 ≠ k) :
    (mapSet m k v).lookup k1 = m.lookup k1 := by
  induction m with
  | nil =>
    have h1 : (k1 == k) = false := by simpa using hne
    simp [mapSet, List.lookup, h1]
  | cons entry m ih =>
    obtain ⟨k0, v0⟩ := entry
    by_cases h : k0 = k
    · subst h
      have h1 : (k1 == k0) = false := by simpa using hne
      simp [mapSet, List.lookup, h1]
    · simp only [mapSet, h, if_false, List.lookup]
      rw [ih]

theorem removeMultihashPrefix_ok {id suffix : Str} (h : removeMultihashPrefix id = .ok suffix) :
    id = multihashPrefix ++ multihashPrefixDelimiter ++ suffix := by
  unfold removeMultihashPrefix at h
  by_cases hp : HasPrefix id (multihashPrefix ++ multihashPrefixDelimiter) = true
  · simp only [hp, Bool.not_true, Bool.false_eq_true, if_false, Except.ok.injEq] at h
    obtain ⟨rest, hrest⟩ := (HasPrefix_iff _ _).1 hp
    rw [← hrest] at h ⊢
    simp only [sliceFrom, List.drop_left] at h
    rw [h]
  · simp [hp] at h

theorem removeMultihashPrefix_append (s : Str) :
    removeMultihashPrefix (multihashPrefix ++ multihashPrefixDelimiter ++ s) = .ok s := by
  unfold removeMultihashPrefix
  have hp := HasPrefix_append (multihashPrefix ++ multihashPrefixDelimiter) s
  simp only [hp, Bool.not_true, Bool.false_eq_true, if_false, sliceFrom, List.drop_left]

theorem removeMultihashPrefix_error_iff (id : Str) :
    (∃ e, removeMultihashPrefix id = .error e) ↔
      HasPrefix id (multihashPrefix ++ multihashPrefixDelimiter) = false := by
  unfold removeMultihashPrefix
  by_cases hp : HasPrefix id (multihashPrefix ++ multihashPrefixDelimiter) = true
  · simp [hp]
  · simp [hp]

/-- A successful `getPreviousAnchorForResource` returns the suffix it was given and the string
of the first URL of the list that has the resource as a prefix. -/
theorem getPreviousAnchorForResource_ok {suffix res : Str} {previous : Urls} {out : Str × Str}
    (h : getPreviousAnchorForResource suffix res previous = .ok out) :
    out.1 = suffix ∧ ∃ before u after, previous = before ++ u :: after ∧
      (∀ x ∈ before, HasPrefix x.String res = false) ∧ HasPrefix u.String res = true ∧
      out.2 = u.String := by
  induction previous with
  | nil => simp [getPreviousAnchorForResource] at h
  | cons prev previous ih =>
    simp only [getPreviousAnchorForResource] at h
    by_cases hp : HasPrefix prev.String res = true
    · simp only [hp, Bool.not_true, Bool.false_eq_true, if_false, Except.ok.injEq] at h
      subst h
      exact ⟨rfl, [], prev, previous, rfl, by simp, hp, rfl⟩
    · simp only [hp, Bool.not_false, if_true] at h
      obtain ⟨h1, before, u, after, hsplit, hbefore, hu, hout⟩ := ih h
      refine ⟨h1, prev :: before, u, after, by simp [hsplit], ?_, hu, hout⟩
      intro x hx
      rcases List.mem_cons.1 hx with rfl | hx
      · simpa using hp
      · exact hbefore x hx

theorem getPreviousAnchorForResource_error_iff (suffix res : Str) (previous : Urls) :
    (∃ e, getPreviousAnchorForResource suffix res previous = .error e) ↔
      ∀ u ∈ previous, HasPrefix u.String res = false := by
  induction previous with
  | nil => simp [getPreviousAnchorForResource]
  | cons prev previous ih =>
    simp only [getPreviousAnchorForResource]
    by_cases hp : HasPrefix prev.String res = true
    · simp [hp]
    · simp only [hp, Bool.not_false, if_true, List.mem_cons, forall_eq_or_imp]
      rw [ih]
      simp [hp]

/-- One round of the loop of `getPreviousAnchors` that does not fail: the ID has the prefix, the
previous anchor (if any) is found among the parents, and the loop goes on with the map
updated at the suffix. -/
theorem getPreviousAnchorsLoop_cons_ok {previous : Urls} {m : List (Str × Str)} {r : resource}
    {rest : List resource} {out : List (Str × Str)}
    (h : getPreviousAnchorsLoop previous m (r :: rest) = .ok out) :
    ∃ suffix v, removeMultihashPrefix r.ID = .ok suffix ∧
      (r.PreviousAnchor = [] → v = []) ∧
      (r.PreviousAnchor ≠ [] →
        getPreviousAnchorForResource suffix r.PreviousAnchor previous = .ok (suffix, v)) ∧
      getPreviousAnchorsLoop previous (mapSet m suffix v) rest = .ok out := by
  simp only [getPreviousAnchorsLoop] at h
  cases hrem : removeMultihashPrefix r.ID with
  | error e => simp [hrem] at h
  | ok suffix =>
    simp only [hrem] at h
    by_cases hp : r.PreviousAnchor = []
    · simp only [hp, ne_eq, not_true_eq_false, if_false] at h
      exact ⟨suffix, [], rfl, fun _ => rfl, fun hne => absurd hp hne, h⟩
    · simp only [ne_eq, hp, not_false_eq_true, if_true] at h
      cases hget : getPreviousAnchorForResource suffix r.PreviousAnchor previous with
      | error e => simp [hget] at h
      | ok res =>
        obtain ⟨s1, v⟩ := res
        simp only [hget] at h
        have hs : s1 = suffix := (getPreviousAnchorForResource_ok hget).1
        subst hs
        exact ⟨s1, v, rfl, fun he => absurd he hp, fun _ => hget, h⟩

/-- Keys that are the suffix of no remaining resource keep their value. -/
theorem getPreviousAnchorsLoop_lookup_of_not_suffix {previous : Urls} {rs : List resource}
    {m out : List (Str × Str)} (h : getPreviousAnchorsLoop previous m rs = .ok out) (k : Str)
    (hk : ∀ r ∈ rs, removeMultihashPrefix r.ID ≠ .ok k) :
    out.lookup k = m.lookup k := by
  induction rs generalizing m with
  | nil =>
    simp only [getPreviousAnchorsLoop, Except.ok.injEq] at h
    rw [h]
  | cons r rest ih =>
    obtain ⟨suffix, v, hrem, _, _, hloop⟩ := getPreviousAnchorsLoop_cons_ok h
    have hne : k ≠ suffix := by
      intro he
      subst he
      exact hk r (List.mem_cons_self _ _) hrem
    rw [ih hloop (fun x hx => hk x (List.mem_cons_of_mem _ hx))]
    exact lookup_mapSet_of_ne m suffix v k hne

/-- What a successful run of the loop of `getPreviousAnchors` leaves in the map for each
resource, when the resource IDs are pairwise distinct. -/
theorem getPreviousAnchorsLoop_lookup {previous : Urls} {rs : List resource}
    {m out : List (Str × Str)} (h : getPreviousAnchorsLoop previous m rs = .ok out)
    (hnd : (rs.map (fun r => r.ID)).Nodup) (r : resource) (hr : r ∈ rs) :
    ∃ suffix, removeMultihashPrefix r.ID = .ok suffix ∧
      (r.PreviousAnchor = [] → out.lookup suffix = some []) ∧
      (r.PreviousAnchor ≠ [] → ∃ before u after, previous = before ++ u :: after ∧
        (∀ x ∈ before, HasPrefix x.String r.PreviousAnchor = false) ∧
        HasPrefix u.String r.PreviousAnchor = true ∧ out.lookup suffix = some u.String) := by
  induction rs generalizing m with
  | nil => simp at hr
  | cons r0 rest ih =>
    obtain ⟨suffix, v, hrem, hempty, hfound, hloop⟩ := getPreviousAnchorsLoop_cons_ok h
    simp only [List.map_cons, List.nodup_cons] at hnd
    rcases List.mem_cons.1 hr with heq | hin
    · subst heq
      have hk : ∀ x ∈ rest, removeMultihashPrefix x.ID ≠ .ok suffix := by
        intro x hx hxrem
        have h1 := removeMultihashPrefix_ok hxrem
        have h2 := removeMultihashPrefix_ok hrem
        apply hnd.1
        rw [h2, ← h1]
        exact List.mem_map_of_mem (fun r => r.ID) hx
      have hout := getPreviousAnchorsLoop_lookup_of_not_suffix hloop suffix hk
      rw [lookup_mapSet_self] at hout
      refine ⟨suffix, hrem, ?_, ?_⟩
      · intro he
        rw [hout, hempty he]
      · intro hne
        obtain ⟨_, before, u, after, hsplit, hbefore, hu, hv⟩ :=
          getPreviousAnchorForResource_ok (hfound hne)
        exact ⟨before, u, after, hsplit, hbefore, hu, by rw [hout]; exact congrArg some hv⟩
    · exact ih hloop hnd.2 hin

/-- A successful run of the loop has met no resource without the prefix and no resource whose
previous anchor is missing from the parents. -/
theorem getPreviousAnchorsLoop_ok_all {previous : Urls} {rs : List resource}
    {m out : List (Str × Str)} (h : getPreviousAnchorsLoop previous m rs = .ok out)
    (r : resource) (hr : r ∈ rs) :
    HasPrefix r.ID (multihashPrefix ++ multihashPrefixDelimiter) = true ∧
      (r.PreviousAnchor ≠ [] → ∃ u ∈ previous, HasPrefix u.String r.PreviousAnchor = true) := by
  induction rs generalizing m with
  | nil => simp at hr
  | cons r0 rest ih =>
    obtain ⟨suffix, v, hrem, _, hfound, hloop⟩ := getPreviousAnchorsLoop_cons_ok h
    rcases List.mem_cons.1 hr with heq | hin
    · subst heq
      constructor
      · rw [removeMultihashPrefix_ok hrem]
        exact HasPrefix_append _ _
      · intro hne
        obtain ⟨_, before, u, after, hsplit, _, hu, _⟩ :=
          getPreviousAnchorForResource_ok (hfound hne)
        exact ⟨u, by simp [hsplit], hu⟩
    · exact ih hloop hin

/-- What a successful `CreatePayload` went through. -/
theorem CreatePayload_ok {g : Generator} {anchorEvent : Option AnchorEventType} {p : Payload}
    (h : CreatePayload g anchorEvent = .ok p) :
    ∃ ao c, AnchorEventType.AnchorObject anchorEvent (AnchorEventType.Anchors anchorEvent) = .ok ao ∧
      Document.Unmarshal ao.contentObject = .ok c ∧ c.Subject ≠ [] ∧
      getPreviousAnchors c.Resources (AnchorEventType.Parent anchorEvent) = .ok p.PreviousAnchors ∧
      p.CoreIndex = c.Subject ∧ p.OperationCount = c.Resources.length := by
  unfold CreatePayload at h
  cases hao : AnchorEventType.AnchorObject anchorEvent (AnchorEventType.Anchors anchorEvent) with
  | error e => simp [hao] at h
  | ok ao =>
    simp only [hao] at h
    cases hc : Document.Unmarshal ao.contentObject with
    | error e => simp [hc] at h
    | ok c =>
      simp only [hc] at h
      by_cases hs : c.Subject = []
      · simp [hs] at h
      · simp only [hs, if_false] at h
        cases hprev : getPreviousAnchors c.Resources (AnchorEventType.Parent anchorEvent) with
        | error e => simp [hprev] at h
        | ok prevAnchors =>
          simp only [hprev, Except.ok.injEq] at h
          subst h
          exact ⟨ao, c, rfl, hc, hs, hprev, rfl, rfl⟩

theorem CreatePayload_error_of_loop_error {g : Generator} {anchorEvent : Option AnchorEventType}
    {ao : AnchorObjectType} {c : contentObject}
    (hao : AnchorEventType.AnchorObject anchorEvent (AnchorEventType.Anchors anchorEvent) = .ok ao)
    (hc : Document.Unmarshal ao.contentObject = .ok c)
    (hloop : ∀ out, getPreviousAnchors c.Resources (AnchorEventType.Parent anchorEvent) ≠ .ok out) :
    ∃ e, CreatePayload g anchorEvent = .error e := by
  cases hres : CreatePayload g anchorEvent with
  | error e => exact ⟨e, rfl⟩
  | ok p =>
    obtain ⟨ao1, c1, hao1, hc1, _, hprev, _⟩ := CreatePayload_ok hres
    rw [hao] at hao1
    cases hao1
    rw [hc] at hc1
    cases hc1
    exact absurd hprev (hloop _)

/-- What a successful `CreateContentObject` went through. -/
theorem CreateContentObject_ok {g : Generator} {p : Payload} {doc : Document}
    (h : CreateContentObject g p = .ok doc) :
    p.CoreIndex ≠ [] ∧ p.PreviousAnchors ≠ [] ∧
      ∃ resources, createResources p.PreviousAnchors = .ok resources ∧
        doc = MarshalToDoc
          { Subject := p.CoreIndex, Properties := some { Generator := g.id, Resources := resources } } := by
  unfold CreateContentObject at h
  by_cases hc : p.CoreIndex = []
  · simp [hc] at h
  · rw [if_neg hc] at h
    by_cases hl : p.PreviousAnchors.length = 0
    · simp [hl] at h
    · rw [if_neg hl] at h
      cases hres : createResources p.PreviousAnchors with
      | error e => simp [hres] at h
      | ok resources =>
        simp only [hres, Except.ok.injEq] at h
        refine ⟨hc, ?_, resources, rfl, h.symm⟩
        intro hnil
        exact hl (by simp [hnil])

/-- What `validateAnchorObject` has checked when it returns no error. -/
theorem validateAnchorObject_ok {lib : Lib} {ao : AnchorObjectType}
    (h : validateAnchorObject lib ao = .ok ()) :
    ∃ u, ao.url = [u] ∧ ao.generator ≠ [] ∧ ao.contentObject ≠ none ∧
      ∃ bytes, lib.MarshalCanonical ao.contentObject = some bytes ∧
        lib.CreateHashLink bytes = some u.String := by
  unfold validateAnchorObject at h
  by_cases hlen : ao.url.length ≠ 1
  · rw [if_pos hlen] at h
    cases h
  · rw [if_neg hlen] at h
    cases hurl : ao.url with
    | nil => simp [hurl] at hlen
    | cons u rest =>
      have hrest : rest = [] := by
        simp only [hurl, List.length_cons, ne_eq, not_not, Nat.add_left_eq_self] at hlen
        exact List.length_eq_zero.1 hlen
      subst hrest
      simp only [hurl] at h
      by_cases hgen : ao.generator = []
      · rw [if_pos hgen] at h
        cases h
      · rw [if_neg hgen] at h
        by_cases hdoc : ao.contentObject.isNone = true
        · rw [if_pos hdoc] at h
          cases h
        · rw [if_neg hdoc] at h
          cases hbytes : lib.MarshalCanonical ao.contentObject with
          | none => simp [hbytes] at h
          | some bytes =>
            simp only [hbytes] at h
            cases hhl : lib.CreateHashLink bytes with
            | none => simp [hhl] at h
            | some hl =>
              simp only [hhl] at h
              by_cases hne : hl ≠ u.String
              · rw [if_pos hne] at h
                cases h
              · have heq : hl = u.String := not_not.1 hne
                refine ⟨u, rfl, hgen, ?_, bytes, rfl, by rw [hhl, heq]⟩
                intro hnone
                simp [hnone] at hdoc

/-- The attachment that the loop of `Validate` ends on is an attachment of the event of type
`AnchorObject` that passed `validateAnchorObject` and whose one URL is the anchors URL. -/
theorem validateAttachments_some {lib : Lib} {anchors : URL} {attachments : List AnchorObjectType}
    {ao : AnchorObjectType} (h : validateAttachments lib anchors attachments = .ok (some ao)) :
    ao ∈ attachments ∧ TypeProperty.Is ao.types TypeAnchorObject = true ∧
      validateAnchorObject lib ao = .ok () ∧ ao.url = [anchors] := by
  induction attachments with
  | nil => simp [validateAttachments] at h
  | cons attachment rest ih =>
    simp only [validateAttachments] at h
    by_cases hty : TypeProperty.Is attachment.types TypeAnchorObject = true
    · simp only [hty, Bool.not_true, Bool.false_eq_true, if_false] at h
      cases hval : validateAnchorObject lib attachment with
      | error e => simp [hval] at h
      | ok done =>
        simp only [hval] at h
        obtain ⟨u, hurl, _⟩ := validateAnchorObject_ok hval
        simp only [hurl] at h
        by_cases hu : u.String = anchors.String
        · rw [if_pos hu] at h
          simp only [Except.ok.injEq, Option.some.injEq] at h
          subst h
          have hsame : u = anchors := by
            cases u
            cases anchors
            simp only [URL.String] at hu
            rw [hu]
          rw [hsame] at hurl
          exact ⟨List.mem_cons_self _ _, hty, hval, hurl⟩
        · rw [if_neg hu] at h
          obtain ⟨hmem, hrest⟩ := ih h
          exact ⟨List.mem_cons_of_mem _ hmem, hrest⟩
    · simp [hty] at h

theorem getPreviousAnchorForResource_first (suffix res : Str) (before after : Urls) (u : URL)
    (hbefore : ∀ x ∈ before, HasPrefix x.String res = false)
    (hu : HasPrefix u.String res = true) :
    getPreviousAnchorForResource suffix res (before ++ u :: after) = .ok (suffix, u.String) := by
  induction before with
  | nil => simp [getPreviousAnchorForResource, hu]
  | cons x before ih =>
    have hx : HasPrefix x.String res = false := hbefore x (List.mem_cons_self _ _)
    simp only [List.cons_append, getPreviousAnchorForResource, hx, Bool.not_false, if_true]
    exact ih (fun y hy => hbefore y (List.mem_cons_of_mem _ hy))

/-- Running the loop of `getPreviousAnchors` on the resources written for the entries of a map
enters every entry again, when each non-empty value has a non-empty part before its last `:`
and is the first parent that has this part as a prefix. -/
theorem getPreviousAnchorsLoop_createResources (previous : Urls) (entries : List (Str × Str))
    (rs : List resource) (m : List (Str × Str)) (hres : createResources entries = .ok rs)
    (hparent : ∀ kv ∈ entries, kv.2 ≠ [] →
      sliceTo kv.2 (LastIndex kv.2 ":".toList) ≠ [] ∧
      ∃ before after, previous = before ++ { str := kv.2 } :: after ∧
        ∀ x ∈ before, HasPrefix x.String (sliceTo kv.2 (LastIndex kv.2 ":".toList)) = false) :
    getPreviousAnchorsLoop previous m rs =
      .ok (entries.foldl (fun acc kv => mapSet acc kv.1 kv.2) m) := by
  induction entries generalizing rs m with
  | nil =>
    simp only [createResources, Except.ok.injEq] at hres
    subst hres
    rfl
  | cons entry rest ih =>
    obtain ⟨key, value⟩ := entry
    have hrem : removeMultihashPrefix (multihashPrefix ++ ":".toList ++ key) = .ok key :=
      removeMultihashPrefix_append key
    have hrestp : ∀ kv ∈ rest, kv.2 ≠ [] →
        sliceTo kv.2 (LastIndex kv.2 ":".toList) ≠ [] ∧
        ∃ before after, previous = before ++ { str := kv.2 } :: after ∧
          ∀ x ∈ before, HasPrefix x.String (sliceTo kv.2 (LastIndex kv.2 ":".toList)) = false :=
      fun kv hkv => hparent kv (List.mem_cons_of_mem _ hkv)
    simp only [createResources] at hres
    by_cases hv : value = []
    · rw [if_pos hv] at hres
      cases hrest : createResources rest with
      | error e => simp [hrest] at hres
      | ok rs1 =>
        simp only [hrest, Except.ok.injEq] at hres
        subst hres
        simp only [getPreviousAnchorsLoop, hrem, ne_eq, not_true_eq_false, if_false,
          List.foldl_cons]
        rw [ih rs1 (mapSet m key []) hrest hrestp, hv]
    · rw [if_neg hv] at hres
      by_cases hpos : LastIndex value ":".toList = -1
      · rw [if_pos hpos] at hres
        cases hres
      · rw [if_neg hpos] at hres
        cases hrest : createResources rest with
        | error e => simp [hrest] at hres
        | ok rs1 =>
          simp only [hrest, Except.ok.injEq] at hres
          subst hres
          obtain ⟨hcut, before, after, hsplit, hbefore⟩ :=
            hparent (key, value) (List.mem_cons_self _ _) hv
          obtain ⟨tail, htail, _⟩ := LastIndex_singleton_split ':' value hpos
          have hu : HasPrefix (URL.String { str := value })
              (sliceTo value (LastIndex value ":".toList)) = true := by
            apply (HasPrefix_iff _ _).2
            refine ⟨[':'] ++ tail, ?_⟩
            simp only [URL.String]
            rw [← List.append_assoc]
            exact htail.symm
          have hget := getPreviousAnchorForResource_first key _ before after _ hbefore hu
          rw [← hsplit] at hget
          simp only [getPreviousAnchorsLoop, hrem, ne_eq, hcut, not_false_eq_true, if_true,
            hget, List.foldl_cons]
          exact ih rs1 (mapSet m key value) hrest hrestp

theorem lookup_eq_none_of_not_mem_keys (entries : List (Str × Str)) (k : Str)
    (hk : k ∉ entries.map Prod.fst) : entries.lookup k = none := by
  induction entries with
  | nil => rfl
  | cons entry rest ih =>
    obtain ⟨k0, v0⟩ := entry
    simp only [List.map_cons, List.mem_cons, not_or] at hk
    have h1 : (k == k0) = false := by simpa using hk.1
    simp only [List.lookup, h1]
    exact ih hk.2

/-- Assigning the entries of a map with distinct keys, one after the other, gives a map with
the same entries on those keys. -/
theorem lookup_foldl_mapSet (entries : List (Str × Str)) (m : List (Str × Str))
    (hnd : (entries.map Prod.fst).Nodup) (k : Str) :
    (entries.foldl (fun acc kv => mapSet acc kv.1 kv.2) m).lookup k =
      match entries.lookup k with
      | some v => some v
      | none => m.lookup k := by
  induction entries generalizing m with
  | nil => rfl
  | cons entry rest ih =>
    obtain ⟨k0, v0⟩ := entry
    simp only [List.map_cons, List.nodup_cons] at hnd
    simp only [List.foldl_cons]
    rw [ih (mapSet m k0 v0) hnd.2]
    by_cases hk : k = k0
    · subst hk
      rw [lookup_eq_none_of_not_mem_keys rest k hnd.1]
      simp [List.lookup, lookup_mapSet_self]
    · have h1 : (k == k0) = false := by simpa using hk
      simp only [List.lookup, h1]
      rw [lookup_mapSet_of_ne m k0 v0 k hk]

theorem AnchorObject_ok_contentObject (g : Generator) (anchorEvent : Option AnchorEventType)
    {ao : AnchorObjectType} {c : contentObject} {m : List (Str × Str)}
    (hao : AnchorEventType.AnchorObject anchorEvent (AnchorEventType.Anchors anchorEvent) = .ok ao)
    (hc : Document.Unmarshal ao.contentObject = .ok c) (hs : c.Subject ≠ [])
    (hm : getPreviousAnchors c.Resources (AnchorEventType.Parent anchorEvent) = .ok m) :
    ∃ p, CreatePayload g anchorEvent = .ok p ∧ p.CoreIndex = c.Subject ∧
      p.PreviousAnchors = m ∧ p.OperationCount = c.Resources.length := by
  unfold CreatePayload
  simp only [hao, hc, hs, if_false, hm]
  exact ⟨_, rfl, rfl, rfl, rfl⟩

/-- What a successful `NewAnchorObject` has computed: the one URL of the anchor object is parsed
from the hashlink of the `json.Marshal` bytes of the content object. -/
theorem NewAnchorObject_ok {lib : Lib} {generator : Str} {contentObject : Document}
    {witness : Option ObjectType} {ao : AnchorObjectType}
    (h : NewAnchorObject lib generator contentObject witness = .ok ao) :
    ∃ bytes hl u, lib.jsonMarshal contentObject = some bytes ∧
      lib.CreateHashLink bytes = some hl ∧ lib.urlParse hl = some u ∧ ao.url = [u] ∧
      ao.generator = generator ∧ ao.contentObject = contentObject := by
  unfold NewAnchorObject at h
  cases hb : lib.jsonMarshal contentObject with
  | none => simp [hb] at h
  | some bytes =>
    simp only [hb] at h
    cases hhl : lib.CreateHashLink bytes with
    | none => simp [hhl] at h
    | some hl =>
      simp only [hhl] at h
      cases hu : lib.urlParse hl with
      | none => simp [hu] at h
      | some u =>
        simp only [hu, Except.ok.injEq] at h
        subst h
        exact ⟨bytes, hl, u, rfl, hhl, hu, rfl, rfl, rfl⟩

theorem AnchorObject_contentNotFound_of_none (t : Option AnchorEventType)
    (h : AnchorEventType.Anchors t = none) :
    AnchorEventType.AnchorObject t (AnchorEventType.Anchors t) = .error Err.contentNotFound := by
  rw [h]
  cases t <;> rfl

theorem AnchorObject_contentNotFound_of_no_match (e : AnchorEventType) (u : URL)
    (h : ∀ a ∈ e.attachment, Urls.Contains a.url u = false) :
    AnchorEventType.AnchorObject (some e) (some u) = .error Err.contentNotFound := by
  have hfind : e.attachment.find? (fun attachment => Urls.Contains attachment.url u) = none := by
    rw [List.find?_eq_none]
    intro a ha
    simp [h a ha]
  simp only [AnchorEventType.AnchorObject, hfind]

/-- The error of `AnchorObject` is always the content-not-found error. -/
theorem CreatePayload_of_AnchorObject_error (g : Generator) (t : Option AnchorEventType) (err : Err)
    (h : AnchorEventType.AnchorObject t (AnchorEventType.Anchors t) = .error err) :
    CreatePayload g t = .error Err.contentNotFound := by
  unfold CreatePayload
  rw [h]

theorem mem_mapSet {m : List (Str × Str)} {k v : Str} {kv : Str × Str}
    (h : kv ∈ mapSet m k v) : kv ∈ m ∨ kv = (k, v) := by
  induction m with
  | nil =>
    simp only [mapSet, List.mem_singleton] at h
    exact Or.inr h
  | cons entry m ih =>
    obtain ⟨k0, v0⟩ := entry
    simp only [mapSet] at h
    by_cases hk : k0 = k
    · rw [if_pos hk] at h
      rcases List.mem_cons.1 h with h1 | h1
      · exact Or.inr h1
      · exact Or.inl (List.mem_cons_of_mem _ h1)
    · rw [if_neg hk] at h
      rcases List.mem_cons.1 h with h1 | h1
      · exact Or.inl (h1 ▸ List.mem_cons_self _ _)
      · rcases ih h1 with h2 | h2
        · exact Or.inl (List.mem_cons_of_mem _ h2)
        · exact Or.inr h2

/-- Every value that the loop of `getPreviousAnchors` enters is empty or the string of a
parent. -/
theorem getPreviousAnchorsLoop_values {previous : Urls} {rs : List resource}
    {m out : List (Str × Str)} (h : getPreviousAnchorsLoop previous m rs = .ok out)
    (hm : ∀ kv ∈ m, kv.2 ≠ [] → ∃ u ∈ previous, u.String = kv.2) :
    ∀ kv ∈ out, kv.2 ≠ [] → ∃ u ∈ previous, u.String = kv.2 := by
  induction rs generalizing m with
  | nil =>
    simp only [getPreviousAnchorsLoop, Except.ok.injEq] at h
    subst h
    exact hm
  | cons r rest ih =>
    obtain ⟨suffix, v, _, hempty, hfound, hloop⟩ := getPreviousAnchorsLoop_cons_ok h
    apply ih hloop
    intro kv hkv hne
    rcases mem_mapSet hkv with hold | hnew
    · exact hm kv hold hne
    · subst hnew
      by_cases hp : r.PreviousAnchor = []
      · exact absurd (hempty hp) hne
      · obtain ⟨_, before, u, after, hsplit, _, _, hv⟩ :=
          getPreviousAnchorForResource_ok (hfound hp)
        exact ⟨u, by simp [hsplit], hv.symm⟩

theorem createResources_eq_map {entries : List (Str × Str)} {resources : List resource}
    (h : createResources entries = .ok resources) :
    resources = entries.map (fun kv =>
      ({ ID := multihashPrefix ++ ":".toList ++ kv.1,
         PreviousAnchor := sliceTo kv.2 (LastIndex kv.2 ":".toList) } : resource)) := by
  induction entries generalizing resources with
  | nil =>
    simp only [createResources, Except.ok.injEq] at h
    subst h
    rfl
  | cons entry rest ih =>
    obtain ⟨key, value⟩ := entry
    simp only [createResources] at h
    by_cases hv : value = []
    · rw [if_pos hv] at h
      cases hrest : createResources rest with
      | error e => simp [hrest] at h
      | ok rs =>
        simp only [hrest, Except.ok.injEq] at h
        subst h
        rw [List.map_cons, ← ih hrest, hv]
        rfl
    · rw [if_neg hv] at h
      by_cases hpos : LastIndex value ":".toList = -1
      · rw [if_pos hpos] at h
        cases h
      · rw [if_neg hpos] at h
        cases hrest : createResources rest with
        | error e => simp [hrest] at h
        | ok rs =>
          simp only [hrest, Except.ok.injEq] at h
          subst h
          rw [List.map_cons, ← ih hrest]

theorem createResources_ok_of_perm {entries entries1 : List (Str × Str)} {resources : List resource}
    (hperm : entries1.Perm entries) (h : createResources entries = .ok resources) :
    ∃ resources1, createResources entries1 = .ok resources1 ∧ resources1.Perm resources := by
  cases h1 : createResources entries1 with
  | error e =>
    obtain ⟨kv, hkv, hbad⟩ := (createResources_error_iff entries1).1 ⟨e, h1⟩
    obtain ⟨e0, he0⟩ := (createResources_error_iff entries).2 ⟨kv, hperm.mem_iff.1 hkv, hbad⟩
    rw [h] at he0
    cases he0
  | ok resources1 =>
    refine ⟨resources1, rfl, ?_⟩
    rw [createResources_eq_map h1, createResources_eq_map h]
    exact hperm.map _

/-- The response of `Activity.handle` once authorization, the activity IRI and the lookup in
the store have gone through. -/
theorem Activity_handle_of_found {h : Activity} {req : Request} {authorized : Bool}
    {activityIRI : URL} {activity : ActivityType}
    (hauth : h.Authorize req = .ok authorized)
    (hiri : h.getActivityIRI req = .ok activityIRI)
    (hget : h.activityStore.GetActivity activityIRI = .ok activity) :
    h.handle req =
      if !authorized && !Urls.Contains activity.To PublicIRI then
        { calls := [StoreCall.GetActivity activityIRI], status := StatusUnauthorized,
          body := Body.unauthorizedResponse }
      else
        match h.marshal (Marshalable.activity activity) with
        | .error _ =>
          { calls := [StoreCall.GetActivity activityIRI], status := StatusInternalServerError,
            body := Body.internalServerErrorResponse }
        | .ok activityBytes =>
          { calls := [StoreCall.GetActivity activityIRI], status := StatusOK,
            body := Body.bytes activityBytes } := by
  unfold Activity.handle
  simp only [hauth, hiri, hget]

theorem getActivities_calls (h : Activities) (objectIRI id : URL) (refType : ReferenceType) :
    ∀ c ∈ (h.getActivities objectIRI id refType).1, c.refType = some refType := by
  have hcalls : (h.getActivities objectIRI id refType).1 =
      [StoreCall.QueryReferences refType { ReferenceType := none, ObjectIRI := some objectIRI }] := by
    unfold Activities.getActivities
    simp only
    split
    · rfl
    · split
      · rfl
      · split
        · rfl
        · split <;> rfl
  rw [hcalls]
  intro c hc
  rw [List.mem_singleton] at hc
  subst hc
  rfl

theorem getPage_calls (h : Activities) (objectIRI id : URL) (refType : ReferenceType)
    (opts : List QueryOpt) :
    ∀ c ∈ (h.getPage objectIRI id refType opts).1, c.refType = some refType := by
  have hcalls : (h.getPage objectIRI id refType opts).1 =
      [StoreCall.QueryActivities { ReferenceType := some refType, ObjectIRI := some objectIRI }
        opts] := by
    unfold Activities.getPage
    simp only
    split
    · rfl
    · split
      · rfl
      · split
        · rfl
        · split <;> rfl
  rw [hcalls]
  intro c hc
  rw [List.mem_singleton] at hc
  subst hc
  rfl

theorem handleActivities_spec (h : Activities) (objectIRI id : URL) (refType : ReferenceType) :
    (∀ c ∈ (h.handleActivities objectIRI id refType).calls, c.refType = some refType) ∧
    ((h.handleActivities objectIRI id refType).status = StatusOK ∨
      (h.handleActivities objectIRI id refType).status = StatusInternalServerError) := by
  have hcalls := getActivities_calls h objectIRI id refType
  unfold Activities.handleActivities
  rcases hres : h.getActivities objectIRI id refType with ⟨calls, result⟩
  rw [hres] at hcalls
  cases result with
  | error err => exact ⟨hcalls, Or.inr rfl⟩
  | ok activities =>
    simp only
    cases h.marshal (Marshalable.collection activities) with
    | error err => exact ⟨hcalls, Or.inr rfl⟩
    | ok b => exact ⟨hcalls, Or.inl rfl⟩

theorem handleActivitiesPage_spec (h : Activities) (req : Request) (objectIRI id : URL)
    (refType : ReferenceType) :
    (∀ c ∈ (h.handleActivitiesPage req objectIRI id refType).calls, c.refType = some refType) ∧
    ((h.handleActivitiesPage req objectIRI id refType).status = StatusOK ∨
      (h.handleActivitiesPage req objectIRI id refType).status = StatusInternalServerError) := by
  unfold Activities.handleActivitiesPage
  simp only
  generalize hresult :
    (match h.getPageNum req with
      | some pageNum =>
        h.getPage objectIRI id refType
          [QueryOpt.WithPageSize h.PageSize, QueryOpt.WithPageNum pageNum,
           QueryOpt.WithSortOrder h.sortOrder]
      | none =>
        h.getPage objectIRI id refType
          [QueryOpt.WithPageSize h.PageSize, QueryOpt.WithSortOrder h.sortOrder]) = result
  have hcalls : ∀ c ∈ result.1, c.refType = some refType := by
    rw [← hresult]
    cases h.getPageNum req with
    | some pageNum => exact getPage_calls h objectIRI id refType _
    | none => exact getPage_calls h objectIRI id refType _
  rcases result with ⟨calls, res⟩
  cases res with
  | error err => exact ⟨hcalls, Or.inr rfl⟩
  | ok page =>
    simp only
    cases h.marshal (Marshalable.page page) with
    | error err => exact ⟨hcalls, Or.inr rfl⟩
    | ok b => exact ⟨hcalls, Or.inl rfl⟩

/-- Every call that `handleActivityRefsOfType` makes to the store reads the reference set it
was given, and its answer is 200, 400 or 500. -/
theorem handleActivityRefsOfType_spec (h : Activities) (req : Request) (refType : ReferenceType) :
    (∀ c ∈ (h.handleActivityRefsOfType req refType).calls, c.refType = some refType) ∧
    ((h.handleActivityRefsOfType req refType).status = StatusOK ∨
      (h.handleActivityRefsOfType req refType).status = StatusBadRequest ∨
      (h.handleActivityRefsOfType req refType).status = StatusInternalServerError) := by
  unfold Activities.handleActivityRefsOfType
  cases h.getObjectIRIAndID req with
  | error err =>
    simp only
    cases err.IsBadRequest
    · exact ⟨by simp, Or.inr (Or.inr (by simp))⟩
    · exact ⟨by simp, Or.inr (Or.inl (by simp))⟩
  | ok ids =>
    obtain ⟨objectIRI, id⟩ := ids
    simp only
    cases h.isPaging req
    · obtain ⟨h1, h2⟩ := handleActivities_spec h objectIRI id refType
      refine ⟨by simpa using h1, ?_⟩
      rcases h2 with h2 | h2
      · exact Or.inl (by simpa using h2)
      · exact Or.inr (Or.inr (by simpa using h2))
    · obtain ⟨h1, h2⟩ := handleActivitiesPage_spec h req objectIRI id refType
      refine ⟨by simpa using h1, ?_⟩
      rcases h2 with h2 | h2
      · exact Or.inl (by simpa using h2)
      · exact Or.inr (Or.inr (by simpa using h2))

theorem status_ne_unauthorized {status : Nat}
    (h : status = StatusOK ∨ status = StatusBadRequest ∨ status = StatusInternalServerError) :
    status ≠ StatusUnauthorized := by
  rcases h with h | h | h <;> rw [h] <;> decide

/-- The attachment that the loop of `Validate` ends on is the first attachment whose URL list
contains the anchors URL. -/
theorem validateAttachments_some_first {lib : Lib} {anchors : URL}
    {attachments : List AnchorObjectType} {ao : AnchorObjectType}
    (h : validateAttachments lib anchors attachments = .ok (some ao)) :
    attachments.find? (fun attachment => Urls.Contains attachment.url anchors) = some ao := by
  induction attachments with
  | nil => simp [validateAttachments] at h
  | cons attachment rest ih =>
    simp only [validateAttachments] at h
    by_cases hty : TypeProperty.Is attachment.types TypeAnchorObject = true
    · simp only [hty, Bool.not_true, Bool.false_eq_true, if_false] at h
      cases hval : validateAnchorObject lib attachment with
      | error e => simp [hval] at h
      | ok done =>
        simp only [hval] at h
        obtain ⟨u, hurl, _⟩ := validateAnchorObject_ok hval
        simp only [hurl] at h
        by_cases hu : u.String = anchors.String
        · rw [if_pos hu] at h
          simp only [Except.ok.injEq, Option.some.injEq] at h
          subst h
          have hc : Urls.Contains attachment.url anchors = true := by
            simp [Urls.Contains, hurl, hu]
          simp [List.find?, hc]
        · rw [if_neg hu] at h
          have hc : Urls.Contains attachment.url anchors = false := by
            simp [Urls.Contains, hurl, hu]
          simp only [List.find?, hc]
          exact ih h
    · simp [hty] at h

theorem validateAnchorObject_ne_indexOutOfRange (lib : Lib) (ao : AnchorObjectType) :
    validateAnchorObject lib ao ≠ .error Err.indexOutOfRange := by
  unfold validateAnchorObject
  by_cases hlen : ao.url.length ≠ 1
  · rw [if_pos hlen]
    simp
  · rw [if_neg hlen]
    cases hurl : ao.url with
    | nil => simp [hurl] at hlen
    | cons u rest =>
      simp only
      split_ifs
      · simp
      · simp
      · cases lib.MarshalCanonical ao.contentObject with
        | none => simp
        | some bytes =>
          simp only
          cases lib.CreateHashLink bytes with
          | none => simp
          | some hl =>
            simp only
            split_ifs <;> simp

theorem validateAttachments_ne_indexOutOfRange (lib : Lib) (anchors : URL)
    (attachments : List AnchorObjectType) :
    validateAttachments lib anchors attachments ≠ .error Err.indexOutOfRange := by
  induction attachments with
  | nil => simp [validateAttachments]
  | cons attachment rest ih =>
    simp only [validateAttachments]
    by_cases hty : TypeProperty.Is attachment.types TypeAnchorObject = true
    · simp only [hty, Bool.not_true, Bool.false_eq_true, if_false]
      cases hval : validateAnchorObject lib attachment with
      | error e =>
        simp only
        intro he
        simp only [Except.error.injEq] at he
        rw [he] at hval
        exact validateAnchorObject_ne_indexOutOfRange lib attachment hval
      | ok done =>
        obtain ⟨u, hurl, _⟩ := validateAnchorObject_ok hval
        simp only [hurl]
        split_ifs
        · simp
        · exact ih
    · simp [hty]

theorem keys_mapSet_of_not_mem (m : List (Str × Str)) (k v : Str)
    (hk : k ∉ m.map Prod.fst) : (mapSet m k v).map Prod.fst = m.map Prod.fst ++ [k] := by
  induction m with
  | nil => rfl
  | cons entry m ih =>
    obtain ⟨k0, v0⟩ := entry
    simp only [List.map_cons, List.mem_cons, not_or] at hk
    have hne : ¬ k0 = k := fun he => hk.1 he.symm
    simp only [mapSet, hne, if_false, List.map_cons, List.cons_append]
    rw [ih hk.2]

/-- The keys that the loop of `getPreviousAnchors` enters for the resources written by
`CreateContentObject` are the keys of the map, in the order of the entries. -/
theorem getPreviousAnchorsLoop_keys {previous : Urls} {entries : List (Str × Str)}
    {rs : List resource} {m out : List (Str × Str)}
    (hres : createResources entries = .ok rs)
    (h : getPreviousAnchorsLoop previous m rs = .ok out)
    (hnd : (entries.map Prod.fst).Nodup)
    (hnew : ∀ k ∈ entries.map Prod.fst, k ∉ m.map Prod.fst) :
    out.map Prod.fst = m.map Prod.fst ++ entries.map Prod.fst := by
  induction entries generalizing rs m with
  | nil =>
    simp only [createResources, Except.ok.injEq] at hres
    subst hres
    simp only [getPreviousAnchorsLoop, Except.ok.injEq] at h
    subst h
    simp
  | cons entry rest ih =>
    obtain ⟨key, value⟩ := entry
    have hmap := createResources_eq_map hres
    simp only [List.map_cons] at hmap
    subst hmap
    obtain ⟨suffix, v, hrem, _, _, hloop⟩ := getPreviousAnchorsLoop_cons_ok h
    have hkey : suffix = key := by
      have h1 : removeMultihashPrefix (multihashPrefix ++ ":".toList ++ key) = .ok key :=
        removeMultihashPrefix_append key
      simp only at hrem
      rw [h1] at hrem
      simp only [Except.ok.injEq] at hrem
      exact hrem.symm
    subst hkey
    simp only [List.map_cons, List.nodup_cons] at hnd
    have hrest : createResources rest = .ok (rest.map (fun kv =>
        ({ ID := multihashPrefix ++ ":".toList ++ kv.1,
           PreviousAnchor := sliceTo kv.2 (LastIndex kv.2 ":".toList) } : resource))) := by
      cases hr : createResources rest with
      | error e =>
        obtain ⟨kv, hkv, hbad⟩ := (createResources_error_iff rest).1 ⟨e, hr⟩
        obtain ⟨e0, he0⟩ := (createResources_error_iff ((suffix, value) :: rest)).2
          ⟨kv, List.mem_cons_of_mem _ hkv, hbad⟩
        rw [hres] at he0
        cases he0
      | ok rs1 => rw [createResources_eq_map hr]
    have hnotin : suffix ∉ m.map Prod.fst := hnew suffix (by simp)
    have hnew1 : ∀ k ∈ rest.map Prod.fst, k ∉ (mapSet m suffix v).map Prod.fst := by
      intro k hk
      rw [keys_mapSet_of_not_mem m suffix v hnotin]
      simp only [List.mem_append, List.mem_singleton, not_or]
      refine ⟨hnew k (by simp [List.mem_map] at hk ⊢; exact Or.inr hk), ?_⟩
      intro hks
      subst hks
      exact hnd.1 hk
    rw [ih hrest hloop hnd.2 hnew1, keys_mapSet_of_not_mem m suffix v hnotin]
    simp

theorem lookup_chansPut_of_ne (m : List (Str × List (Chan Message))) (topic t : Str)
    (chans : List (Chan Message)) (h : t ≠ topic) :
    (chansPut m topic chans).lookup t = m.lookup t := by
  induction m with
  | nil => rfl
  | cons kv m ih =>
    obtain ⟨k, v⟩ := kv
    unfold chansPut at ih ⊢
    by_cases hk : k = topic
    · subst hk
      have ht : (t == k) = false := by simpa using h
      simp only [List.map_cons, if_true, List.lookup_cons, ht]
      exact ih
    · by_cases htk : t = k
      · subst htk
        simp [List.lookup_cons, hk]
      · have ht : (t == k) = false := by simpa using htk
        simp only [List.map_cons, if_neg hk, List.lookup_cons, ht]
        exact ih

theorem chansOf_chansPut_of_ne (m : List (Str × List (Chan Message))) (topic t : Str)
    (chans : List (Chan Message)) (h : t ≠ topic) :
    chansOf (chansPut m topic chans) t = chansOf m t := by
  unfold chansOf
  rw [lookup_chansPut_of_ne m topic t chans h]

theorem lookup_chansPut_self (m : List (Str × List (Chan Message))) (topic : Str)
    (chans : List (Chan Message)) :
    (chansPut m topic chans).lookup topic = (m.lookup topic).map (fun _ => chans) := by
  induction m with
  | nil => rfl
  | cons kv m ih =>
    obtain ⟨k, v⟩ := kv
    unfold chansPut at ih ⊢
    by_cases hk : k = topic
    · subst hk
      simp [List.lookup_cons]
    · have ht : (topic == k) = false := by
        simpa using fun h : topic = k => hk h.symm
      simp only [List.map_cons, if_neg hk, List.lookup_cons, ht]
      exact ih

/-- After the channels `f` of the channels of a topic were put back, the topic has them. -/
theorem chansOf_chansPut_map (m : List (Str × List (Chan Message))) (topic : Str)
    (f : Chan Message → Chan Message) :
    chansOf (chansPut m topic ((chansOf m topic).map f)) topic = (chansOf m topic).map f := by
  unfold chansOf
  rw [lookup_chansPut_self]
  cases h : m.lookup topic <;> simp

theorem Next_spec {α : Type} (it : iterator α) :
    (it.Next).1.results = it.results ∧ (it.Next).1.totalItems = it.totalItems ∧
    (it.Next).1.current = min (it.current + 1) (max it.current it.results.length) := by
  unfold iterator.Next
  cases hget : it.results.get? it.current with
  | none =>
    have hlen := List.get?_eq_none.1 hget
    refine ⟨rfl, rfl, ?_⟩
    show it.current = _
    omega
  | some item =>
    have hlen := (List.get?_eq_some.1 hget).1
    refine ⟨rfl, rfl, ?_⟩
    show it.current + 1 = _
    omega

theorem afterNext_spec {α : Type} (n : Nat) (it : iterator α) :
    (it.afterNext n).results = it.results ∧ (it.afterNext n).totalItems = it.totalItems ∧
    (it.afterNext n).current = min (it.current + n) (max it.current it.results.length) := by
  induction n generalizing it with
  | zero =>
    refine ⟨rfl, rfl, ?_⟩
    show it.current = _
    omega
  | succ n ih =>
    show ((it.Next).1.afterNext n).results = _ ∧ ((it.Next).1.afterNext n).totalItems = _ ∧
      ((it.Next).1.afterNext n).current = _
    obtain ⟨h1, h2, h3⟩ := ih (it.Next).1
    obtain ⟨g1, g2, g3⟩ := Next_spec it
    rw [h1, h2, h3, g1, g2, g3]
    refine ⟨rfl, rfl, ?_⟩
    omega

theorem afterNext_Next {α : Type} (results : List α) (totalItems : Int) (n : Nat) :
    (iterator.afterNext { results := results, current := 0, totalItems := totalItems } n).TotalItems
      = totalItems ∧
    (∀ hn : n < results.length,
      ((iterator.afterNext { results := results, current := 0, totalItems := totalItems } n).Next).2
        = .ok (results.get ⟨n, hn⟩)) ∧
    (results.length ≤ n →
      ((iterator.afterNext { results := results, current := 0, totalItems := totalItems } n).Next).2
        = .error ErrNotFound) := by
  obtain ⟨h1, h2, h3⟩ := afterNext_spec n
    ({ results := results, current := 0, totalItems := totalItems } : iterator α)
  simp only [Nat.zero_add] at h3
  refine ⟨h2, ?_, ?_⟩
  · intro hn
    unfold iterator.Next
    rw [h1, h3]
    have hmin : min n (max 0 results.length) = n := by omega
    rw [hmin]
    show (match results.get? n with
      | some item => (_, Except.ok item)
      | none => (_, Except.error ErrNotFound)).2 = _
    rw [List.get?_eq_get hn]
  · intro hn
    unfold iterator.Next
    rw [h1, h3]
    have hmin : min n (max 0 results.length) = results.length := by omega
    rw [hmin]
    show (match results.get? results.length with
      | some item => (_, Except.ok item)
      | none => (_, Except.error ErrNotFound)).2 = _
    rw [List.get?_eq_none.2 (Nat.le_refl _)]

theorem chansOf_chansPut_self (m : List (Str × List (Chan Message))) (topic : Str)
    (chans : List (Chan Message)) (h : m.lookup topic = none → chans = []) :
    chansOf (chansPut m topic chans) topic = chans := by
  unfold chansOf
  rw [lookup_chansPut_self]
  cases hl : m.lookup topic with
  | none => simp [h hl]
  | some v => simp

theorem chansOf_eq_nil_of_lookup (m : List (Str × List (Chan Message))) (topic : Str)
    (h : m.lookup topic = none) : chansOf m topic = [] := by
  unfold chansOf
  rw [h]

/-- Putting back the channels of a topic with one of them replaced keeps the number of
channels of every topic. -/
theorem length_chansOf_chansPut_set (m : List (Str × List (Chan Message))) (topic t : Str)
    (index : Nat) (c : Chan Message) :
    (chansOf (chansPut m topic ((chansOf m topic).set index c)) t).length =
      (chansOf m t).length := by
  by_cases ht : t = topic
  · subst ht
    rw [chansOf_chansPut_self]
    · simp
    · intro hl
      rw [chansOf_eq_nil_of_lookup m t hl]
      rfl
  · rw [chansOf_chansPut_of_ne _ _ _ _ ht]

theorem chansOf_chansPut_set (m : List (Str × List (Chan Message))) (topic : Str)
    (index : Nat) (c : Chan Message) :
    chansOf (chansPut m topic ((chansOf m topic).set index c)) topic =
      (chansOf m topic).set index c := by
  apply chansOf_chansPut_self
  intro hl
  rw [chansOf_eq_nil_of_lookup m topic hl]
  rfl

theorem chansOf_chansSet_self (m : List (Str × List (Chan Message))) (topic : Str)
    (chans : List (Chan Message)) : chansOf (chansSet m topic chans) topic = chans := by
  induction m with
  | nil => simp [chansSet, chansOf, List.lookup]
  | cons kv m ih =>
    obtain ⟨k, v⟩ := kv
    unfold chansSet
    by_cases hk : k = topic
    · rw [if_pos hk]
      simp [chansOf, List.lookup]
    · rw [if_neg hk]
      have hb : (topic == k) = false := by
        simpa using fun h : topic = k => hk h.symm
      unfold chansOf at ih ⊢
      simp only [List.lookup_cons, hb]
      exact ih

theorem chansOf_chansSet_of_ne (m : List (Str × List (Chan Message))) (topic t : Str)
    (chans : List (Chan Message)) (h : t ≠ topic) :
    chansOf (chansSet m topic chans) t = chansOf m t := by
  induction m with
  | nil =>
    have hb : (t == topic) = false := by simpa using h
    simp [chansSet, chansOf, List.lookup, hb]
  | cons kv m ih =>
    obtain ⟨k, v⟩ := kv
    unfold chansSet
    by_cases hk : k = topic
    · rw [if_pos hk]
      subst hk
      have hb : (t == k) = false := by simpa using h
      simp [chansOf, List.lookup, hb]
    · rw [if_neg hk]
      unfold chansOf at ih ⊢
      by_cases htk : t = k
      · subst htk
        simp [List.lookup]
      · have hb : (t == k) = false := by simpa using htk
        simp only [List.lookup_cons, hb]
        exact ih

theorem length_chansOf_postToUndeliverable (p : PubSub) (msg : Message) (t : Str) :
    (chansOf (p.postToUndeliverable msg).msgChansByTopic t).length =
      (chansOf p.msgChansByTopic t).length := by
  unfold PubSub.postToUndeliverable
  simp only
  by_cases ht : t = UndeliverableTopic
  · subst ht
    rw [chansOf_chansPut_map]
    simp
  · rw [chansOf_chansPut_of_ne _ _ _ _ ht]

/-- What a send statement shows when it completes. -/
theorem publishSend_spec {p p1 : PubSub} {w : Bool} {events : List Event}
    (h : p.publishSend w = some (p1, events)) :
    p1.state = p.state ∧ p1.publishChan = p.publishChan ∧
    (∀ t, (chansOf p1.msgChansByTopic t).length = (chansOf p.msgChansByTopic t).length) ∧
    ((∃ topic index msg, p.publishing = sendOp.toChan topic index msg :: p1.publishing ∧
        index < (chansOf p.msgChansByTopic topic).length ∧
        (events = [Event.delivered topic index msg] ∨
          events = [Event.delivered topic index msg, Event.received topic index msg])) ∨
      (∃ msg, p.publishing = sendOp.toAck msg :: p1.publishing ∧
        (events = [Event.tracked msg] ∨
          events = [Event.tracked msg, Event.dispatched msg]))) := by
  unfold PubSub.publishSend at h
  cases hops : p.publishing with
  | nil => simp [hops] at h
  | cons op ops =>
    cases op with
    | toChan topic index msg =>
      simp only [hops] at h
      cases hget : (chansOf p.msgChansByTopic topic)[index]? with
      | none => simp [hget] at h
      | some msgChan =>
        have hlt : index < (chansOf p.msgChansByTopic topic).length := by
          by_contra hge
          rw [List.getElem?_eq_none (Nat.le_of_not_lt hge)] at hget
          exact absurd hget (by simp)
        simp only [hget] at h
        cases hsend : msgChan.send msg with
        | some msgChan1 =>
          simp only [hsend, Option.some.injEq, Prod.mk.injEq] at h
          obtain ⟨hp, hev⟩ := h
          subst hp
          refine ⟨rfl, rfl, ?_, Or.inl ⟨topic, index, msg, rfl, hlt, Or.inl hev.symm⟩⟩
          intro t
          exact length_chansOf_chansPut_set _ _ _ _ _
        | none =>
          simp only [hsend] at h
          split at h
          · simp only [Option.some.injEq, Prod.mk.injEq] at h
            obtain ⟨hp, hev⟩ := h
            subst hp
            exact ⟨rfl, rfl, fun _ => rfl,
              Or.inl ⟨topic, index, msg, rfl, hlt, Or.inr hev.symm⟩⟩
          · exact absurd h (by simp)
    | toAck msg =>
      simp only [hops] at h
      cases hsend : p.ackChan.send msg with
      | some ackChan1 =>
        simp only [hsend, Option.some.injEq, Prod.mk.injEq] at h
        obtain ⟨hp, hev⟩ := h
        subst hp
        exact ⟨rfl, rfl, fun _ => rfl, Or.inr ⟨msg, rfl, Or.inl hev.symm⟩⟩
      | none =>
        simp only [hsend] at h
        split at h
        · simp only [Option.some.injEq, Prod.mk.injEq] at h
          obtain ⟨hp, hev⟩ := h
          subst hp
          exact ⟨rfl, rfl, fun _ => rfl, Or.inr ⟨msg, rfl, Or.inr hev.symm⟩⟩
        · exact absurd h (by simp)

theorem step_Publish {p p1 : PubSub} {topic : Str} {messages : List Message}
    {log : List Event} :
    p.step (Action.Publish topic messages) = some (p1, log) ↔
      p.Publish topic messages = (p1, PublishResult.returned none) ∧ log = [] := by
  cases hr : p.Publish topic messages with
  | mk p2 res =>
    cases res with
    | blocks => simp [PubSub.step, hr]
    | returned err =>
      cases err with
      | none =>
        simp only [PubSub.step, hr, Option.some.injEq, Prod.mk.injEq, and_true]
        constructor
        · rintro ⟨h1, h2⟩
          exact ⟨h1, h2.symm⟩
        · rintro ⟨h1, h2⟩
          exact ⟨h1, h2.symm⟩
      | some e => simp [PubSub.step, hr]

theorem step_Subscribe {p p1 : PubSub} {topic : Str} {log : List Event}
    (h : p.step (Action.Subscribe topic) = some (p1, log)) :
    p1 = { p with msgChansByTopic := (chansSet p.msgChansByTopic topic
      (chansOf p.msgChansByTopic topic ++ [Chan.make p.BufferSize])) } ∧ log = [] := by
  by_cases hst : p.state = State.StateStarted
  · simp only [PubSub.step, PubSub.Subscribe, hst, ne_eq, not_true_eq_false, if_false,
      Option.some.injEq, Prod.mk.injEq] at h
    refine ⟨?_, h.2.symm⟩
    rw [← h.1, hst]
  · simp [PubSub.step, PubSub.Subscribe, hst] at h

/-- The four kinds of steps, by what they do to the sends under way, to the entries that wait
and to the number of channels: a call of `Publish` that queues its entry; the start of a
`publish`, from a call of `Publish` or a round of `processMessages`; a send of `publish`; and
the steps that touch neither. -/
theorem step_spec {p p1 : PubSub} {a : Action} {log : List Event}
    (h : p.step a = some (p1, log)) :
    p1.state = p.state ∧
    (∀ t, (chansOf p.msgChansByTopic t).length ≤ (chansOf p1.msgChansByTopic t).length) ∧
    ((∃ e : entry, a = Action.Publish e.topic e.messages ∧ p1.publishing = p.publishing ∧
        p1.publishChan.queue = p.publishChan.queue ++ [e] ∧ log = []) ∨
      (∃ e : entry,
        ((a = Action.Publish e.topic e.messages ∧ p.publishChan.queue = [] ∧
            p1.publishChan.queue = []) ∨
          (a = Action.processMessages ∧ p.publishChan.queue = e :: p1.publishChan.queue)) ∧
        p.publishing = [] ∧
        p1.publishing = publishOps e.topic (chansOf p.msgChansByTopic e.topic).length e.messages ∧
        (∀ t, (chansOf p1.msgChansByTopic t).length = (chansOf p.msgChansByTopic t).length) ∧
        log = []) ∨
      (∃ w, a = Action.publish w ∧ p1.publishChan.queue = p.publishChan.queue ∧
        (∀ t, (chansOf p1.msgChansByTopic t).length = (chansOf p.msgChansByTopic t).length) ∧
        ((∃ topic index msg, p.publishing = sendOp.toChan topic index msg :: p1.publishing ∧
            (log = [Event.delivered topic index msg] ∨
              log = [Event.delivered topic index msg, Event.received topic index msg]) ∧
            index < (chansOf p.msgChansByTopic topic).length) ∨
          (∃ msg, p.publishing = sendOp.toAck msg :: p1.publishing ∧
            (log = [Event.tracked msg] ∨ log = [Event.tracked msg, Event.dispatched msg])))) ∨
      (a.call = none ∧ (∀ t, a.published t = []) ∧ p1.publishing = p.publishing ∧
        p1.publishChan.queue = p.publishChan.queue ∧
        (log = [] ∨ (∃ t i msg, log = [Event.received t i msg]) ∨
          ∃ msg, log = [Event.dispatched msg]))) := by
  cases a with
  | Publish topic messages =>
    obtain ⟨h, hl⟩ := step_Publish.1 h
    unfold PubSub.Publish at h
    by_cases hst : p.state ≠ State.StateStarted
    · rw [if_pos hst] at h
      simp at h
    · rw [if_neg hst] at h
      cases hsend : p.publishChan.send { topic := topic, messages := messages } with
      | some c =>
        simp only [hsend, Prod.mk.injEq, and_true] at h
        subst h
        unfold Chan.send at hsend
        split at hsend
        · simp only [Option.some.injEq] at hsend
          subst hsend
          exact ⟨rfl, fun _ => Nat.le_refl _,
            Or.inl ⟨{ topic := topic, messages := messages }, rfl, rfl, rfl, hl⟩⟩
        · exact absurd hsend (by simp)
      | none =>
        simp only [hsend] at h
        by_cases hidle : p.publishing = [] ∧ p.publishChan.queue = []
        · rw [if_pos hidle] at h
          simp only [Prod.mk.injEq, and_true] at h
          subst h
          exact ⟨rfl, fun _ => Nat.le_refl _,
            Or.inr (Or.inl ⟨{ topic := topic, messages := messages },
              Or.inl ⟨rfl, hidle.2, hidle.2⟩, hidle.1, rfl, fun _ => rfl, hl⟩)⟩
        · rw [if_neg hidle] at h
          simp at h
  | Subscribe topic =>
    obtain ⟨h, hl⟩ := step_Subscribe h
    refine ⟨by rw [h], ?_,
      Or.inr (Or.inr (Or.inr ⟨rfl, fun _ => rfl, by rw [h], by rw [h], Or.inl hl⟩))⟩
    intro t
    rw [h]
    by_cases ht : t = topic
    · subst ht
      show _ ≤ (chansOf (chansSet _ _ _) _).length
      rw [chansOf_chansSet_self]
      simp
    · show _ ≤ (chansOf (chansSet _ _ _) _).length
      rw [chansOf_chansSet_of_ne _ _ _ _ ht]
  | processMessages =>
    simp only [PubSub.step] at h
    cases hpm : p.processMessages with
    | none => simp [hpm] at h
    | some p2 =>
      simp only [hpm, Option.some.injEq, Prod.mk.injEq] at h
      obtain ⟨hp, hl⟩ := h
      subst hp
      unfold PubSub.processMessages at hpm
      by_cases hidle : p.publishing ≠ []
      · rw [if_pos hidle] at hpm
        simp at hpm
      · rw [if_neg hidle] at hpm
        cases hq : p.publishChan.queue with
        | nil => simp [hq] at hpm
        | cons e queue =>
          simp only [hq, Option.some.injEq] at hpm
          subst hpm
          exact ⟨rfl, fun _ => Nat.le_refl _,
            Or.inr (Or.inl ⟨e, Or.inr ⟨rfl, rfl⟩, not_not.1 hidle, rfl, fun _ => rfl,
              hl.symm⟩)⟩
  | publish w =>
    simp only [PubSub.step] at h
    obtain ⟨h1, h2, h3, h4⟩ := publishSend_spec h
    refine ⟨h1, fun t => Nat.le_of_eq (h3 t).symm,
      Or.inr (Or.inr (Or.inl ⟨w, rfl, by rw [h2], h3, ?_⟩))⟩
    rcases h4 with ⟨topic, index, msg, hops, hlt, hev⟩ | ⟨msg, hops, hev⟩
    · exact Or.inl ⟨topic, index, msg, hops, hev, hlt⟩
    · exact Or.inr ⟨msg, hops, hev⟩
  | processAcks =>
    simp only [PubSub.step] at h
    cases hpa : p.processAcks with
    | none => simp [hpa] at h
    | some r =>
      obtain ⟨p2, m⟩ := r
      simp only [hpa, Option.some.injEq, Prod.mk.injEq] at h
      obtain ⟨hp, hl⟩ := h
      subst hp
      unfold PubSub.processAcks at hpa
      cases hq : p.ackChan.queue with
      | nil => simp [hq] at hpa
      | cons msg queue =>
        simp only [hq, Option.some.injEq, Prod.mk.injEq] at hpa
        obtain ⟨hpa1, _⟩ := hpa
        subst hpa1
        exact ⟨rfl, fun _ => Nat.le_refl _,
          Or.inr (Or.inr (Or.inr ⟨rfl, fun _ => rfl, rfl, rfl, Or.inr (Or.inr ⟨m, hl.symm⟩)⟩))⟩
  | check msg signal =>
    simp only [PubSub.step] at h
    cases hcd : p.checkDone msg signal with
    | none => simp [hcd] at h
    | some p2 =>
      simp only [hcd, Option.some.injEq, Prod.mk.injEq] at h
      obtain ⟨hp, hl⟩ := h
      subst hp
      unfold PubSub.checkDone at hcd
      split at hcd
      · simp only [Option.some.injEq] at hcd
        subst hcd
        cases signal with
        | Acked =>
          exact ⟨rfl, fun _ => Nat.le_refl _,
            Or.inr (Or.inr (Or.inr ⟨rfl, fun _ => rfl, rfl, rfl, Or.inl hl.symm⟩))⟩
        | Nacked =>
          exact ⟨rfl, fun t => Nat.le_of_eq (length_chansOf_postToUndeliverable p msg t).symm,
            Or.inr (Or.inr (Or.inr ⟨rfl, fun _ => rfl, rfl, rfl, Or.inl hl.symm⟩))⟩
        | Timeout =>
          exact ⟨rfl, fun t => Nat.le_of_eq (length_chansOf_postToUndeliverable p msg t).symm,
            Or.inr (Or.inr (Or.inr ⟨rfl, fun _ => rfl, rfl, rfl, Or.inl hl.symm⟩))⟩
      · simp at hcd
  | receive topic index =>
    simp only [PubSub.step] at h
    cases hr : p.receive topic index with
    | none => simp [hr] at h
    | some r =>
      obtain ⟨p2, m0⟩ := r
      simp only [hr, Option.some.injEq, Prod.mk.injEq] at h
      obtain ⟨hp, hl⟩ := h
      subst hp
      unfold PubSub.receive at hr
      simp only at hr
      cases hget : (chansOf p.msgChansByTopic topic)[index]? with
      | none => simp [hget] at hr
      | some msgChan =>
        simp only [hget] at hr
        cases hq : msgChan.queue with
        | nil => simp [hq] at hr
        | cons m queue =>
          simp only [hq, Option.some.injEq, Prod.mk.injEq] at hr
          obtain ⟨hr1, _⟩ := hr
          subst hr1
          exact ⟨rfl, fun t => Nat.le_of_eq (length_chansOf_chansPut_set _ _ _ _ _).symm,
            Or.inr (Or.inr (Or.inr ⟨rfl, fun _ => rfl, rfl, rfl,
              Or.inr (Or.inl ⟨topic, index, m0, hl.symm⟩)⟩))⟩

theorem filterMap_forChan_sends (t topic : Str) (i index : Nat) (messages : List Message) :
    (messages.flatMap (fun m => [sendOp.toChan t i m.Copy, sendOp.toAck m.Copy])).filterMap
        (sendOp.forChan topic index) =
      if t = topic ∧ i = index then messages.map Message.Copy else [] := by
  induction messages with
  | nil => simp
  | cons m messages ih =>
    rw [List.flatMap_cons, List.filterMap_append, ih]
    by_cases h : t = topic ∧ i = index
    · simp [sendOp.forChan, h]
    · simp [sendOp.forChan, h]

/-- Among the sends of a call of `publish`, those to one channel of the topic carry the copies
of the messages, in order. -/
theorem filterMap_forChan_publishOps (t topic : Str) (n index : Nat) (messages : List Message) :
    (publishOps t n messages).filterMap (sendOp.forChan topic index) =
      if t = topic ∧ index < n then messages.map Message.Copy else [] := by
  unfold publishOps
  induction n with
  | zero => simp
  | succ n ih =>
    rw [List.range_succ, List.flatMap_append, List.filterMap_append, ih]
    simp only [List.flatMap_cons, List.flatMap_nil, List.append_nil]
    rw [filterMap_forChan_sends]
    by_cases ht : t = topic
    · by_cases h1 : index < n
      · have h2 : ¬ n = index := by omega
        have h3 : index < n + 1 := by omega
        simp [ht, h1, h2, h3]
      · by_cases h2 : n = index
        · have h3 : index < n + 1 := by omega
          simp [ht, h1, h2]
        · have h3 : ¬ index < n + 1 := by omega
          simp [ht, h1, h2, h3]
    · simp [ht]

theorem filterMap_chanMsg_sends (t : Str) (i : Nat) (messages : List Message) :
    (messages.flatMap (fun m => [sendOp.toChan t i m.Copy, sendOp.toAck m.Copy])).filterMap
        sendOp.chanMsg = messages.map Message.Copy ∧
    (messages.flatMap (fun m => [sendOp.toChan t i m.Copy, sendOp.toAck m.Copy])).filterMap
        sendOp.ackMsg = messages.map Message.Copy := by
  induction messages with
  | nil => simp
  | cons m messages ih =>
    rw [List.flatMap_cons, List.filterMap_append, List.filterMap_append, ih.1, ih.2]
    simp [sendOp.chanMsg, sendOp.ackMsg]

/-- The sends of a call of `publish` to the subscriber channels and its sends to `ackChan`
carry the same copies in the same order. -/
theorem filterMap_chanMsg_publishOps (t : Str) (n : Nat) (messages : List Message) :
    (publishOps t n messages).filterMap sendOp.chanMsg =
      (publishOps t n messages).filterMap sendOp.ackMsg := by
  unfold publishOps
  induction n with
  | zero => simp
  | succ n ih =>
    rw [List.range_succ, List.flatMap_append, List.filterMap_append, List.filterMap_append, ih]
    simp only [List.flatMap_cons, List.flatMap_nil, List.append_nil]
    rw [(filterMap_chanMsg_sends t n messages).1, (filterMap_chanMsg_sends t n messages).2]

/-- A step hands to each channel that is there what it takes from the copies on their way to
it, and adds the copies of the messages of a call of `Publish` for the topic. -/
theorem step_pendingFor {p p1 : PubSub} {a : Action} {log : List Event}
    (h : p.step a = some (p1, log)) (topic : Str) (index : Nat)
    (hindex : index < (chansOf p.msgChansByTopic topic).length) :
    log.filterMap (Event.deliveredTo topic index) ++ p1.pendingFor topic index =
      p.pendingFor topic index ++ a.published topic := by
  obtain ⟨_, _, hcases⟩ := step_spec h
  unfold PubSub.pendingFor
  rcases hcases with ⟨e, ha, hops, hq, hl⟩ | ⟨e, hfrom, hidle, hops, _, hl⟩ |
      ⟨w, ha, hq, _, hsend⟩ | ⟨_, hpub, hops, hq, hl⟩
  · rw [hl, hops, hq, ha]
    by_cases ht : e.topic = topic
    · simp [Action.published, ht, List.filter_append]
    · simp [Action.published, ht, List.filter_append]
  · rw [hl, hidle, hops, filterMap_forChan_publishOps]
    rcases hfrom with ⟨ha, hq, hq1⟩ | ⟨ha, hq⟩
    · rw [ha, hq, hq1]
      by_cases ht : e.topic = topic
      · subst ht
        simp [Action.published, hindex]
      · simp [Action.published, ht]
    · rw [ha, hq]
      by_cases ht : e.topic = topic
      · subst ht
        simp [Action.published, hindex, List.filter_cons]
      · simp [Action.published, ht, List.filter_cons]
  · rw [ha, hq]
    rcases hsend with ⟨t, i, msg, hops, hl, _⟩ | ⟨msg, hops, hl⟩
    · rw [hops]
      by_cases hti : t = topic ∧ i = index
      · rcases hl with hl | hl <;>
          simp [hl, Action.published, Event.deliveredTo, sendOp.forChan, hti]
      · rcases hl with hl | hl <;>
          simp [hl, Action.published, Event.deliveredTo, sendOp.forChan, hti]
    · rw [hops]
      rcases hl with hl | hl <;> simp [hl, Action.published, Event.deliveredTo, sendOp.forChan]
  · rw [hops, hq, hpub topic]
    rcases hl with hl | ⟨t, i, msg, hl⟩ | ⟨msg, hl⟩ <;> simp [hl, Event.deliveredTo]

/-- A step hands on the sends it makes, and the sends it puts before the goroutine of
`processMessages` carry the same copies for the subscriber channels and for `ackChan`. -/
theorem step_tracking {p p1 : PubSub} {a : Action} {log : List Event}
    (h : p.step a = some (p1, log)) :
    ∃ copies : List Message,
      log.filterMap Event.deliveredMsg ++ p1.publishing.filterMap sendOp.chanMsg =
        p.publishing.filterMap sendOp.chanMsg ++ copies ∧
      log.filterMap Event.trackedMsg ++ p1.publishing.filterMap sendOp.ackMsg =
        p.publishing.filterMap sendOp.ackMsg ++ copies := by
  obtain ⟨_, _, hcases⟩ := step_spec h
  rcases hcases with ⟨e, _, hops, _, hl⟩ | ⟨e, _, hidle, hops, _, hl⟩ |
      ⟨w, _, _, _, hsend⟩ | ⟨_, _, hops, _, hl⟩
  · exact ⟨[], by simp [hl, hops], by simp [hl, hops]⟩
  · refine ⟨(publishOps e.topic (chansOf p.msgChansByTopic e.topic).length
      e.messages).filterMap sendOp.ackMsg, ?_, ?_⟩
    · rw [hl, hidle, hops, filterMap_chanMsg_publishOps]
      simp
    · rw [hl, hidle, hops]
      simp
  · rcases hsend with ⟨t, i, msg, hops, hl, _⟩ | ⟨msg, hops, hl⟩
    · rcases hl with hl | hl <;>
        exact ⟨[], by simp [hl, hops, Event.deliveredMsg, sendOp.chanMsg],
          by simp [hl, hops, Event.trackedMsg, sendOp.ackMsg]⟩
    · rcases hl with hl | hl <;>
        exact ⟨[], by simp [hl, hops, Event.deliveredMsg, sendOp.chanMsg],
          by simp [hl, hops, Event.trackedMsg, sendOp.ackMsg]⟩
  · rcases hl with hl | ⟨t, i, msg, hl⟩ | ⟨msg, hl⟩ <;>
      exact ⟨[], by simp [hl, hops, Event.deliveredMsg], by simp [hl, hops, Event.trackedMsg]⟩

theorem run_cons {p p2 : PubSub} {a : Action} {acts : List Action} {log : List Event}
    (h : p.run (a :: acts) = some (p2, log)) :
    ∃ p1 log1 log2, p.step a = some (p1, log1) ∧ p1.run acts = some (p2, log2) ∧
      log = log1 ++ log2 := by
  unfold PubSub.run at h
  cases hstep : p.step a with
  | none => simp [hstep] at h
  | some r =>
    obtain ⟨p1, log1⟩ := r
    simp only [hstep] at h
    cases hrun : p1.run acts with
    | none => simp [hrun] at h
    | some r2 =>
      obtain ⟨p3, log2⟩ := r2
      simp only [hrun, Option.some.injEq, Prod.mk.injEq] at h
      obtain ⟨hp, hl⟩ := h
      subst hp
      exact ⟨p1, log1, log2, rfl, hrun, hl.symm⟩

theorem run_append {p p1 p2 : PubSub} {acts1 acts2 : List Action} {log1 log2 : List Event}
    (h1 : p.run acts1 = some (p1, log1)) (h2 : p1.run acts2 = some (p2, log2)) :
    p.run (acts1 ++ acts2) = some (p2, log1 ++ log2) := by
  induction acts1 generalizing p log1 with
  | nil =>
    simp only [PubSub.run, Option.some.injEq, Prod.mk.injEq] at h1
    obtain ⟨hp, hl⟩ := h1
    subst hp
    subst hl
    simpa using h2
  | cons a acts1 ih =>
    obtain ⟨q, l1, l2, hstep, hrun, hl⟩ := run_cons h1
    have h3 := ih hrun
    show PubSub.run p (a :: (acts1 ++ acts2)) = _
    unfold PubSub.run
    simp only [hstep, h3, hl, List.append_assoc]

theorem run_singleton {p p1 : PubSub} {a : Action} {log : List Event}
    (h : p.step a = some (p1, log)) : p.run [a] = some (p1, log) := by
  unfold PubSub.run
  simp [h, PubSub.run]

/-- A run keeps the state of the lifecycle and the channels that are there. -/
theorem run_state_length {acts : List Action} {p p1 : PubSub} {log : List Event}
    (h : p.run acts = some (p1, log)) :
    p1.state = p.state ∧
    ∀ t, (chansOf p.msgChansByTopic t).length ≤ (chansOf p1.msgChansByTopic t).length := by
  induction acts generalizing p log with
  | nil =>
    simp only [PubSub.run, Option.some.injEq, Prod.mk.injEq] at h
    rw [← h.1]
    exact ⟨rfl, fun _ => Nat.le_refl _⟩
  | cons a acts ih =>
    obtain ⟨q, l1, l2, hstep, hrun, _⟩ := run_cons h
    obtain ⟨hs, hlen, _⟩ := step_spec hstep
    obtain ⟨hs2, hlen2⟩ := ih hrun
    exact ⟨by rw [hs2, hs], fun t => Nat.le_trans (hlen t) (hlen2 t)⟩

/-- Order of delivery over a run: what the run sends to a channel that is there from the
start, followed by the copies still on their way to it at the end, is what was on the way to
it at the start, followed by the copies of the messages of the calls of `Publish` for its
topic, in the order of the calls and of their arguments. -/
theorem run_pendingFor {acts : List Action} {p p1 : PubSub} {log : List Event}
    (h : p.run acts = some (p1, log)) (topic : Str) (index : Nat)
    (hindex : index < (chansOf p.msgChansByTopic topic).length) :
    log.filterMap (Event.deliveredTo topic index) ++ p1.pendingFor topic index =
      p.pendingFor topic index ++ acts.flatMap (fun a => a.published topic) := by
  induction acts generalizing p log with
  | nil =>
    simp only [PubSub.run, Option.some.injEq, Prod.mk.injEq] at h
    rw [← h.1, ← h.2]
    simp
  | cons a acts ih =>
    obtain ⟨q, l1, l2, hstep, hrun, hl⟩ := run_cons h
    obtain ⟨_, hlen, _⟩ := step_spec hstep
    have h1 := step_pendingFor hstep topic index hindex
    have h2 := ih hrun (Nat.lt_of_lt_of_le hindex (hlen topic))
    rw [hl, List.filterMap_append, List.append_assoc, h2, ← List.append_assoc, h1,
      List.flatMap_cons, List.append_assoc]

/-- Tracking over a run: the copies sent to the subscriber channels and the copies sent to
`ackChan` are the same, in the same order, up to the sends under way at the start and at the
end. -/
theorem run_tracking {acts : List Action} {p p1 : PubSub} {log : List Event}
    (h : p.run acts = some (p1, log)) :
    ∃ copies : List Message,
      log.filterMap Event.deliveredMsg ++ p1.publishing.filterMap sendOp.chanMsg =
        p.publishing.filterMap sendOp.chanMsg ++ copies ∧
      log.filterMap Event.trackedMsg ++ p1.publishing.filterMap sendOp.ackMsg =
        p.publishing.filterMap sendOp.ackMsg ++ copies := by
  induction acts generalizing p log with
  | nil =>
    simp only [PubSub.run, Option.some.injEq, Prod.mk.injEq] at h
    rw [← h.1, ← h.2]
    exact ⟨[], by simp, by simp⟩
  | cons a acts ih =>
    obtain ⟨q, l1, l2, hstep, hrun, hl⟩ := run_cons h
    obtain ⟨c1, hd1, ht1⟩ := step_tracking hstep
    obtain ⟨c2, hd2, ht2⟩ := ih hrun
    refine ⟨c1 ++ c2, ?_, ?_⟩
    · rw [hl, List.filterMap_append, List.append_assoc, hd2, ← List.append_assoc, hd1,
        List.append_assoc]
    · rw [hl, List.filterMap_append, List.append_assoc, ht2, ← List.append_assoc, ht1,
        List.append_assoc]

theorem ready_iff (p : PubSub) :
    p.ready = true ↔ p.state = State.StateStarted ∧
      ∀ topic index msg, sendOp.toChan topic index msg ∈ p.publishing →
        index < (chansOf p.msgChansByTopic topic).length := by
  unfold PubSub.ready
  simp only [Bool.and_eq_true, decide_eq_true_eq, List.all_eq_true]
  constructor
  · rintro ⟨hs, hall⟩
    refine ⟨hs, fun topic index msg hmem => ?_⟩
    simpa [sendOp.inRange] using hall _ hmem
  · rintro ⟨hs, hall⟩
    refine ⟨hs, fun op hmem => ?_⟩
    cases op with
    | toChan topic index msg => simpa [sendOp.inRange] using hall topic index msg hmem
    | toAck msg => rfl

theorem mem_publishOps {t topic : Str} {n index : Nat} {messages : List Message}
    {msg : Message} (h : sendOp.toChan topic index msg ∈ publishOps t n messages) :
    topic = t ∧ index < n := by
  unfold publishOps at h
  simp only [List.mem_flatMap, List.mem_range, List.mem_cons, List.mem_singleton,
    List.not_mem_nil, or_false] at h
  obtain ⟨i, hi, m, _, hm⟩ := h
  rcases hm with hm | hm
  · simp only [sendOp.toChan.injEq] at hm
    exact ⟨hm.1, by omega⟩
  · exact absurd hm (by simp)

theorem step_ready {p p1 : PubSub} {a : Action} {log : List Event}
    (h : p.step a = some (p1, log)) (hp : p.ready = true) : p1.ready = true := by
  obtain ⟨hs, hlen, hcases⟩ := step_spec h
  rw [ready_iff] at hp ⊢
  refine ⟨by rw [hs]; exact hp.1, ?_⟩
  intro topic index msg hmem
  rcases hcases with ⟨e, _, hops, _, _⟩ | ⟨e, _, _, hops, hlen1, _⟩ |
      ⟨w, _, _, _, hsend⟩ | ⟨_, _, hops, _, _⟩
  · rw [hops] at hmem
    exact Nat.lt_of_lt_of_le (hp.2 topic index msg hmem) (hlen topic)
  · rw [hops] at hmem
    obtain ⟨ht, hlt⟩ := mem_publishOps hmem
    rw [ht, hlen1]
    exact hlt
  · rcases hsend with ⟨t, i, m, hops, _, _⟩ | ⟨m, hops, _⟩
    · exact Nat.lt_of_lt_of_le
        (hp.2 topic index msg (by rw [hops]; exact List.mem_cons_of_mem _ hmem)) (hlen topic)
    · exact Nat.lt_of_lt_of_le
        (hp.2 topic index msg (by rw [hops]; exact List.mem_cons_of_mem _ hmem)) (hlen topic)
  · rw [hops] at hmem
    exact Nat.lt_of_lt_of_le (hp.2 topic index msg hmem) (hlen topic)

theorem run_ready {acts : List Action} {p p1 : PubSub} {log : List Event}
    (h : p.run acts = some (p1, log)) (hp : p.ready = true) : p1.ready = true := by
  induction acts generalizing p log with
  | nil =>
    simp only [PubSub.run, Option.some.injEq, Prod.mk.injEq] at h
    rw [← h.1]
    exact hp
  | cons a acts ih =>
    obtain ⟨q, l1, l2, hstep, hrun, _⟩ := run_cons h
    exact ih hrun (step_ready hstep hp)

theorem New_ready (name : Str) (cfg : Config) : (PubSub.New name cfg).ready = true :=
  (ready_iff _).2 ⟨rfl, fun _ _ _ hmem => absurd hmem (by simp [PubSub.New])⟩

/-- The subscriber of a channel can receive all that is buffered in it. -/
theorem run_receive_all (topic : Str) (index : Nat) (k : Nat) :
    ∀ (p : PubSub) (c : Chan Message), (chansOf p.msgChansByTopic topic)[index]? = some c →
      c.queue.length = k →
      ∃ acts p1 log, p.run acts = some (p1, log) ∧ acts.filterMap Action.call = [] ∧
        p1.publishing = p.publishing ∧ p1.publishChan = p.publishChan ∧
        (chansOf p1.msgChansByTopic topic)[index]? = some { c with queue := [] } := by
  induction k with
  | zero =>
    intro p c hget hlen
    refine ⟨[], p, [], rfl, rfl, rfl, rfl, ?_⟩
    rw [hget]
    have hq : c.queue = [] := List.length_eq_zero.1 hlen
    rw [← hq]
  | succ k ih =>
    intro p c hget hlen
    cases hq : c.queue with
    | nil => rw [hq] at hlen; simp at hlen
    | cons m queue =>
      have hlt : index < (chansOf p.msgChansByTopic topic).length := by
        by_contra hge
        rw [List.getElem?_eq_none (Nat.le_of_not_lt hge)] at hget
        exact absurd hget (by simp)
      have hstep : p.step (Action.receive topic index) =
          some ({ p with msgChansByTopic := (chansPut p.msgChansByTopic topic
            ((chansOf p.msgChansByTopic topic).set index { c with queue := queue })) },
            [Event.received topic index m]) := by
        simp only [PubSub.step, PubSub.receive, hget, hq]
      have hget1 : (chansOf (chansPut p.msgChansByTopic topic
          ((chansOf p.msgChansByTopic topic).set index { c with queue := queue })) topic)[index]?
            = some { c with queue := queue } := by
        rw [chansOf_chansPut_set, List.getElem?_set_self hlt]
      obtain ⟨acts, p1, log, hrun, hcalls, hops, hpc, hget2⟩ := ih
        { p with msgChansByTopic := (chansPut p.msgChansByTopic topic
            ((chansOf p.msgChansByTopic topic).set index { c with queue := queue })) }
        { c with queue := queue } hget1
        (by rw [hq] at hlen; simpa using hlen)
      exact ⟨Action.receive topic index :: acts, p1, [Event.received topic index m] ++ log,
        run_append (run_singleton hstep) hrun, by simp [Action.call, hcalls], hops, hpc, hget2⟩

/-- The goroutine of `processAcks` can receive all that is buffered in `ackChan`. -/
theorem run_processAcks_all (k : Nat) :
    ∀ p : PubSub, p.ackChan.queue.length = k →
      ∃ acts p1 log, p.run acts = some (p1, log) ∧ acts.filterMap Action.call = [] ∧
        p1.publishing = p.publishing ∧ p1.publishChan = p.publishChan ∧
        p1.ackChan.queue = [] := by
  induction k with
  | zero =>
    intro p hlen
    exact ⟨[], p, [], rfl, rfl, rfl, rfl, List.length_eq_zero.1 hlen⟩
  | succ k ih =>
    intro p hlen
    cases hq : p.ackChan.queue with
    | nil => rw [hq] at hlen; simp at hlen
    | cons m queue =>
      have hstep : p.step Action.processAcks =
          some ({ p with
            ackChan := { p.ackChan with queue := queue }
            checking := p.checking ++ [m] }, [Event.dispatched m]) := by
        simp only [PubSub.step, PubSub.processAcks, hq]
      obtain ⟨acts, p1, log, hrun, hcalls, hops, hpc, hack⟩ := ih
        { p with
          ackChan := { p.ackChan with queue := queue }
          checking := p.checking ++ [m] }
        (by rw [hq] at hlen; simpa using hlen)
      exact ⟨Action.processAcks :: acts, p1, [Event.dispatched m] ++ log,
        run_append (run_singleton hstep) hrun, by simp [Action.call, hcalls], hops, hpc, hack⟩

/-- The next send of `publish` completes in some run, whatever is buffered: the receiver of
the channel receives first. -/
theorem run_next_send {p : PubSub} {op : sendOp} {ops : List sendOp}
    (hops : p.publishing = op :: ops)
    (hchan : ∀ topic index msg, op = sendOp.toChan topic index msg →
      index < (chansOf p.msgChansByTopic topic).length) :
    ∃ acts p1 log, p.run acts = some (p1, log) ∧ acts.filterMap Action.call = [] ∧
      p1.publishing = ops ∧ p1.publishChan = p.publishChan := by
  cases op with
  | toChan topic index msg =>
    have hlt := hchan topic index msg rfl
    obtain ⟨acts, q, log, hrun, hcalls, hq, hpc, hget⟩ := run_receive_all topic index _ p
      ((chansOf p.msgChansByTopic topic)[index]) (List.getElem?_eq_getElem hlt) rfl
    have hsome : ∃ r, q.publishSend true = some r := by
      unfold PubSub.publishSend
      simp only [hq, hops, hget]
      split
      · exact ⟨_, rfl⟩
      · simp
    obtain ⟨⟨p1, events⟩, hsend⟩ := hsome
    obtain ⟨_, hpc1, _, hcase⟩ := publishSend_spec hsend
    have hstep : q.step (Action.publish true) = some (p1, events) := by
      simp only [PubSub.step, hsend]
    refine ⟨acts ++ [Action.publish true], p1, log ++ events,
      run_append hrun (run_singleton hstep), by simp [Action.call, hcalls], ?_,
      by rw [hpc1, hpc]⟩
    rw [hq, hops] at hcase
    rcases hcase with ⟨_, _, _, h1, _, _⟩ | ⟨_, h1, _⟩
    · exact (List.cons.inj h1).2.symm
    · exact (List.cons.inj h1).2.symm
  | toAck msg =>
    obtain ⟨acts, q, log, hrun, hcalls, hq, hpc, hack⟩ := run_processAcks_all _ p rfl
    have hsome : ∃ r, q.publishSend true = some r := by
      unfold PubSub.publishSend
      simp only [hq, hops]
      split
      · exact ⟨_, rfl⟩
      · simp [hack]
    obtain ⟨⟨p1, events⟩, hsend⟩ := hsome
    obtain ⟨_, hpc1, _, hcase⟩ := publishSend_spec hsend
    have hstep : q.step (Action.publish true) = some (p1, events) := by
      simp only [PubSub.step, hsend]
    refine ⟨acts ++ [Action.publish true], p1, log ++ events,
      run_append hrun (run_singleton hstep), by simp [Action.call, hcalls], ?_,
      by rw [hpc1, hpc]⟩
    rw [hq, hops] at hcase
    rcases hcase with ⟨_, _, _, h1, _, _⟩ | ⟨_, h1, _⟩
    · exact (List.cons.inj h1).2.symm
    · exact (List.cons.inj h1).2.symm

/-- The call of `publish` under way comes to its end in some run. -/
theorem run_finish_publish (n : Nat) :
    ∀ p : PubSub, p.publishing.length = n → p.ready = true →
      ∃ acts p1 log, p.run acts = some (p1, log) ∧ acts.filterMap Action.call = [] ∧
        p1.publishing = [] ∧ p1.publishChan = p.publishChan := by
  induction n with
  | zero =>
    intro p hlen _
    exact ⟨[], p, [], rfl, rfl, List.length_eq_zero.1 hlen, rfl⟩
  | succ n ih =>
    intro p hlen hp
    cases hops : p.publishing with
    | nil => rw [hops] at hlen; simp at hlen
    | cons op ops =>
      obtain ⟨acts, q, log, hrun, hcalls, hq, hpc⟩ := run_next_send hops
        (fun topic index msg hop =>
          ((ready_iff p).1 hp).2 topic index msg (by rw [hops, hop]; simp))
      obtain ⟨acts2, p1, log2, hrun2, hcalls2, hidle, hpc2⟩ := ih q
        (by rw [hq]; rw [hops] at hlen; simpa using hlen) (run_ready hrun hp)
      exact ⟨acts ++ acts2, p1, log ++ log2, run_append hrun hrun2,
        by simp [hcalls, hcalls2], hidle, by rw [hpc2, hpc]⟩

/-- The entries that wait in `publishChan` are all published in some run. -/
theorem run_drain (n : Nat) :
    ∀ p : PubSub, p.publishChan.queue.length = n → p.ready = true →
      ∃ acts p1 log, p.run acts = some (p1, log) ∧ acts.filterMap Action.call = [] ∧
        p1.publishing = [] ∧ p1.publishChan.queue = [] := by
  induction n with
  | zero =>
    intro p hlen hp
    obtain ⟨acts, p1, log, hrun, hcalls, hidle, hpc⟩ := run_finish_publish _ p rfl hp
    exact ⟨acts, p1, log, hrun, hcalls, hidle, by rw [hpc]; exact List.length_eq_zero.1 hlen⟩
  | succ n ih =>
    intro p hlen hp
    obtain ⟨acts, q, log, hrun, hcalls, hidle, hpc⟩ := run_finish_publish _ p rfl hp
    cases hqueue : p.publishChan.queue with
    | nil => rw [hqueue] at hlen; simp at hlen
    | cons e queue =>
      have hstep : q.step Action.processMessages =
          some (PubSub.publish { q with publishChan := { q.publishChan with queue := queue } } e,
            []) := by
        simp only [PubSub.step, PubSub.processMessages, hidle, hpc, hqueue, ne_eq,
          not_true_eq_false, if_false]
      have hq2 := step_ready hstep (run_ready hrun hp)
      obtain ⟨acts2, p1, log2, hrun2, hcalls2, hidle2, hempty⟩ := ih _
        (by
          show queue.length = n
          rw [hqueue] at hlen
          simpa using hlen) hq2
      exact ⟨acts ++ ([Action.processMessages] ++ acts2), p1, log ++ ([] ++ log2),
        run_append hrun (run_append (run_singleton hstep) hrun2),
        by simp [hcalls, hcalls2, Action.call], hidle2, hempty⟩

/-- Every sequence of calls of `Publish` has a run in which each call returns nil and every
entry is published to the end. -/
theorem run_calls (calls : List entry) :
    ∀ p : PubSub, p.ready = true →
      ∃ acts p1 log, p.run acts = some (p1, log) ∧ acts.filterMap Action.call = calls ∧
        p1.publishing = [] ∧ p1.publishChan.queue = [] := by
  induction calls with
  | nil =>
    intro p hp
    exact run_drain _ p rfl hp
  | cons e calls ih =>
    intro p hp
    obtain ⟨acts, q, log, hrun, hcalls, hidle, hempty⟩ := run_drain _ p rfl hp
    have hq := run_ready hrun hp
    have hsome : ∃ q1, q.Publish e.topic e.messages = (q1, PublishResult.returned none) := by
      unfold PubSub.Publish
      rw [if_neg (not_not.2 ((ready_iff q).1 hq).1)]
      cases q.publishChan.send { topic := e.topic, messages := e.messages } with
      | some c => exact ⟨_, rfl⟩
      | none =>
        simp only
        rw [if_pos ⟨hidle, hempty⟩]
        exact ⟨_, rfl⟩
    obtain ⟨q1, hpub⟩ := hsome
    have hstep : q.step (Action.Publish e.topic e.messages) = some (q1, []) :=
      step_Publish.2 ⟨hpub, rfl⟩
    obtain ⟨acts2, p1, log2, hrun2, hcalls2, hidle2, hempty2⟩ := ih q1 (step_ready hstep hq)
    exact ⟨acts ++ ([Action.Publish e.topic e.messages] ++ acts2), p1, log ++ ([] ++ log2),
      run_append hrun (run_append (run_singleton hstep) hrun2),
      by simp [hcalls, hcalls2, Action.call], hidle2, hempty2⟩

theorem bufferOf_chansPut_set (m : List (Str × List (Chan Message))) (t0 t : Str)
    (i0 i : Nat) (c : Chan Message) (h0 : i0 < (chansOf m t0).length) :
    bufferOf (chansPut m t0 ((chansOf m t0).set i0 c)) t i =
      if t = t0 ∧ i = i0 then c.queue else bufferOf m t i := by
  unfold bufferOf
  by_cases ht : t = t0
  · subst ht
    rw [chansOf_chansPut_set]
    by_cases hi : i = i0
    · subst hi
      rw [List.getElem?_set_self h0]
      simp
    · rw [List.getElem?_set_ne (fun h => hi h.symm)]
      simp [hi]
  · rw [chansOf_chansPut_of_ne _ _ _ _ ht]
    simp [ht]

theorem bufferOf_eq_queue {m : List (Str × List (Chan Message))} {t : Str} {i : Nat}
    {c : Chan Message} (h : (chansOf m t)[i]? = some c) : bufferOf m t i = c.queue := by
  unfold bufferOf
  rw [h]

/-- A step and the buffers: what the subscriber of a channel receives in the step, followed by
what is buffered in the channel after it, is what was buffered before, followed by what the
step sends to the channel; and likewise for `ackChan` and the goroutine of `processAcks`. The
channels of the undeliverable topic are left out: `check` posts to them too. -/
theorem step_channels {p p1 : PubSub} {a : Action} {log : List Event}
    (h : p.step a = some (p1, log)) :
    (∀ topic index, topic ≠ UndeliverableTopic →
      index < (chansOf p.msgChansByTopic topic).length →
      log.filterMap (Event.receivedFrom topic index) ++ p1.buffer topic index =
        p.buffer topic index ++ log.filterMap (Event.deliveredTo topic index)) ∧
    log.filterMap Event.dispatchedMsg ++ p1.ackChan.queue =
      p.ackChan.queue ++ log.filterMap Event.trackedMsg := by
  unfold PubSub.buffer
  cases a with
  | Publish topic messages =>
    obtain ⟨h, hl⟩ := step_Publish.1 h
    have hsame : p1.msgChansByTopic = p.msgChansByTopic ∧ p1.ackChan = p.ackChan := by
      unfold PubSub.Publish at h
      split at h
      · simp at h
      · split at h
        · simp only [Prod.mk.injEq, and_true] at h
          rw [← h]
          exact ⟨rfl, rfl⟩
        · split at h
          · simp only [Prod.mk.injEq, and_true] at h
            rw [← h]
            exact ⟨rfl, rfl⟩
          · simp at h
    rw [hl, hsame.1, hsame.2]
    simp
  | Subscribe topic =>
    obtain ⟨h, hl⟩ := step_Subscribe h
    rw [hl, h]
    refine ⟨?_, by simp⟩
    intro t index _ hindex
    simp only [List.filterMap_nil, List.nil_append, List.append_nil]
    unfold bufferOf
    by_cases ht : t = topic
    · subst ht
      rw [chansOf_chansSet_self, List.getElem?_append_left hindex]
    · rw [chansOf_chansSet_of_ne _ _ _ _ ht]
  | processMessages =>
    simp only [PubSub.step] at h
    cases hpm : p.processMessages with
    | none => simp [hpm] at h
    | some p2 =>
      simp only [hpm, Option.some.injEq, Prod.mk.injEq] at h
      obtain ⟨hp, hl⟩ := h
      subst hp
      unfold PubSub.processMessages at hpm
      split at hpm
      · simp at hpm
      · split at hpm
        · simp at hpm
        · simp only [Option.some.injEq] at hpm
          rw [← hl, ← hpm]
          simp [PubSub.publish]
  | publish w =>
    simp only [PubSub.step] at h
    unfold PubSub.publishSend at h
    cases hops : p.publishing with
    | nil => simp [hops] at h
    | cons op ops =>
      cases op with
      | toChan topic index msg =>
        simp only [hops] at h
        cases hget : (chansOf p.msgChansByTopic topic)[index]? with
        | none => simp [hget] at h
        | some msgChan =>
          have hlt : index < (chansOf p.msgChansByTopic topic).length := by
            by_contra hge
            rw [List.getElem?_eq_none (Nat.le_of_not_lt hge)] at hget
            exact absurd hget (by simp)
          simp only [hget] at h
          cases hsend : msgChan.send msg with
          | some msgChan1 =>
            simp only [hsend, Option.some.injEq, Prod.mk.injEq] at h
            obtain ⟨hp, hev⟩ := h
            subst hp
            have hq1 : msgChan1.queue = msgChan.queue ++ [msg] := by
              unfold Chan.send at hsend
              split at hsend
              · simp only [Option.some.injEq] at hsend
                rw [← hsend]
              · exact absurd hsend (by simp)
            rw [← hev]
            refine ⟨?_, by simp [Event.dispatchedMsg, Event.trackedMsg]⟩
            intro t i _ _
            show _ ++ bufferOf (chansPut _ _ _) t i = _
            rw [bufferOf_chansPut_set _ _ _ _ _ _ hlt]
            by_cases hti : t = topic ∧ i = index
            · obtain ⟨ht, hi⟩ := hti
              subst ht
              subst hi
              simp [Event.receivedFrom, Event.deliveredTo, hq1, bufferOf_eq_queue hget]
            · have hti2 : ¬ (topic = t ∧ index = i) := fun hc => hti ⟨hc.1.symm, hc.2.symm⟩
              simp [Event.receivedFrom, Event.deliveredTo, hti, hti2]
          | none =>
            simp only [hsend] at h
            split at h
            · rename_i hwait
              simp only [Option.some.injEq, Prod.mk.injEq] at h
              obtain ⟨hp, hev⟩ := h
              subst hp
              rw [← hev]
              refine ⟨?_, by simp [Event.dispatchedMsg, Event.trackedMsg]⟩
              intro t i _ _
              by_cases hti : topic = t ∧ index = i
              · obtain ⟨ht, hi⟩ := hti
                subst ht
                subst hi
                simp [Event.receivedFrom, Event.deliveredTo, bufferOf_eq_queue hget, hwait.2]
              · simp [Event.receivedFrom, Event.deliveredTo, hti]
            · exact absurd h (by simp)
      | toAck msg =>
        simp only [hops] at h
        cases hsend : p.ackChan.send msg with
        | some ackChan1 =>
          simp only [hsend, Option.some.injEq, Prod.mk.injEq] at h
          obtain ⟨hp, hev⟩ := h
          subst hp
          have hq1 : ackChan1.queue = p.ackChan.queue ++ [msg] := by
            unfold Chan.send at hsend
            split at hsend
            · simp only [Option.some.injEq] at hsend
              rw [← hsend]
            · exact absurd hsend (by simp)
          rw [← hev]
          exact ⟨fun t i _ _ => by simp [Event.receivedFrom, Event.deliveredTo],
            by simp [Event.dispatchedMsg, Event.trackedMsg, hq1]⟩
        | none =>
          simp only [hsend] at h
          split at h
          · rename_i hempty
            simp only [Option.some.injEq, Prod.mk.injEq] at h
            obtain ⟨hp, hev⟩ := h
            subst hp
            rw [← hev]
            exact ⟨fun t i _ _ => by simp [Event.receivedFrom, Event.deliveredTo],
              by simp [Event.dispatchedMsg, Event.trackedMsg, hempty]⟩
          · exact absurd h (by simp)
  | processAcks =>
    simp only [PubSub.step] at h
    cases hpa : p.processAcks with
    | none => simp [hpa] at h
    | some r =>
      obtain ⟨p2, m⟩ := r
      simp only [hpa, Option.some.injEq, Prod.mk.injEq] at h
      obtain ⟨hp, hl⟩ := h
      subst hp
      unfold PubSub.processAcks at hpa
      cases hq : p.ackChan.queue with
      | nil => simp [hq] at hpa
      | cons msg queue =>
        simp only [hq, Option.some.injEq, Prod.mk.injEq] at hpa
        obtain ⟨hpa1, hm⟩ := hpa
        subst hpa1
        subst hm
        rw [← hl]
        exact ⟨fun t i _ _ => by simp [Event.receivedFrom, Event.deliveredTo],
          by simp [Event.dispatchedMsg, Event.trackedMsg]⟩
  | check msg signal =>
    simp only [PubSub.step] at h
    cases hcd : p.checkDone msg signal with
    | none => simp [hcd] at h
    | some p2 =>
      simp only [hcd, Option.some.injEq, Prod.mk.injEq] at h
      obtain ⟨hp, hl⟩ := h
      subst hp
      unfold PubSub.checkDone at hcd
      split at hcd
      · simp only [Option.some.injEq] at hcd
        subst hcd
        rw [← hl]
        cases signal with
        | Acked => exact ⟨fun t i _ _ => by simp [PubSub.check], by simp [PubSub.check]⟩
        | Nacked =>
          refine ⟨fun t i ht _ => ?_, by simp [PubSub.check, PubSub.postToUndeliverable]⟩
          simp only [List.filterMap_nil, List.nil_append, List.append_nil]
          show bufferOf (chansPut _ _ _) t i = _
          unfold bufferOf
          rw [chansOf_chansPut_of_ne _ _ _ _ ht]
        | Timeout =>
          refine ⟨fun t i ht _ => ?_, by simp [PubSub.check, PubSub.postToUndeliverable]⟩
          simp only [List.filterMap_nil, List.nil_append, List.append_nil]
          show bufferOf (chansPut _ _ _) t i = _
          unfold bufferOf
          rw [chansOf_chansPut_of_ne _ _ _ _ ht]
      · simp at hcd
  | receive topic index =>
    simp only [PubSub.step] at h
    cases hr : p.receive topic index with
    | none => simp [hr] at h
    | some r =>
      obtain ⟨p2, m0⟩ := r
      simp only [hr, Option.some.injEq, Prod.mk.injEq] at h
      obtain ⟨hp, hl⟩ := h
      subst hp
      unfold PubSub.receive at hr
      simp only at hr
      cases hget : (chansOf p.msgChansByTopic topic)[index]? with
      | none => simp [hget] at hr
      | some msgChan =>
        have hlt : index < (chansOf p.msgChansByTopic topic).length := by
          by_contra hge
          rw [List.getElem?_eq_none (Nat.le_of_not_lt hge)] at hget
          exact absurd hget (by simp)
        simp only [hget] at hr
        cases hq : msgChan.queue with
        | nil => simp [hq] at hr
        | cons m queue =>
          simp only [hq, Option.some.injEq, Prod.mk.injEq] at hr
          obtain ⟨hr1, hm⟩ := hr
          subst hr1
          subst hm
          rw [← hl]
          refine ⟨?_, by simp [Event.dispatchedMsg, Event.trackedMsg]⟩
          intro t i _ _
          show _ ++ bufferOf (chansPut _ _ _) t i = _
          rw [bufferOf_chansPut_set _ _ _ _ _ _ hlt]
          by_cases hti : t = topic ∧ i = index
          · obtain ⟨ht, hi⟩ := hti
            subst ht
            subst hi
            simp [Event.receivedFrom, Event.deliveredTo, bufferOf_eq_queue hget, hq]
          · have hti2 : ¬ (topic = t ∧ index = i) := fun hc => hti ⟨hc.1.symm, hc.2.symm⟩
            simp [Event.receivedFrom, Event.deliveredTo, hti, hti2]

/-- A run and the buffers: what the subscriber of a channel receives, followed by what is
buffered in the channel at the end, is what was buffered at the start, followed by what the
run sends to the channel; and likewise for `ackChan` and the goroutine of `processAcks`. -/
theorem run_channels {acts : List Action} {p p1 : PubSub} {log : List Event}
    (h : p.run acts = some (p1, log)) :
    (∀ topic index, topic ≠ UndeliverableTopic →
      index < (chansOf p.msgChansByTopic topic).length →
      log.filterMap (Event.receivedFrom topic index) ++ p1.buffer topic index =
        p.buffer topic index ++ log.filterMap (Event.deliveredTo topic index)) ∧
    log.filterMap Event.dispatchedMsg ++ p1.ackChan.queue =
      p.ackChan.queue ++ log.filterMap Event.trackedMsg := by
  induction acts generalizing p log with
  | nil =>
    simp only [PubSub.run, Option.some.injEq, Prod.mk.injEq] at h
    rw [← h.1, ← h.2]
    exact ⟨fun _ _ _ _ => by simp, by simp⟩
  | cons a acts ih =>
    obtain ⟨q, l1, l2, hstep, hrun, hl⟩ := run_cons h
    obtain ⟨_, hlen, _⟩ := step_spec hstep
    obtain ⟨hb1, ha1⟩ := step_channels hstep
    obtain ⟨hb2, ha2⟩ := ih hrun
    constructor
    · intro topic index ht hindex
      have h1 := hb1 topic index ht hindex
      have h2 := hb2 topic index ht (Nat.lt_of_lt_of_le hindex (hlen topic))
      rw [hl, List.filterMap_append, List.filterMap_append, List.append_assoc, h2,
        ← List.append_assoc, h1, List.append_assoc]
    · rw [hl, List.filterMap_append, List.filterMap_append, List.append_assoc, ha2,
        ← List.append_assoc, ha1, List.append_assoc]

theorem Urls_Contains_iff (urls : Urls) (v : URL) : Urls.Contains urls v = true ↔ v ∈ urls := by
  unfold Urls.Contains
  rw [List.any_eq_true]
  constructor
  · rintro ⟨iri, hmem, heq⟩
    have h1 : iri = v := by
      cases iri
      cases v
      simpa [URL.String] using heq
    rw [← h1]
    exact hmem
  · intro hmem
    exact ⟨v, hmem, by simp⟩

theorem mem_AddReference (refs : List URL) (target iri : URL) :
    iri ∈ AddReference refs target ↔ iri ∈ refs ∨ iri = target := by
  unfold AddReference
  by_cases hmem : target ∈ refs
  · rw [if_pos hmem]
    constructor
    · exact Or.inl
    · rintro (h1 | h1)
      · exact h1
      · rw [h1]
        exact hmem
  · rw [if_neg hmem]
    simp

theorem getActivities_fst (h : Activities) (objectIRI id : URL) (refType : ReferenceType) :
    (h.getActivities objectIRI id refType).1 =
      [StoreCall.QueryReferences refType { ReferenceType := none, ObjectIRI := some objectIRI }] := by
  unfold Activities.getActivities
  simp only
  split
  · rfl
  · split
    · rfl
    · split
      · rfl
      · split <;> rfl

theorem getPage_fst (h : Activities) (objectIRI id : URL) (refType : ReferenceType)
    (opts : List QueryOpt) :
    (h.getPage objectIRI id refType opts).1 =
      [StoreCall.QueryActivities { ReferenceType := some refType, ObjectIRI := some objectIRI }
        opts] := by
  unfold Activities.getPage
  simp only
  split
  · rfl
  · split
    · rfl
    · split
      · rfl
      · split <;> rfl

/-- What `handleActivityRefsOfType` asks the store and answers from it, once the object IRI
and the ID are there. -/
theorem handleActivityRefsOfType_served (h : Activities) (req : Request)
    (refType : ReferenceType) (objectIRI id : URL)
    (hid : h.getObjectIRIAndID req = .ok (objectIRI, id)) :
    (h.isPaging req = false →
      (h.handleActivityRefsOfType req refType).calls =
        [StoreCall.QueryReferences refType { ReferenceType := none, ObjectIRI := some objectIRI }] ∧
      (∀ err, h.activityStore.QueryReferences refType
          { ReferenceType := none, ObjectIRI := some objectIRI } = .error err →
        (h.handleActivityRefsOfType req refType).status = StatusInternalServerError) ∧
      ∀ it first last n bytes,
        h.activityStore.QueryReferences refType
          { ReferenceType := none, ObjectIRI := some objectIRI } = .ok it →
        h.getPageURL id (-1) = .ok first → it.totalItems = .ok n →
        h.getPageURL id (h.getLastPageNum n h.PageSize h.sortOrder) = .ok last →
        h.marshal (Marshalable.collection
          { id := id, first := first, last := last, totalItems := n }) = .ok bytes →
        h.handleActivityRefsOfType req refType =
          { calls := [StoreCall.QueryReferences refType
              { ReferenceType := none, ObjectIRI := some objectIRI }],
            status := StatusOK,
            body := Body.bytes bytes }) ∧
    (h.isPaging req = true → ∀ opts,
      opts = (match h.getPageNum req with
        | some pageNum =>
          [QueryOpt.WithPageSize h.PageSize, QueryOpt.WithPageNum pageNum,
           QueryOpt.WithSortOrder h.sortOrder]
        | none => [QueryOpt.WithPageSize h.PageSize, QueryOpt.WithSortOrder h.sortOrder]) →
      (h.handleActivityRefsOfType req refType).calls =
        [StoreCall.QueryActivities
          { ReferenceType := some refType, ObjectIRI := some objectIRI } opts] ∧
      (∀ err, h.activityStore.QueryActivities
          { ReferenceType := some refType, ObjectIRI := some objectIRI } opts = .error err →
        (h.handleActivityRefsOfType req refType).status = StatusInternalServerError) ∧
      ∀ it activities n id1 prev next bytes,
        h.activityStore.QueryActivities
          { ReferenceType := some refType, ObjectIRI := some objectIRI } opts = .ok it →
        h.ReadActivities it (h.GetQueryOptions opts).PageSize = .ok activities →
        it.totalItems = .ok n →
        h.getIDPrevNextURL id n (h.GetQueryOptions opts) = .ok (id1, prev, next) →
        h.marshal (Marshalable.page
          { items := activities, id := id1, prev := prev, next := next, totalItems := n }) =
            .ok bytes →
        h.handleActivityRefsOfType req refType =
          { calls := [StoreCall.QueryActivities
              { ReferenceType := some refType, ObjectIRI := some objectIRI } opts],
            status := StatusOK,
            body := Body.bytes bytes }) := by
  constructor
  · intro hpaging
    have hrun : h.handleActivityRefsOfType req refType =
        h.handleActivities objectIRI id refType := by
      unfold Activities.handleActivityRefsOfType
      simp only [hid, hpaging]
      rfl
    rw [hrun]
    refine ⟨?_, ?_, ?_⟩
    · have hfst := getActivities_fst h objectIRI id refType
      unfold Activities.handleActivities
      rcases hres : h.getActivities objectIRI id refType with ⟨calls, result⟩
      rw [hres] at hfst
      cases result with
      | error err => exact hfst
      | ok activities =>
        simp only
        cases h.marshal (Marshalable.collection activities) <;> exact hfst
    · intro err herr
      simp [Activities.handleActivities, Activities.getActivities, herr]
    · intro it first last n bytes hit hfirst hn hlast hbytes
      simp [Activities.handleActivities, Activities.getActivities, hit, hfirst, hn, hlast,
        hbytes]
  · intro hpaging opts hopts
    have hrun : h.handleActivityRefsOfType req refType =
        h.handleActivitiesPage req objectIRI id refType := by
      unfold Activities.handleActivityRefsOfType
      simp only [hid, hpaging]
      rfl
    have hpage : h.handleActivitiesPage req objectIRI id refType =
        (match h.getPage objectIRI id refType opts with
        | (calls, .error _) =>
          { calls := calls, status := StatusInternalServerError,
            body := Body.internalServerErrorResponse }
        | (calls, .ok page) =>
          match h.marshal (Marshalable.page page) with
          | .error _ =>
            { calls := calls, status := StatusInternalServerError,
              body := Body.internalServerErrorResponse }
          | .ok pageBytes =>
            { calls := calls, status := StatusOK, body := Body.bytes pageBytes }) := by
      unfold Activities.handleActivitiesPage
      rw [hopts]
      cases h.getPageNum req <;> rfl
    rw [hrun, hpage]
    refine ⟨?_, ?_, ?_⟩
    · have hfst := getPage_fst h objectIRI id refType opts
      rcases hres : h.getPage objectIRI id refType opts with ⟨calls, result⟩
      rw [hres] at hfst
      cases result with
      | error err => exact hfst
      | ok page =>
        simp only
        cases h.marshal (Marshalable.page page) <;> exact hfst
    · intro err herr
      simp [Activities.getPage, herr]
    · intro it activities n id1 prev next bytes hit hact hn hurl hbytes
      simp [Activities.getPage, hit, hact, hn, hurl, hbytes]

/-! ## The claims -/

/-- C1, amended. Payload round trip: for generators `g1`, `g2`, a payload `p` (a map: its keys
are distinct) and an anchor event `e` whose attachment matching `e.anchors` carries the content
object `CreateContentObject g1 p`, if every non-empty value of `p.previousAnchors` has a
non-empty part before its last `:` and is the first URL string of the parent list that has this
part as a prefix, then `CreatePayload g2 e` succeeds and returns a payload whose `coreIndex` and
`previousAnchors` mapping are those of `p`. -/
theorem CreatePayload_CreateContentObject (g1 g2 : Generator) (p : Payload)
    (e : AnchorEventType) (ao : AnchorObjectType)
    (hkeys : (p.PreviousAnchors.map Prod.fst).Nodup)
    (hao : AnchorEventType.AnchorObject (some e) e.anchors = .ok ao)
    (hdoc : CreateContentObject g1 p = .ok ao.contentObject)
    (hparent : ∀ kv ∈ p.PreviousAnchors, kv.2 ≠ [] →
      sliceTo kv.2 (LastIndex kv.2 ":".toList) ≠ [] ∧
      ∃ before after, e.parent = before ++ { str := kv.2 } :: after ∧
        ∀ x ∈ before, HasPrefix x.String (sliceTo kv.2 (LastIndex kv.2 ":".toList)) = false) :
    ∃ q, CreatePayload g2 (some e) = .ok q ∧ q.CoreIndex = p.CoreIndex ∧
      ∀ k, q.PreviousAnchors.lookup k = p.PreviousAnchors.lookup k := by
  obtain ⟨hcore, _, resources, hres, hdoc1⟩ := CreateContentObject_ok hdoc
  have hc := Unmarshal_MarshalToDoc
    { Subject := p.CoreIndex, Properties := some { Generator := g1.id, Resources := resources } }
  rw [← hdoc1] at hc
  have hloop := getPreviousAnchorsLoop_createResources e.parent p.PreviousAnchors resources []
    hres hparent
  obtain ⟨q, hq, hqcore, hqprev, _⟩ :=
    AnchorObject_ok_contentObject g2 (some e) hao hc hcore hloop
  refine ⟨q, hq, hqcore, fun k => ?_⟩
  rw [hqprev, lookup_foldl_mapSet p.PreviousAnchors [] hkeys k]
  cases p.PreviousAnchors.lookup k <;> rfl

/-- C1 amended, on `samplePayload` and `sampleEvent`. -/
theorem CreatePayload_CreateContentObject_witness :
    ∃ q, CreatePayload (New [WithNamespace "did:test".toList]) (some sampleEvent) = .ok q ∧
      q.CoreIndex = samplePayload.CoreIndex ∧
      ∀ k, q.PreviousAnchors.lookup k = samplePayload.PreviousAnchors.lookup k :=
  CreatePayload_CreateContentObject (New []) (New [WithNamespace "did:test".toList])
    samplePayload sampleEvent (anchorObjectOf sampleContentObject) (by decide) rfl rfl
    (by
      intro kv hkv hne
      simp only [samplePayload, List.mem_cons, List.mem_singleton, List.not_mem_nil, or_false] at hkv
      rcases hkv with rfl | rfl
      · exact ⟨by decide, [], [], rfl, by simp⟩
      · exact absurd rfl hne)

/-- C1 as stated fails on `samplePayload` and `twoParentEvent`: the payload has a non-empty
`coreIndex` and non-empty `previousAnchors` whose one non-empty value `hl:a:y` contains `:`, the
attachment matching the anchors carries `CreateContentObject` of the payload, and the parent
list contains `hl:a:y`; yet `CreatePayload` returns no payload with the `previousAnchors` of
`samplePayload`, because it maps `s1` to the parent `hl:a:z`, which comes first. -/
theorem CreatePayload_CreateContentObject_counterexample :
    samplePayload.CoreIndex ≠ [] ∧ samplePayload.PreviousAnchors ≠ [] ∧
    (samplePayload.PreviousAnchors.map Prod.fst).Nodup ∧
    (∀ kv ∈ samplePayload.PreviousAnchors, kv.2 ≠ [] → ':' ∈ kv.2) ∧
    AnchorEventType.AnchorObject (some twoParentEvent) twoParentEvent.anchors =
      .ok (anchorObjectOf sampleContentObject) ∧
    CreateContentObject (New []) samplePayload =
      .ok (anchorObjectOf sampleContentObject).contentObject ∧
    (∀ kv ∈ samplePayload.PreviousAnchors, kv.2 ≠ [] →
      ({ str := kv.2 } : URL) ∈ twoParentEvent.parent) ∧
    ¬ ∃ q, CreatePayload (New []) (some twoParentEvent) = .ok q ∧
      q.CoreIndex = samplePayload.CoreIndex ∧
      ∀ k, q.PreviousAnchors.lookup k = samplePayload.PreviousAnchors.lookup k := by
  refine ⟨by decide, by decide, by decide, by decide, rfl, rfl, by decide, ?_⟩
  rintro ⟨q, hq, _, hall⟩
  have hrun : CreatePayload (New []) (some twoParentEvent) =
      .ok { Namespace := Namespace
            Version := Version
            CoreIndex := "hl:uEiCore".toList
            OperationCount := 2
            PreviousAnchors := [("s1".toList, "hl:a:z".toList), ("s2".toList, [])]
            AnchorOrigin := "https://orb.domain1.com/services/orb".toList
            Published := none } := rfl
  rw [hrun] at hq
  cases hq
  exact absurd (hall "s1".toList) (by decide)

/-- C2 fails on the content object that `queryGenerator` writes for `samplePayload`, for every
digest that tells its `json.Marshal` bytes from its canonical bytes: `NewAnchorObject` succeeds,
the anchor object has exactly one URL, the hashlink of the `json.Marshal` bytes, and
`validateAnchorObject` rejects the anchor object because the hashlink of the canonical bytes is
another one. -/
theorem NewAnchorObject_url_not_canonical (digest : Bytes → Str)
    (hdigest : digest (goMarshal queryDocument) ≠ digest (canonicalMarshal queryDocument)) :
    CreateContentObject queryGenerator samplePayload = .ok queryDocument ∧
    ∃ ao, NewAnchorObject (stdLib digest) ID queryDocument none = .ok ao ∧
      ao.url = [{ str := "hl:".toList ++ digest (goMarshal queryDocument) }] ∧
      validateAnchorObject (stdLib digest) ao =
        .error (Err.hashlinkMismatch ("hl:".toList ++ digest (canonicalMarshal queryDocument))
          ("hl:".toList ++ digest (goMarshal queryDocument))) := by
  refine ⟨rfl, _, rfl, rfl, ?_⟩
  have hne : "hl:".toList ++ digest (canonicalMarshal queryDocument) ≠
      "hl:".toList ++ digest (goMarshal queryDocument) := by
    intro heq
    exact hdigest (List.append_cancel_left heq).symm
  have hgen : ¬ ID = [] := by decide
  have hdoc : ¬ queryDocument.isNone = true := by decide
  simp only [validateAnchorObject, stdLib, List.length_singleton, ne_eq, not_true_eq_false,
    if_false, hgen, hdoc, URL.String, hne, Bool.false_eq_true, not_false_eq_true, if_true]

/-- C2 fails, with the bytes themselves as their digest. -/
theorem NewAnchorObject_url_not_canonical_witness :
    CreateContentObject queryGenerator samplePayload = .ok queryDocument ∧
    ∃ ao, NewAnchorObject (stdLib id) ID queryDocument none = .ok ao ∧
      ao.url = [{ str := "hl:".toList ++ id (goMarshal queryDocument) }] ∧
      validateAnchorObject (stdLib id) ao =
        .error (Err.hashlinkMismatch ("hl:".toList ++ id (canonicalMarshal queryDocument))
          ("hl:".toList ++ id (goMarshal queryDocument))) :=
  NewAnchorObject_url_not_canonical id (by decide)

/-- C3. For every anchor event with anchors set on which `Validate` succeeds, some attachment
of the event is an anchor object with exactly one URL, equal to the anchors URL, a non-empty
generator, a non-nil content object whose canonical hashlink is that URL, and a non-nil
witness property. -/
theorem Validate_ok_anchor_object (lib : Lib) (e : AnchorEventType) (anchors : URL)
    (hanchors : e.anchors = some anchors)
    (h : AnchorEventType.Validate lib (some e) = .ok ()) :
    ∃ ao ∈ e.attachment, TypeProperty.Is ao.types TypeAnchorObject = true ∧
      ao.url = [anchors] ∧ ao.generator ≠ [] ∧ ao.contentObject ≠ none ∧
      (∃ bytes, lib.MarshalCanonical ao.contentObject = some bytes ∧
        lib.CreateHashLink bytes = some anchors.String) ∧
      ao.witness ≠ none := by
  simp only [AnchorEventType.Validate, AnchorEventType.Anchors, hanchors] at h
  cases hloop : validateAttachments lib anchors e.attachment with
  | error err => simp [hloop] at h
  | ok found =>
    cases found with
    | none => simp [hloop] at h
    | some ao =>
      simp only [hloop] at h
      obtain ⟨hmem, hty, hval, hurl⟩ := validateAttachments_some hloop
      obtain ⟨u, hurl1, hgen, hdoc, bytes, hbytes, hhl⟩ := validateAnchorObject_ok hval
      rw [hurl] at hurl1
      simp only [List.cons.injEq, and_true] at hurl1
      subst hurl1
      refine ⟨ao, hmem, hty, hurl, hgen, hdoc, ⟨bytes, hbytes, hhl⟩, ?_⟩
      intro hw
      simp [hw] at h

/-- C3, on `sampleEvent` with the identity as digest. -/
theorem Validate_ok_anchor_object_witness :
    ∃ ao ∈ sampleEvent.attachment, TypeProperty.Is ao.types TypeAnchorObject = true ∧
      ao.url = [{ str := "hl:".toList ++ canonicalMarshal (MarshalToDoc sampleContentObject) }] ∧
      ao.generator ≠ [] ∧ ao.contentObject ≠ none ∧
      (∃ bytes, (stdLib id).MarshalCanonical ao.contentObject = some bytes ∧
        (stdLib id).CreateHashLink bytes =
          some (URL.String
            { str := "hl:".toList ++ canonicalMarshal (MarshalToDoc sampleContentObject) })) ∧
      ao.witness ≠ none :=
  Validate_ok_anchor_object (stdLib id) sampleEvent
    { str := "hl:".toList ++ canonicalMarshal (MarshalToDoc sampleContentObject) } rfl rfl

/-- C4. A non-nil anchor event with no anchors passes `Validate` exactly when its URL list is
non-empty, whatever its attachments are; with neither anchors nor URL it is rejected. -/
theorem Validate_reference_iff (lib : Lib) (e : AnchorEventType) (hanchors : e.anchors = none) :
    (AnchorEventType.Validate lib (some e) = .ok () ↔ e.url ≠ []) ∧
      (e.url = [] → AnchorEventType.Validate lib (some e) = .error Err.anchorsOrURLRequired) := by
  simp only [AnchorEventType.Validate, AnchorEventType.Anchors, hanchors]
  cases hurl : e.url with
  | nil => simp
  | cons u rest => simp

/-- C4, on `referenceEvent`. -/
theorem Validate_reference_iff_witness :
    (AnchorEventType.Validate (stdLib id) (some referenceEvent) = .ok () ↔
        referenceEvent.url ≠ []) ∧
      (referenceEvent.url = [] →
        AnchorEventType.Validate (stdLib id) (some referenceEvent) =
          .error Err.anchorsOrURLRequired) :=
  Validate_reference_iff (stdLib id) referenceEvent rfl

/-- C5. For every payload on which `CreateContentObject` succeeds and every entry
`(suffix, prev)` of `previousAnchors`, the content object (read back from the document) has a
resource whose ID is `did:orb:uAAA:` followed by `suffix`; its previous anchor is empty when
`prev` is empty, and otherwise `prev` is that previous anchor, a `:` and a tail without `:`. -/
theorem CreateContentObject_resource_of_entry (g : Generator) (p : Payload) (doc : Document)
    (h : CreateContentObject g p = .ok doc) (suffix prev : Str)
    (hmem : (suffix, prev) ∈ p.PreviousAnchors) :
    ∃ c, Document.Unmarshal doc = .ok c ∧ ∃ r ∈ c.Resources,
      r.ID = "did:orb:uAAA:".toList ++ suffix ∧
      (prev = [] → r.PreviousAnchor = []) ∧
      (prev ≠ [] → ∃ tail, prev = r.PreviousAnchor ++ ":".toList ++ tail ∧ ':' ∉ tail) := by
  obtain ⟨_, _, resources, hres, hdoc⟩ := CreateContentObject_ok h
  subst hdoc
  refine ⟨_, Unmarshal_MarshalToDoc _, ?_⟩
  obtain ⟨r, hr, hid, hrest⟩ := createResources_mem hres suffix prev hmem
  refine ⟨r, hr, ?_, hrest⟩
  rw [hid]
  rfl

/-- C5, on `samplePayload` and its entry `s1`. -/
theorem CreateContentObject_resource_of_entry_witness :
    ∃ c, Document.Unmarshal (MarshalToDoc sampleContentObject) = .ok c ∧ ∃ r ∈ c.Resources,
      r.ID = "did:orb:uAAA:".toList ++ "s1".toList ∧
      ("hl:a:y".toList = [] → r.PreviousAnchor = []) ∧
      ("hl:a:y".toList ≠ [] →
        ∃ tail, "hl:a:y".toList = r.PreviousAnchor ++ ":".toList ++ tail ∧ ':' ∉ tail) :=
  CreateContentObject_resource_of_entry (New []) samplePayload (MarshalToDoc sampleContentObject)
    rfl "s1".toList "hl:a:y".toList (by decide)

/-- C6. `CreateContentObject` returns an error, and so no document, for every payload whose
`coreIndex` is empty or whose `previousAnchors` is empty. -/
theorem CreateContentObject_error_of_missing (g : Generator) (p : Payload)
    (h : p.CoreIndex = [] ∨ p.PreviousAnchors = []) :
    CreateContentObject g p = .error Err.missingCoreIndex ∨
      CreateContentObject g p = .error Err.missingPreviousAnchors := by
  unfold CreateContentObject
  by_cases hc : p.CoreIndex = []
  · left
    rw [if_pos hc]
  · right
    rcases h with h | h
    · exact absurd h hc
    · rw [if_neg hc, if_pos (by simp [h])]

/-- C6, on `samplePayload` without its previous anchors. -/
theorem CreateContentObject_error_of_missing_witness :
    CreateContentObject (New []) { samplePayload with PreviousAnchors := [] } =
        .error Err.missingCoreIndex ∨
      CreateContentObject (New []) { samplePayload with PreviousAnchors := [] } =
        .error Err.missingPreviousAnchors :=
  CreateContentObject_error_of_missing (New []) { samplePayload with PreviousAnchors := [] }
    (Or.inr rfl)

/-- C7. For a payload with a non-empty `coreIndex` and a non-empty `previousAnchors`,
`CreateContentObject` fails with the invalid-previous-anchor error exactly when some value is
non-empty and has no `:`; the value it reports is such a value, so never an empty one. -/
theorem CreateContentObject_invalid_previous_anchor_iff (g : Generator) (p : Payload)
    (hcore : p.CoreIndex ≠ []) (hprev : p.PreviousAnchors ≠ []) :
    ((∃ v, CreateContentObject g p = .error (Err.invalidPreviousAnchor v)) ↔
      ∃ kv ∈ p.PreviousAnchors, kv.2 ≠ [] ∧ ':' ∉ kv.2) ∧
    (∀ v, CreateContentObject g p = .error (Err.invalidPreviousAnchor v) →
      v ≠ [] ∧ ':' ∉ v ∧ ∃ k, (k, v) ∈ p.PreviousAnchors) := by
  have hlen : ¬ p.PreviousAnchors.length = 0 := by
    intro hl
    exact hprev (List.length_eq_zero.1 hl)
  have hrun : CreateContentObject g p =
      match createResources p.PreviousAnchors with
      | .error e => .error e
      | .ok resources =>
        .ok (MarshalToDoc
          { Subject := p.CoreIndex,
            Properties := some { Generator := g.id, Resources := resources } }) := by
    unfold CreateContentObject
    rw [if_neg hcore, if_neg hlen]
  constructor
  · constructor
    · rintro ⟨v, hv⟩
      rw [hrun] at hv
      cases hres : createResources p.PreviousAnchors with
      | ok resources => simp [hres] at hv
      | error e => exact (createResources_error_iff _).1 ⟨e, hres⟩
    · intro hex
      obtain ⟨e, he⟩ := (createResources_error_iff _).2 hex
      obtain ⟨kv, _, hkind, _⟩ := createResources_error_kind he
      refine ⟨kv.2, ?_⟩
      rw [hrun, he, hkind]
  · intro v hv
    rw [hrun] at hv
    cases hres : createResources p.PreviousAnchors with
    | ok resources => simp [hres] at hv
    | error e =>
      simp only [hres, Except.error.injEq] at hv
      obtain ⟨kv, hmem, hkind, hne, hc⟩ := createResources_error_kind hres
      rw [hv] at hkind
      simp only [Err.invalidPreviousAnchor.injEq] at hkind
      subst hkind
      exact ⟨hne, hc, kv.1, hmem⟩

/-- C7, on a payload with the one previous anchor `nocolon`. -/
theorem CreateContentObject_invalid_previous_anchor_iff_witness :
    ((∃ v, CreateContentObject (New [])
        { samplePayload with PreviousAnchors := [("s1".toList, "nocolon".toList)] } =
          .error (Err.invalidPreviousAnchor v)) ↔
      ∃ kv ∈ [("s1".toList, "nocolon".toList)], kv.2 ≠ [] ∧ ':' ∉ kv.2) ∧
    (∀ v, CreateContentObject (New [])
        { samplePayload with PreviousAnchors := [("s1".toList, "nocolon".toList)] } =
          .error (Err.invalidPreviousAnchor v) →
      v ≠ [] ∧ ':' ∉ v ∧ ∃ k, (k, v) ∈ [("s1".toList, "nocolon".toList)]) :=
  CreateContentObject_invalid_previous_anchor_iff (New [])
    { samplePayload with PreviousAnchors := [("s1".toList, "nocolon".toList)] }
    (by decide) (by decide)

/-- C8. For every anchor event on which `CreatePayload` succeeds and whose content-object
resource IDs are pairwise distinct, each resource is entered under its suffix (its ID without
`did:orb:uAAA:`): a resource with a non-empty previous anchor is mapped to the string of the
first URL of the parent list that has the previous anchor as a prefix, a resource without one
to the empty string. -/
theorem CreatePayload_previousAnchors_of_resource (g : Generator)
    (anchorEvent : Option AnchorEventType) (p : Payload) (ao : AnchorObjectType)
    (c : contentObject) (h : CreatePayload g anchorEvent = .ok p)
    (hao : AnchorEventType.AnchorObject anchorEvent (AnchorEventType.Anchors anchorEvent) = .ok ao)
    (hc : Document.Unmarshal ao.contentObject = .ok c)
    (hnd : (c.Resources.map (fun r => r.ID)).Nodup) (r : resource) (hr : r ∈ c.Resources) :
    ∃ suffix, r.ID = "did:orb:uAAA:".toList ++ suffix ∧
      (r.PreviousAnchor = [] → p.PreviousAnchors.lookup suffix = some []) ∧
      (r.PreviousAnchor ≠ [] → ∃ before u after,
        AnchorEventType.Parent anchorEvent = before ++ u :: after ∧
        (∀ x ∈ before, HasPrefix x.String r.PreviousAnchor = false) ∧
        HasPrefix u.String r.PreviousAnchor = true ∧
        p.PreviousAnchors.lookup suffix = some u.String) := by
  obtain ⟨ao1, c1, hao1, hc1, _, hprev, _⟩ := CreatePayload_ok h
  rw [hao] at hao1
  cases hao1
  rw [hc] at hc1
  cases hc1
  obtain ⟨suffix, hrem, hrest⟩ := getPreviousAnchorsLoop_lookup hprev hnd r hr
  exact ⟨suffix, removeMultihashPrefix_ok hrem, hrest⟩

/-- C8, on `sampleEvent` and its resource `s1`. -/
theorem CreatePayload_previousAnchors_of_resource_witness :
    ∃ suffix, "did:orb:uAAA:s1".toList = "did:orb:uAAA:".toList ++ suffix ∧
      ("hl:a".toList = [] → samplePayload.PreviousAnchors.lookup suffix = some []) ∧
      ("hl:a".toList ≠ [] → ∃ before u after,
        AnchorEventType.Parent (some sampleEvent) = before ++ u :: after ∧
        (∀ x ∈ before, HasPrefix x.String "hl:a".toList = false) ∧
        HasPrefix u.String "hl:a".toList = true ∧
        samplePayload.PreviousAnchors.lookup suffix = some u.String) :=
  CreatePayload_previousAnchors_of_resource (New []) (some sampleEvent)
    { samplePayload with AnchorOrigin := "https://orb.domain1.com/services/orb".toList }
    (anchorObjectOf sampleContentObject) sampleContentObject rfl rfl
    (Unmarshal_MarshalToDoc sampleContentObject) (by decide)
    { ID := "did:orb:uAAA:s1".toList, PreviousAnchor := "hl:a".toList } (by decide)

/-- C9. `CreatePayload` returns an error for every anchor event whose content object has a
resource with a non-empty previous anchor that is a prefix of no URL string of the parent
list. -/
theorem CreatePayload_error_of_missing_parent (g : Generator)
    (anchorEvent : Option AnchorEventType) (ao : AnchorObjectType) (c : contentObject)
    (hao : AnchorEventType.AnchorObject anchorEvent (AnchorEventType.Anchors anchorEvent) = .ok ao)
    (hc : Document.Unmarshal ao.contentObject = .ok c) (r : resource) (hr : r ∈ c.Resources)
    (hne : r.PreviousAnchor ≠ [])
    (hno : ∀ u ∈ AnchorEventType.Parent anchorEvent, HasPrefix u.String r.PreviousAnchor = false) :
    ∃ e, CreatePayload g anchorEvent = .error e := by
  apply CreatePayload_error_of_loop_error hao hc
  intro out hout
  obtain ⟨u, hu, hpre⟩ := (getPreviousAnchorsLoop_ok_all hout r hr).2 hne
  rw [hno u hu] at hpre
  exact Bool.false_ne_true hpre

/-- C9, on `orphanEvent`: the parent list is empty and resource `s1` has a previous anchor. -/
theorem CreatePayload_error_of_missing_parent_witness :
    ∃ e, CreatePayload (New []) (some orphanEvent) = .error e :=
  CreatePayload_error_of_missing_parent (New []) (some orphanEvent)
    (anchorObjectOf sampleContentObject) sampleContentObject rfl
    (Unmarshal_MarshalToDoc sampleContentObject)
    { ID := "did:orb:uAAA:s1".toList, PreviousAnchor := "hl:a".toList } (by decide) (by decide)
    (by decide)

/-- C10. `CreatePayload` returns an error for every anchor event whose content object has a
resource whose ID does not start with `did:orb:uAAA:`; the ID `did:orb:uAAA`, without the
delimiter, is such an ID. -/
theorem CreatePayload_error_of_missing_prefix (g : Generator)
    (anchorEvent : Option AnchorEventType) (ao : AnchorObjectType) (c : contentObject)
    (hao : AnchorEventType.AnchorObject anchorEvent (AnchorEventType.Anchors anchorEvent) = .ok ao)
    (hc : Document.Unmarshal ao.contentObject = .ok c) (r : resource) (hr : r ∈ c.Resources)
    (hid : HasPrefix r.ID "did:orb:uAAA:".toList = false) :
    (∃ e, CreatePayload g anchorEvent = .error e) ∧
      HasPrefix "did:orb:uAAA".toList "did:orb:uAAA:".toList = false := by
  refine ⟨?_, by decide⟩
  apply CreatePayload_error_of_loop_error hao hc
  intro out hout
  have hpre := (getPreviousAnchorsLoop_ok_all hout r hr).1
  have hsame : HasPrefix r.ID (multihashPrefix ++ multihashPrefixDelimiter) =
      HasPrefix r.ID "did:orb:uAAA:".toList := rfl
  rw [hsame, hid] at hpre
  exact Bool.false_ne_true hpre

/-- C10, on `shortIDEvent`, whose resource ID is `did:orb:uAAA`. -/
theorem CreatePayload_error_of_missing_prefix_witness :
    (∃ e, CreatePayload (New []) (some shortIDEvent) = .error e) ∧
      HasPrefix "did:orb:uAAA".toList "did:orb:uAAA:".toList = false :=
  CreatePayload_error_of_missing_prefix (New []) (some shortIDEvent)
    (anchorObjectOf
      { Subject := "hl:uEiCore".toList
        Properties := some
          { Generator := ID, Resources := [{ ID := "did:orb:uAAA".toList, PreviousAnchor := [] }] } })
    _ rfl (Unmarshal_MarshalToDoc _)
    { ID := "did:orb:uAAA".toList, PreviousAnchor := [] } (by decide) (by decide)

/-- C11. `CreatePayload` returns the content-not-found error for every anchor event in which
anchors is unset and for every anchor event in which no attachment has the anchors URL in its
URL list; it returns the missing-subject error for every anchor event whose matching
attachment has a content object with an empty subject. -/
theorem CreatePayload_error_of_no_content (g : Generator) (t : Option AnchorEventType) :
    (AnchorEventType.Anchors t = none → CreatePayload g t = .error Err.contentNotFound) ∧
    (∀ e u, t = some e → e.anchors = some u →
      (∀ a ∈ e.attachment, Urls.Contains a.url u = false) →
      CreatePayload g t = .error Err.contentNotFound) ∧
    (∀ ao c, AnchorEventType.AnchorObject t (AnchorEventType.Anchors t) = .ok ao →
      Document.Unmarshal ao.contentObject = .ok c → c.Subject = [] →
      CreatePayload g t = .error Err.missingSubject) := by
  refine ⟨?_, ?_, ?_⟩
  · intro h
    exact CreatePayload_of_AnchorObject_error g t _ (AnchorObject_contentNotFound_of_none t h)
  · intro e u ht hu hno
    subst ht
    apply CreatePayload_of_AnchorObject_error g (some e) Err.contentNotFound
    have hanch : AnchorEventType.Anchors (some e) = some u := hu
    rw [hanch]
    exact AnchorObject_contentNotFound_of_no_match e u hno
  · intro ao c hao hc hs
    unfold CreatePayload
    rw [hao]
    simp only [hc, hs, if_true]

/-- C11, on `referenceEvent` (no anchors), `strayAnchorsEvent` (no attachment with the anchors
URL) and `noSubjectEvent` (empty subject). -/
theorem CreatePayload_error_of_no_content_witness :
    CreatePayload (New []) (some referenceEvent) = .error Err.contentNotFound ∧
    CreatePayload (New []) (some strayAnchorsEvent) = .error Err.contentNotFound ∧
    CreatePayload (New []) (some noSubjectEvent) = .error Err.missingSubject :=
  ⟨(CreatePayload_error_of_no_content (New []) (some referenceEvent)).1 rfl,
   (CreatePayload_error_of_no_content (New []) (some strayAnchorsEvent)).2.1 strayAnchorsEvent
      { str := "hl:uEiOther".toList } rfl rfl (by decide),
   (CreatePayload_error_of_no_content (New []) (some noSubjectEvent)).2.2
      (anchorObjectOf { Subject := [], Properties := sampleContentObject.Properties })
      { Subject := [], Properties := sampleContentObject.Properties } rfl
      (Unmarshal_MarshalToDoc _) rfl⟩

/-- C12. For every anchor event on which `CreatePayload` succeeds, every non-empty value of
the returned `previousAnchors` mapping is the string of some URL of the parent list of the
event. -/
theorem CreatePayload_values_in_parent (g : Generator) (anchorEvent : Option AnchorEventType)
    (p : Payload) (h : CreatePayload g anchorEvent = .ok p) (k v : Str)
    (hkv : (k, v) ∈ p.PreviousAnchors) (hne : v ≠ []) :
    ∃ u ∈ AnchorEventType.Parent anchorEvent, u.String = v := by
  obtain ⟨_, _, _, _, _, hprev, _⟩ := CreatePayload_ok h
  exact getPreviousAnchorsLoop_values hprev (by simp) (k, v) hkv hne

/-- C12, on `sampleEvent` and the entry of `s1`. -/
theorem CreatePayload_values_in_parent_witness :
    ∃ u ∈ AnchorEventType.Parent (some sampleEvent), u.String = "hl:a:y".toList :=
  CreatePayload_values_in_parent (New []) (some sampleEvent)
    { samplePayload with AnchorOrigin := "https://orb.domain1.com/services/orb".toList }
    rfl "s1".toList "hl:a:y".toList (by decide) (by decide)

/-- C13 fails on `noResourcesEvent`, an anchor event whose content object has a subject and no
properties: the `coreIndex` of a returned payload is never empty, but here `CreatePayload`
returns a payload with no previous anchors and an operation count of 0, which
`CreateContentObject` rejects for the missing previous anchors. -/
theorem CreatePayload_empty_previousAnchors :
    (∀ (g : Generator) (t : Option AnchorEventType) (p : Payload),
      CreatePayload g t = .ok p → p.CoreIndex ≠ []) ∧
    CreatePayload (New []) (some noResourcesEvent) =
      .ok { Namespace := Namespace
            Version := Version
            CoreIndex := "hl:uEiCore".toList
            OperationCount := 0
            PreviousAnchors := []
            AnchorOrigin := "https://orb.domain1.com/services/orb".toList
            Published := none } ∧
    CreateContentObject (New [])
        { Namespace := Namespace
          Version := Version
          CoreIndex := "hl:uEiCore".toList
          OperationCount := 0
          PreviousAnchors := []
          AnchorOrigin := "https://orb.domain1.com/services/orb".toList
          Published := none } = .error Err.missingPreviousAnchors := by
  refine ⟨?_, rfl, rfl⟩
  intro g t p h
  obtain ⟨_, c, _, _, hs, _, hcore, _⟩ := CreatePayload_ok h
  rw [hcore]
  exact hs

/-- C14. For every generator `g` and payload `p` on which `CreateContentObject` succeeds, the
content object (read back from the document) has the subject `p.coreIndex`, the generator
`g.ID()` under its properties, and one resource per entry of `p.previousAnchors`, in the order
of the entries and with the ID `did:orb:uAAA:` followed by the key; the ID of a generator built
with no options is `https://w3id.org/orb#v0`. -/
theorem CreateContentObject_subject_generator_resources (g : Generator) (p : Payload)
    (doc : Document) (h : CreateContentObject g p = .ok doc) :
    (∃ c props, Document.Unmarshal doc = .ok c ∧ c.Subject = p.CoreIndex ∧
      c.Properties = some props ∧ props.Generator = g.id ∧
      c.Resources.length = p.PreviousAnchors.length ∧
      c.Resources.map (fun r => r.ID) =
        p.PreviousAnchors.map (fun kv => "did:orb:uAAA:".toList ++ kv.1)) ∧
    (New []).id = "https://w3id.org/orb#v0".toList := by
  refine ⟨?_, rfl⟩
  obtain ⟨_, _, resources, hres, hdoc⟩ := CreateContentObject_ok h
  subst hdoc
  refine ⟨_, _, Unmarshal_MarshalToDoc _, rfl, rfl, rfl, ?_, ?_⟩
  · simp only [contentObject.Resources]
    rw [createResources_eq_map hres, List.length_map]
  · simp only [contentObject.Resources]
    rw [createResources_eq_map hres, List.map_map]
    rfl

/-- C14, on `samplePayload` and the default generator. -/
theorem CreateContentObject_subject_generator_resources_witness :
    (∃ c props, Document.Unmarshal (MarshalToDoc sampleContentObject) = .ok c ∧
      c.Subject = samplePayload.CoreIndex ∧
      c.Properties = some props ∧ props.Generator = (New []).id ∧
      c.Resources.length = samplePayload.PreviousAnchors.length ∧
      c.Resources.map (fun r => r.ID) =
        samplePayload.PreviousAnchors.map (fun kv => "did:orb:uAAA:".toList ++ kv.1)) ∧
    (New []).id = "https://w3id.org/orb#v0".toList :=
  CreateContentObject_subject_generator_resources (New []) samplePayload
    (MarshalToDoc sampleContentObject) rfl

/-- C15, amended. For every payload on which `CreateContentObject` succeeds, the resource
entries of the content object are emitted in the order in which the `previousAnchors` mapping
is visited; for every other order of visiting the same mapping `CreateContentObject` succeeds
as well, and the content object has the same subject, the same generator and the same
resources up to their order. -/
theorem CreateContentObject_resources_in_iteration_order (g : Generator) (p : Payload)
    (doc : Document) (h : CreateContentObject g p = .ok doc) :
    ∃ c, Document.Unmarshal doc = .ok c ∧
      c.Resources.map (fun r => r.ID) =
        p.PreviousAnchors.map (fun kv => "did:orb:uAAA:".toList ++ kv.1) ∧
      ∀ q : Payload, q.CoreIndex = p.CoreIndex → q.PreviousAnchors.Perm p.PreviousAnchors →
        ∃ doc1 c1, CreateContentObject g q = .ok doc1 ∧ Document.Unmarshal doc1 = .ok c1 ∧
          c1.Subject = c.Subject ∧
          c1.Properties.map (fun props => props.Generator) =
            c.Properties.map (fun props => props.Generator) ∧
          c1.Resources.Perm c.Resources := by
  obtain ⟨hcore, hprev, resources, hres, hdoc⟩ := CreateContentObject_ok h
  subst hdoc
  refine ⟨_, Unmarshal_MarshalToDoc _, ?_, ?_⟩
  · simp only [contentObject.Resources]
    rw [createResources_eq_map hres, List.map_map]
    rfl
  · intro q hq hperm
    obtain ⟨resources1, hres1, hperm1⟩ := createResources_ok_of_perm hperm hres
    have hqcore : ¬ q.CoreIndex = [] := by rw [hq]; exact hcore
    have hqlen : ¬ q.PreviousAnchors.length = 0 := by
      rw [hperm.length_eq]
      intro hl
      exact hprev (List.length_eq_zero.1 hl)
    refine ⟨MarshalToDoc
      { Subject := q.CoreIndex, Properties := some { Generator := g.id, Resources := resources1 } },
      _, ?_, Unmarshal_MarshalToDoc _, hq, rfl, hperm1⟩
    unfold CreateContentObject
    rw [if_neg hqcore, if_neg hqlen, hres1]

/-- C15 amended, on `samplePayload`. -/
theorem CreateContentObject_resources_in_iteration_order_witness :
    ∃ c, Document.Unmarshal (MarshalToDoc sampleContentObject) = .ok c ∧
      c.Resources.map (fun r => r.ID) =
        samplePayload.PreviousAnchors.map (fun kv => "did:orb:uAAA:".toList ++ kv.1) ∧
      ∀ q : Payload, q.CoreIndex = samplePayload.CoreIndex →
        q.PreviousAnchors.Perm samplePayload.PreviousAnchors →
        ∃ doc1 c1, CreateContentObject (New []) q = .ok doc1 ∧
          Document.Unmarshal doc1 = .ok c1 ∧ c1.Subject = c.Subject ∧
          c1.Properties.map (fun props => props.Generator) =
            c.Properties.map (fun props => props.Generator) ∧
          c1.Resources.Perm c.Resources :=
  CreateContentObject_resources_in_iteration_order (New []) samplePayload
    (MarshalToDoc sampleContentObject) rfl

/-- C15 as stated fails on `swappedPayload`, which is `samplePayload` with its two entries
visited in the other order: `CreateContentObject` succeeds, the resources come in the order
`s2`, `s1`, which is not sorted by suffix, and the content object is not the one written for
`samplePayload`. -/
theorem CreateContentObject_resources_in_iteration_order_counterexample :
    swappedPayload.PreviousAnchors.Perm samplePayload.PreviousAnchors ∧
    ∃ doc c doc0 c0, CreateContentObject (New []) swappedPayload = .ok doc ∧
      Document.Unmarshal doc = .ok c ∧
      c.Resources.map (fun r => sliceFrom r.ID "did:orb:uAAA:".toList.length) =
        ["s2".toList, "s1".toList] ∧
      ¬ List.Pairwise (fun a b => unitsLt (goUnits b) (goUnits a) = false)
          (c.Resources.map (fun r => sliceFrom r.ID "did:orb:uAAA:".toList.length)) ∧
      CreateContentObject (New []) samplePayload = .ok doc0 ∧
      Document.Unmarshal doc0 = .ok c0 ∧ c ≠ c0 ∧ doc ≠ doc0 := by
  refine ⟨List.Perm.swap _ _ _, _, _, _, _, rfl, Unmarshal_MarshalToDoc _, by decide, by decide,
    rfl, Unmarshal_MarshalToDoc _, by decide, ?_⟩
  intro hdoc
  have hc := congrArg Document.Unmarshal hdoc
  rw [Unmarshal_MarshalToDoc, Unmarshal_MarshalToDoc] at hc
  simp only [Except.ok.injEq] at hc
  exact absurd hc (by decide)

/-- C16 fails on `twoAttachmentEvent`: its anchors are set and it passes `Validate`, because
the second attachment is the one the anchors URL names and has a witness, but `Witness()`
reads the first attachment, which has none, and returns nil. -/
theorem Witness_none_of_valid_event :
    twoAttachmentEvent.anchors =
      some { str := "hl:".toList ++ canonicalMarshal (MarshalToDoc sampleContentObject) } ∧
    AnchorEventType.Validate (stdLib id) (some twoAttachmentEvent) = .ok () ∧
    AnchorEventType.Witness (some twoAttachmentEvent) = none :=
  ⟨rfl, rfl, rfl⟩

/-- C17, amended. For every anchor event with anchors set that passes `Validate`, the
attachment list contains at least one anchor object whose URL equals anchors. -/
theorem Validate_ok_count_matching (lib : Lib) (e : AnchorEventType) (anchors : URL)
    (hanchors : e.anchors = some anchors)
    (h : AnchorEventType.Validate lib (some e) = .ok ()) :
    1 ≤ e.attachment.countP (fun a =>
      TypeProperty.Is a.types TypeAnchorObject && decide (a.url = [anchors])) := by
  simp only [AnchorEventType.Validate, AnchorEventType.Anchors, hanchors] at h
  cases hloop : validateAttachments lib anchors e.attachment with
  | error err => simp [hloop] at h
  | ok found =>
    cases found with
    | none => simp [hloop] at h
    | some ao =>
      obtain ⟨hmem, hty, _, hurl⟩ := validateAttachments_some hloop
      apply List.countP_pos_iff.2
      exact ⟨ao, hmem, by simp [hty, hurl]⟩

/-- C17 amended, on `sampleEvent` with the identity as digest. -/
theorem Validate_ok_count_matching_witness :
    1 ≤ sampleEvent.attachment.countP (fun a =>
      TypeProperty.Is a.types TypeAnchorObject &&
        decide (a.url =
          [{ str := "hl:".toList ++ canonicalMarshal (MarshalToDoc sampleContentObject) }])) :=
  Validate_ok_count_matching (stdLib id) sampleEvent
    { str := "hl:".toList ++ canonicalMarshal (MarshalToDoc sampleContentObject) } rfl rfl

/-- C17 as stated fails on `duplicateAttachmentEvent`: its anchors are set and it passes
`Validate`, and its attachment list contains two anchor objects whose URL equals anchors. -/
theorem Validate_ok_count_matching_counterexample :
    duplicateAttachmentEvent.anchors =
      some { str := "hl:".toList ++ canonicalMarshal (MarshalToDoc sampleContentObject) } ∧
    AnchorEventType.Validate (stdLib id) (some duplicateAttachmentEvent) = .ok () ∧
    duplicateAttachmentEvent.attachment.countP (fun a =>
      TypeProperty.Is a.types TypeAnchorObject &&
        decide (a.url =
          [{ str := "hl:".toList ++ canonicalMarshal (MarshalToDoc sampleContentObject) }])) = 2 :=
  ⟨rfl, rfl, by decide⟩

/-- C18. Single-activity endpoint: for every request for which authorization raises no error
and whose activity is in the store, an unauthorized caller is answered 401 exactly when the
`to` of the activity does not contain `PublicIRI`, and an authorized caller is never answered
401. -/
theorem Activity_handle_unauthorized_iff (h : Activity) (req : Request) (authorized : Bool)
    (activityIRI : URL) (activity : ActivityType)
    (hauth : h.Authorize req = .ok authorized)
    (hiri : h.getActivityIRI req = .ok activityIRI)
    (hget : h.activityStore.GetActivity activityIRI = .ok activity) :
    (authorized = false →
      ((h.handle req).status = StatusUnauthorized ↔
        Urls.Contains activity.To PublicIRI = false)) ∧
    (authorized = true → (h.handle req).status ≠ StatusUnauthorized) := by
  rw [Activity_handle_of_found hauth hiri hget]
  constructor
  · intro ha
    subst ha
    cases hc : Urls.Contains activity.To PublicIRI
    · simp
    · cases hm : h.marshal (Marshalable.activity activity) <;>
        simp [hm, StatusUnauthorized, StatusInternalServerError, StatusOK]
  · intro ha
    subst ha
    cases hm : h.marshal (Marshalable.activity activity) <;>
      simp [hm, StatusUnauthorized, StatusInternalServerError, StatusOK]

/-- C18, on `sampleActivity` and `privateActivity`: a request without credentials is answered
401, a request with credentials is not. -/
theorem Activity_handle_unauthorized_iff_witness :
    (sampleActivity.handle (anonymousRequest "a2".toList)).status = StatusUnauthorized ∧
    (sampleActivity.handle (adminRequest "a2".toList)).status ≠ StatusUnauthorized :=
  ⟨((Activity_handle_unauthorized_iff sampleActivity (anonymousRequest "a2".toList) false
      { str := "https://orb.domain1.com/services/orb/activities/a2".toList } privateActivity
      rfl rfl rfl).1 rfl).2 (by decide),
   (Activity_handle_unauthorized_iff sampleActivity (adminRequest "a2".toList) true
      { str := "https://orb.domain1.com/services/orb/activities/a2".toList } privateActivity
      rfl rfl rfl).2 rfl⟩

/-- C19. Single-activity endpoint: for every request for which authorization raises no error,
whether or not the caller is authorized, an empty id is answered 400, and with a non-empty id
an activity that the store reports as not found is answered 404 and any other error of the
store 500. -/
theorem Activity_handle_store_error (h : Activity) (req : Request) (authorized : Bool)
    (hauth : h.Authorize req = .ok authorized) :
    (getIDParam req = [] → (h.handle req).status = StatusBadRequest) ∧
    (∀ activityIRI err, getIDParam req ≠ [] → h.getActivityIRI req = .ok activityIRI →
      h.activityStore.GetActivity activityIRI = .error err →
      (err.IsNotFound = true → (h.handle req).status = StatusNotFound) ∧
      (err.IsNotFound = false → (h.handle req).status = StatusInternalServerError)) := by
  constructor
  · intro hid
    have hiri : h.getActivityIRI req = .error Error.plain := by
      unfold Activity.getActivityIRI
      simp only [hid, if_true]
    unfold Activity.handle
    simp only [hauth, hiri]
  · intro activityIRI err _ hiri hget
    unfold Activity.handle
    simp only [hauth, hiri, hget]
    constructor
    · intro hnf
      simp only [hnf, if_true]
    · intro hnf
      simp [hnf]

/-- C19, on `sampleActivity`: an authorized request for an activity that is not in the store
is answered 404, and an authorized request without id is answered 400. -/
theorem Activity_handle_store_error_witness :
    (sampleActivity.handle (adminRequest "a3".toList)).status = StatusNotFound ∧
    (sampleActivity.handle (adminRequest [])).status = StatusBadRequest :=
  ⟨((Activity_handle_store_error sampleActivity (adminRequest "a3".toList) true rfl).2
      { str := "https://orb.domain1.com/services/orb/activities/a3".toList } ErrNotFound
      (by decide) rfl rfl).1 rfl,
   (Activity_handle_store_error sampleActivity (adminRequest []) true rfl).1 rfl⟩

/-- C20. Outbox endpoint: whenever authorization raises no error, the request of an authorized
caller is served from the `Outbox` reference set and the request of an unauthorized caller
from the `PublicOutbox` reference set, and neither is answered 401. Served from the set: once
the object IRI and the ID of the request are there, the handler makes one call to the store,
which queries the references of that set for the collection and the activities of that set
for a page; an error of the store gives status 500; and when the steps after the query
succeed, the answer has status 200 and its body is the marshalled collection with the total of
the iterator of the store, or the marshalled page with the activities and the total read from
the iterator of the store. Without object IRI or ID the handler makes no call to the store.
The generic collection handler answers every unauthorized caller with 401 and makes no call to
the store. -/
theorem handleOutbox_reference_set (h : ReadOutbox) (generic : Activities) (req : Request) :
    (h.Authorize req = .ok true →
      h.handleOutbox req = h.toActivities.handleActivityRefsOfType req ReferenceType.Outbox ∧
      (∀ c ∈ (h.handleOutbox req).calls, c.refType = some ReferenceType.Outbox) ∧
      (h.handleOutbox req).status ≠ StatusUnauthorized) ∧
    (h.Authorize req = .ok false →
      h.handleOutbox req =
        h.toActivities.handleActivityRefsOfType req ReferenceType.PublicOutbox ∧
      (∀ c ∈ (h.handleOutbox req).calls, c.refType = some ReferenceType.PublicOutbox) ∧
      (h.handleOutbox req).status ≠ StatusUnauthorized) ∧
    (generic.Authorize req = .ok false →
      (generic.handle req).status = StatusUnauthorized ∧ (generic.handle req).calls = []) ∧
    (∀ ok refType objectIRI id, h.Authorize req = .ok ok →
      refType = (if ok = true then ReferenceType.Outbox else ReferenceType.PublicOutbox) →
      h.toActivities.getObjectIRIAndID req = .ok (objectIRI, id) →
        (h.toActivities.isPaging req = false →
          (h.handleOutbox req).calls =
            [StoreCall.QueryReferences refType
              { ReferenceType := none, ObjectIRI := some objectIRI }] ∧
          (∀ err, h.toActivities.activityStore.QueryReferences refType
              { ReferenceType := none, ObjectIRI := some objectIRI } = .error err →
            (h.handleOutbox req).status = StatusInternalServerError) ∧
          ∀ it first last n bytes,
            h.toActivities.activityStore.QueryReferences refType
              { ReferenceType := none, ObjectIRI := some objectIRI } = .ok it →
            h.toActivities.getPageURL id (-1) = .ok first → it.totalItems = .ok n →
            h.toActivities.getPageURL id
              (h.toActivities.getLastPageNum n h.toActivities.PageSize
                h.toActivities.sortOrder) = .ok last →
            h.toActivities.marshal (Marshalable.collection
              { id := id, first := first, last := last, totalItems := n }) = .ok bytes →
            h.handleOutbox req =
              { calls := [StoreCall.QueryReferences refType
                  { ReferenceType := none, ObjectIRI := some objectIRI }],
                status := StatusOK,
                body := Body.bytes bytes }) ∧
        (h.toActivities.isPaging req = true → ∀ opts,
          opts = (match h.toActivities.getPageNum req with
            | some pageNum =>
              [QueryOpt.WithPageSize h.toActivities.PageSize, QueryOpt.WithPageNum pageNum,
               QueryOpt.WithSortOrder h.toActivities.sortOrder]
            | none =>
              [QueryOpt.WithPageSize h.toActivities.PageSize,
               QueryOpt.WithSortOrder h.toActivities.sortOrder]) →
          (h.handleOutbox req).calls =
            [StoreCall.QueryActivities
              { ReferenceType := some refType, ObjectIRI := some objectIRI } opts] ∧
          (∀ err, h.toActivities.activityStore.QueryActivities
              { ReferenceType := some refType, ObjectIRI := some objectIRI } opts = .error err →
            (h.handleOutbox req).status = StatusInternalServerError) ∧
          ∀ it activities n id1 prev next bytes,
            h.toActivities.activityStore.QueryActivities
              { ReferenceType := some refType, ObjectIRI := some objectIRI } opts = .ok it →
            h.toActivities.ReadActivities it (h.toActivities.GetQueryOptions opts).PageSize =
              .ok activities →
            it.totalItems = .ok n →
            h.toActivities.getIDPrevNextURL id n (h.toActivities.GetQueryOptions opts) =
              .ok (id1, prev, next) →
            h.toActivities.marshal (Marshalable.page
              { items := activities, id := id1, prev := prev, next := next, totalItems := n }) =
                .ok bytes →
            h.handleOutbox req =
              { calls := [StoreCall.QueryActivities
                  { ReferenceType := some refType, ObjectIRI := some objectIRI } opts],
                status := StatusOK,
                body := Body.bytes bytes })) ∧
    (∀ ok err, h.Authorize req = .ok ok → h.toActivities.getObjectIRIAndID req = .error err →
      (h.handleOutbox req).calls = [] ∧
      (h.handleOutbox req).status =
        if err.IsBadRequest = true then StatusBadRequest else StatusInternalServerError) := by
  have hrun : ∀ ok, h.Authorize req = .ok ok →
      h.handleOutbox req = h.toActivities.handleActivityRefsOfType req
        (if ok = true then ReferenceType.Outbox else ReferenceType.PublicOutbox) := by
    intro ok hauth
    unfold ReadOutbox.handleOutbox
    cases ok <;> simp [hauth]
  refine ⟨?_, ?_, ?_, ?_, ?_⟩
  · intro hauth
    have hrun1 := hrun true hauth
    simp only [if_true] at hrun1
    obtain ⟨h1, h2⟩ := handleActivityRefsOfType_spec h.toActivities req ReferenceType.Outbox
    rw [hrun1]
    exact ⟨rfl, h1, status_ne_unauthorized h2⟩
  · intro hauth
    have hrun1 := hrun false hauth
    simp only [Bool.false_eq_true, if_false] at hrun1
    obtain ⟨h1, h2⟩ :=
      handleActivityRefsOfType_spec h.toActivities req ReferenceType.PublicOutbox
    rw [hrun1]
    exact ⟨rfl, h1, status_ne_unauthorized h2⟩
  · intro hauth
    unfold Activities.handle
    simp [hauth]
  · intro ok refType objectIRI id hauth href hid
    rw [hrun ok hauth, ← href]
    exact handleActivityRefsOfType_served h.toActivities req refType objectIRI id hid
  · intro ok err hauth hid
    rw [hrun ok hauth]
    unfold Activities.handleActivityRefsOfType
    simp only [hid]
    cases err.IsBadRequest <;> simp

/-- C20, on `sampleOutbox` and `sampleInbox`: the outbox reads `Outbox` for a request with
credentials and `PublicOutbox` for a request without, and answers with status 200 and the
marshalled collection; the inbox answers a request without credentials with 401 and no call to
the store. -/
theorem handleOutbox_reference_set_witness :
    (sampleOutbox.handleOutbox (adminRequest [])).calls =
      [StoreCall.QueryReferences ReferenceType.Outbox
        { ReferenceType := none, ObjectIRI := some sampleHandler.ObjectIRI }] ∧
    (sampleOutbox.handleOutbox (anonymousRequest [])).calls =
      [StoreCall.QueryReferences ReferenceType.PublicOutbox
        { ReferenceType := none, ObjectIRI := some sampleHandler.ObjectIRI }] ∧
    (sampleOutbox.handleOutbox (anonymousRequest [])).status ≠ StatusUnauthorized ∧
    (sampleInbox.handle (anonymousRequest [])).status = StatusUnauthorized ∧
    (sampleInbox.handle (anonymousRequest [])).calls = [] ∧
    sampleOutbox.handleOutbox (anonymousRequest []) =
      { calls := [StoreCall.QueryReferences ReferenceType.PublicOutbox
          { ReferenceType := none, ObjectIRI := some sampleHandler.ObjectIRI }],
        status := StatusOK,
        body := Body.bytes [Char.ofNat 123, Char.ofNat 125] } :=
  ⟨by
      have h := (handleOutbox_reference_set sampleOutbox sampleInbox (adminRequest [])).1 rfl
      rw [h.1]
      rfl,
   by
      have h := (handleOutbox_reference_set sampleOutbox sampleInbox (anonymousRequest [])).2.1 rfl
      rw [h.1]
      rfl,
   ((handleOutbox_reference_set sampleOutbox sampleInbox (anonymousRequest [])).2.1 rfl).2.2,
   ((handleOutbox_reference_set sampleOutbox sampleInbox (anonymousRequest [])).2.2.1 rfl).1,
   ((handleOutbox_reference_set sampleOutbox sampleInbox (anonymousRequest [])).2.2.1 rfl).2,
   (((handleOutbox_reference_set sampleOutbox sampleInbox (anonymousRequest [])).2.2.2.1
      false ReferenceType.PublicOutbox sampleHandler.ObjectIRI
      { str := sampleHandler.ObjectIRI.String ++ "/outbox".toList } rfl rfl rfl).1 rfl).2.2
      { results := [], totalItems := .ok 0 }
      { str := sampleHandler.ObjectIRI.String ++ "/outbox".toList }
      { str := sampleHandler.ObjectIRI.String ++ "/outbox".toList } 0
      [Char.ofNat 123, Char.ofNat 125] rfl rfl rfl rfl rfl⟩

/-- C21 fails for every authorized request whose `id` parameter `url.Parse` rejects: for the
shares and the likes handler and every authorized request, a missing `id` parameter is answered with status 400, but an `id` that
`url.Parse` rejects is answered with status 500: `getObjectIRIFromIDParam` returns the error of
`url.Parse` as it is, so `handleActivityRefsOfType` does not see a bad-request error. -/
theorem Shares_Likes_status_of_id (base : handler)
    (getSharesID getLikesID : URL → Request → Except Error URL) (req : Request)
    (hauth : base.Authorize req = .ok true) :
    (getIDParam req = [] →
      (NewShares base getSharesID).handle req =
          { calls := [], status := StatusBadRequest, body := Body.badRequestResponse } ∧
        (NewLikes base getLikesID).handle req =
          { calls := [], status := StatusBadRequest, body := Body.badRequestResponse }) ∧
    (getIDParam req ≠ [] → base.urlParse (getIDParam req) = none →
      (NewShares base getSharesID).handle req =
          { calls := [], status := StatusInternalServerError,
            body := Body.internalServerErrorResponse } ∧
        (NewLikes base getLikesID).handle req =
          { calls := [], status := StatusInternalServerError,
            body := Body.internalServerErrorResponse }) := by
  refine ⟨fun hid => ?_, fun hid hparse => ?_⟩
  · simp [Activities.handle, NewShares, NewLikes, NewActivities, hauth,
      Activities.handleActivityRefsOfType, Activities.getObjectIRIAndID,
      getObjectIRIFromIDParam, hid, Error.NewBadRequest]
  · simp [Activities.handle, NewShares, NewLikes, NewActivities, hauth,
      Activities.handleActivityRefsOfType, Activities.getObjectIRIAndID,
      getObjectIRIFromIDParam, hid, hparse, Error.plain]

/-- C21 fails on `strictHandler` and the authorized request with the `id` parameter `:foo`,
which is answered with status 500; without `id` the answer has status 400. -/
theorem Shares_Likes_status_of_id_witness :
    getIDParam (adminRequest ":foo".toList) ≠ [] ∧
    strictHandler.urlParse (getIDParam (adminRequest ":foo".toList)) = none ∧
    ((NewShares strictHandler sampleGetIDFromParam).handle (adminRequest ":foo".toList)).status
      = 500 ∧
    ((NewLikes strictHandler sampleGetIDFromParam).handle (adminRequest ":foo".toList)).status
      = 500 ∧
    ((NewShares strictHandler sampleGetIDFromParam).handle (adminRequest [])).status = 400 ∧
    ((NewShares strictHandler sampleGetIDFromParam).handle
      (adminRequest "https://orb.domain2.com/o1".toList)).status = 200 :=
  ⟨by decide, rfl,
   by rw [((Shares_Likes_status_of_id strictHandler sampleGetIDFromParam sampleGetIDFromParam
      (adminRequest ":foo".toList) rfl).2 (by decide) rfl).1]; rfl,
   by rw [((Shares_Likes_status_of_id strictHandler sampleGetIDFromParam sampleGetIDFromParam
      (adminRequest ":foo".toList) rfl).2 (by decide) rfl).2]; rfl,
   by rw [((Shares_Likes_status_of_id strictHandler sampleGetIDFromParam sampleGetIDFromParam
      (adminRequest []) rfl).1 rfl).1]; rfl,
   rfl⟩

/-- C23. When the state of the publisher/subscriber is not `StateStarted`, `Subscribe` and
`Publish` return `ErrNotStarted` and leave the publisher/subscriber as it is: no channel is
registered and no entry is queued. Only then do they return that error. -/
theorem Publish_Subscribe_not_started (p : PubSub) (topic : Str) (messages : List Message)
    (h : p.state ≠ State.StateStarted) :
    p.Subscribe topic = (p, .error ServiceError.ErrNotStarted) ∧
    p.Publish topic messages = (p, PublishResult.returned (some ServiceError.ErrNotStarted)) ∧
    (p.Subscribe topic).1.msgChansByTopic = p.msgChansByTopic ∧
    (p.Publish topic messages).1.publishChan = p.publishChan ∧
    (∀ q : PubSub, q.state = State.StateStarted →
      (q.Subscribe topic).2 = .ok (Chan.make q.BufferSize) ∧
      (q.Publish topic messages).2 ≠
        PublishResult.returned (some ServiceError.ErrNotStarted)) := by
  have hs : p.Subscribe topic = (p, .error ServiceError.ErrNotStarted) := by
    unfold PubSub.Subscribe
    rw [if_pos h]
  have hp : p.Publish topic messages =
      (p, PublishResult.returned (some ServiceError.ErrNotStarted)) := by
    unfold PubSub.Publish
    rw [if_pos h]
  refine ⟨hs, hp, by rw [hs], by rw [hp], ?_⟩
  intro q hq
  constructor
  · unfold PubSub.Subscribe
    rw [if_neg (not_not.2 hq)]
  · unfold PubSub.Publish
    rw [if_neg (not_not.2 hq)]
    cases q.publishChan.send { topic := topic, messages := messages } with
    | some c => simp
    | none =>
      simp only
      split <;> simp

/-- C23, on `stoppedPubSub`. -/
theorem Publish_Subscribe_not_started_witness :
    stoppedPubSub.state ≠ State.StateStarted ∧
    stoppedPubSub.Subscribe "activities".toList =
      (stoppedPubSub, .error ServiceError.ErrNotStarted) ∧
    stoppedPubSub.Publish "activities".toList [sampleMessage "m1" "one"] =
      (stoppedPubSub, PublishResult.returned (some ServiceError.ErrNotStarted)) :=
  ⟨by decide,
   (Publish_Subscribe_not_started stoppedPubSub "activities".toList
      [sampleMessage "m1" "one"] (by decide)).1,
   (Publish_Subscribe_not_started stoppedPubSub "activities".toList
      [sampleMessage "m1" "one"] (by decide)).2.1⟩

/-- C24. Fan-out order, for every publisher/subscriber `p` that a run from `New` reaches and
every run from `p`. What the run sends to a channel that `p` has, followed by the copies still
on their way to it at the end, is what was on the way to it at the start, followed by the
copies of the messages of the calls of `Publish` for the topic of the channel, in the order of
the calls and, within a call, of the arguments. So between two states in which no send is
under way and no entry waits, every channel is sent just the copies of the messages published
to its topic, in that order, a channel of a topic that no call names is sent nothing, and the
copies sent to `ackChan` are the copies sent to the subscriber channels. What is sent to a
channel is buffered in it until its subscriber receives it, and what is sent to `ackChan` is
buffered in it until `processAcks` receives it. And every sequence of calls of `Publish` has a
run in which the receivers take what is buffered whenever a send waits for room: each call
returns nil and every entry is published to the end. -/
theorem run_fan_out (name : Str) (cfg : Config) (setup acts : List Action) (p p1 : PubSub)
    (log0 log : List Event)
    (hreach : (PubSub.New name cfg).run setup = some (p, log0))
    (hrun : p.run acts = some (p1, log)) :
    (∀ topic index, index < (chansOf p.msgChansByTopic topic).length →
      log.filterMap (Event.deliveredTo topic index) ++ p1.pendingFor topic index =
        p.pendingFor topic index ++ acts.flatMap (fun a => a.published topic)) ∧
    (p.publishing = [] → p.publishChan.queue = [] → p1.publishing = [] →
      p1.publishChan.queue = [] →
      (∀ topic index, index < (chansOf p.msgChansByTopic topic).length →
        log.filterMap (Event.deliveredTo topic index) =
          acts.flatMap (fun a => a.published topic)) ∧
      (∀ topic index, index < (chansOf p.msgChansByTopic topic).length →
        (∀ messages, Action.Publish topic messages ∉ acts) →
        log.filterMap (Event.deliveredTo topic index) = []) ∧
      log.filterMap Event.trackedMsg = log.filterMap Event.deliveredMsg) ∧
    (∃ copies : List Message,
      log.filterMap Event.deliveredMsg ++ p1.publishing.filterMap sendOp.chanMsg =
        p.publishing.filterMap sendOp.chanMsg ++ copies ∧
      log.filterMap Event.trackedMsg ++ p1.publishing.filterMap sendOp.ackMsg =
        p.publishing.filterMap sendOp.ackMsg ++ copies) ∧
    (∀ topic index, topic ≠ UndeliverableTopic →
      index < (chansOf p.msgChansByTopic topic).length →
      log.filterMap (Event.receivedFrom topic index) ++ p1.buffer topic index =
        p.buffer topic index ++ log.filterMap (Event.deliveredTo topic index)) ∧
    log.filterMap Event.dispatchedMsg ++ p1.ackChan.queue =
      p.ackChan.queue ++ log.filterMap Event.trackedMsg ∧
    (∀ calls : List entry, ∃ acts2 p2 log2, p.run acts2 = some (p2, log2) ∧
      acts2.filterMap Action.call = calls ∧ p2.publishing = [] ∧
      p2.publishChan.queue = []) := by
  have horder := fun topic index => run_pendingFor hrun topic index
  refine ⟨horder, ?_, run_tracking hrun, (run_channels hrun).1, (run_channels hrun).2,
    fun calls => run_calls calls p (run_ready hreach (New_ready name cfg))⟩
  intro h1 h2 h3 h4
  have hall : ∀ topic index, index < (chansOf p.msgChansByTopic topic).length →
      log.filterMap (Event.deliveredTo topic index) =
        acts.flatMap (fun a => a.published topic) := by
    intro topic index hindex
    have h := horder topic index hindex
    simpa [PubSub.pendingFor, h1, h2, h3, h4] using h
  refine ⟨hall, ?_, ?_⟩
  · intro topic index hindex hno
    rw [hall topic index hindex]
    rw [List.flatMap_eq_nil_iff]
    intro a ha
    cases a with
    | Publish t messages =>
      by_cases ht : t = topic
      · subst ht
        exact absurd ha (hno messages)
      · simp [Action.published, ht]
    | Subscribe t => rfl
    | processMessages => rfl
    | publish w => rfl
    | processAcks => rfl
    | check msg signal => rfl
    | receive t i => rfl
  · obtain ⟨copies, hd, ht⟩ := run_tracking hrun
    simp only [h1, h3, List.filterMap_nil, List.append_nil, List.nil_append] at hd ht
    rw [hd, ht]

/-- C24, on `samplePubSub` and `sampleRun`: each of the two channels of `activities` is sent
the copies of `m1`, `m2`, `m4` in this order and holds them at the end, the channel of
`undeliverable` is sent nothing, and the six copies sent to `ackChan` are those sent to the
channels; and on `unbufferedPubSub` a call of `Publish` returns nil, its message is sent to
the subscriber that waits and `check` is started on it. -/
theorem run_fan_out_witness :
    (PubSub.New "service1".toList DefaultConfig).run sampleSetup = some (samplePubSub, []) ∧
    (∃ p1 log, samplePubSub.run sampleRun = some (p1, log) ∧
      log.filterMap (Event.deliveredTo "activities".toList 0) =
        [sampleMessage "m1" "one", sampleMessage "m2" "two", sampleMessage "m4" "four"] ∧
      log.filterMap (Event.deliveredTo "activities".toList 1) =
        [sampleMessage "m1" "one", sampleMessage "m2" "two", sampleMessage "m4" "four"] ∧
      log.filterMap (Event.deliveredTo UndeliverableTopic 0) = [] ∧
      log.filterMap Event.trackedMsg = log.filterMap Event.deliveredMsg ∧
      (log.filterMap Event.trackedMsg).length = 6 ∧
      p1.buffer "activities".toList 0 =
        [sampleMessage "m1" "one", sampleMessage "m2" "two", sampleMessage "m4" "four"] ∧
      p1.ackChan.queue = log.filterMap Event.trackedMsg) ∧
    (unbufferedPubSub.run [Action.Publish "activities".toList [sampleMessage "m1" "one"],
        Action.publish true, Action.publish true]).map Prod.snd =
      some [Event.delivered "activities".toList 0 (sampleMessage "m1" "one"),
            Event.received "activities".toList 0 (sampleMessage "m1" "one"),
            Event.tracked (sampleMessage "m1" "one"),
            Event.dispatched (sampleMessage "m1" "one")] := by
  refine ⟨rfl, ?_, rfl⟩
  cases h : samplePubSub.run sampleRun with
  | none => exact absurd h (by decide)
  | some r =>
    obtain ⟨p1, log⟩ := r
    have hidle : (samplePubSub.run sampleRun).map (fun r => r.1.publishing) = some [] := rfl
    have hempty : (samplePubSub.run sampleRun).map (fun r => r.1.publishChan.queue) = some [] :=
      rfl
    have hcount : (samplePubSub.run sampleRun).map
        (fun r => (r.2.filterMap Event.trackedMsg).length) = some 6 := rfl
    have hnone : (samplePubSub.run sampleRun).map
        (fun r => (r.2.filterMap (Event.receivedFrom "activities".toList 0),
          r.2.filterMap Event.dispatchedMsg)) = some ([], []) := rfl
    rw [h] at hidle hempty hcount hnone
    simp only [Option.map, Option.some.injEq, Prod.mk.injEq] at hidle hempty hcount hnone
    obtain ⟨_, hq, _, hbuffer, hack, _⟩ := run_fan_out "service1".toList DefaultConfig
      sampleSetup sampleRun samplePubSub p1 [] log rfl h
    obtain ⟨hall, _, htracked⟩ := hq rfl rfl hidle hempty
    have hb := hbuffer "activities".toList 0 (by decide) (by decide)
    rw [hnone.1, hall _ 0 (by decide)] at hb
    rw [hnone.2] at hack
    exact ⟨p1, log, rfl, by rw [hall _ 0 (by decide)]; rfl,
      by rw [hall _ 1 (by decide)]; rfl, by rw [hall _ 0 (by decide)]; rfl, htracked, hcount,
      by rw [List.nil_append] at hb; rw [hb]; rfl,
      by rw [List.nil_append] at hack; rw [hack]; rfl⟩

/-- C25. For every list of results and every total, after any number of calls of `Next` on the
iterator that `newActivityIterator` (or `newReferenceIterator`) builds, `TotalItems` returns
the total; the call of `Next` after `n` calls returns the item at position `n` when there is
one, and `ErrNotFound` without an item otherwise. -/
theorem iterator_Next_TotalItems (activities : List ActivityType) (references : List URL)
    (total : Int) (n : Nat) :
    ((newActivityIterator activities total).afterNext n).TotalItems = total ∧
    (∀ hn : n < activities.length,
      (((newActivityIterator activities total).afterNext n).Next).2
        = .ok (activities.get ⟨n, hn⟩)) ∧
    (activities.length ≤ n →
      (((newActivityIterator activities total).afterNext n).Next).2 = .error ErrNotFound) ∧
    ((newReferenceIterator references total).afterNext n).TotalItems = total ∧
    (∀ hn : n < references.length,
      (((newReferenceIterator references total).afterNext n).Next).2
        = .ok (references.get ⟨n, hn⟩)) ∧
    (references.length ≤ n →
      (((newReferenceIterator references total).afterNext n).Next).2 = .error ErrNotFound) := by
  obtain ⟨a1, a2, a3⟩ := afterNext_Next activities total n
  obtain ⟨r1, r2, r3⟩ := afterNext_Next references total n
  exact ⟨a1, a2, a3, r1, r2, r3⟩

/-- C26, amended. For every `Follow` activity with a non-empty list `to` and an ID that is not
in the store, whose object is the IRI of the service and whose actor is in the store: when
the actor is a follower already, `HandleActivity` succeeds, the follower set is as before, one
`Accept` is posted to the outbox and the `Follow` is forwarded, whatever `FollowerAuth` says;
when the actor is no follower yet and `FollowerAuth` accepts, `HandleActivity` succeeds, the
follower set is the old one with the actor in it, one `Accept` is posted and the `Follow` is
forwarded; when the actor is no follower yet and `FollowerAuth` rejects, `HandleActivity`
succeeds, the follower set is as before, one `Reject` is posted and nothing is forwarded. -/
theorem HandleActivity_Follow (h : Inbox) (AuthorizeFollower : URL → Except Error Bool)
    (handleOther : Inbox → InboxActivity → Except Error Inbox) (follow : InboxActivity)
    (actorIRI : URL)
    (htype : TypeProperty.Is follow.types TypeFollow = true)
    (hactor : follow.actor = some actorIRI)
    (hobject : follow.object = some h.ServiceIRI)
    (hknown : actorIRI ∈ h.actors)
    (hto : follow.to_ ≠ [])
    (hnew : follow.id ∉ h.activities) :
    (actorIRI ∈ h.followers →
      ∃ h1, h.HandleActivity AuthorizeFollower handleOther follow = .ok h1 ∧
        h1.followers = h.followers ∧
        h1.outbox = h.outbox ++ [{ types := [TypeAccept], to_ := [actorIRI], object := follow }] ∧
        h1.delivered = h.delivered ++ [follow]) ∧
    (actorIRI ∉ h.followers → AuthorizeFollower actorIRI = .ok true →
      ∃ h1, h.HandleActivity AuthorizeFollower handleOther follow = .ok h1 ∧
        actorIRI ∈ h1.followers ∧
        (∀ iri, iri ∈ h1.followers ↔ iri ∈ h.followers ∨ iri = actorIRI) ∧
        h1.outbox = h.outbox ++ [{ types := [TypeAccept], to_ := [actorIRI], object := follow }] ∧
        h1.delivered = h.delivered ++ [follow]) ∧
    (actorIRI ∉ h.followers → AuthorizeFollower actorIRI = .ok false →
      ∃ h1, h.HandleActivity AuthorizeFollower handleOther follow = .ok h1 ∧
        h1.followers = h.followers ∧
        h1.outbox = h.outbox ++ [{ types := [TypeReject], to_ := [actorIRI], object := follow }] ∧
        h1.delivered = h.delivered) := by
  have hcontains : Urls.Contains h.actors actorIRI = true := (Urls_Contains_iff _ _).2 hknown
  have hrecognized : recognizedTypes.any (fun t => TypeProperty.Is follow.types t) = true := by
    rw [List.any_eq_true]
    exact ⟨TypeFollow, by simp [recognizedTypes], htype⟩
  have hrules : h.HandleActivity AuthorizeFollower handleOther follow =
      h.handleFollowActivity AuthorizeFollower follow := by
    unfold Inbox.HandleActivity
    rw [if_neg hnew, if_neg (by rw [hactor]; simp), if_neg hto,
      if_neg (by rw [hrecognized]; simp), if_pos htype]
  refine ⟨?_, ?_, ?_⟩
  · intro hfollower
    have hf : Urls.Contains h.followers actorIRI = true := (Urls_Contains_iff _ _).2 hfollower
    refine ⟨{ h with
        activities := h.activities ++ [follow.id]
        outbox := h.outbox ++ [{ types := [TypeAccept], to_ := [actorIRI], object := follow }]
        delivered := h.delivered ++ [follow] }, ?_, rfl, rfl, rfl⟩
    rw [hrules]
    unfold Inbox.handleFollowActivity
    simp [hactor, hobject, hcontains, hf]
  · intro hfollower hauth
    have hf : Urls.Contains h.followers actorIRI = false := by
      rw [← Bool.not_eq_true, Urls_Contains_iff]
      exact hfollower
    refine ⟨{ h with
        activities := h.activities ++ [follow.id]
        followers := AddReference h.followers actorIRI
        outbox := h.outbox ++ [{ types := [TypeAccept], to_ := [actorIRI], object := follow }]
        delivered := h.delivered ++ [follow] },
      ?_, (mem_AddReference _ _ _).2 (Or.inr rfl), mem_AddReference _ _, rfl, rfl⟩
    rw [hrules]
    unfold Inbox.handleFollowActivity
    simp [hactor, hobject, hcontains, hf, hauth]
  · intro hfollower hauth
    have hf : Urls.Contains h.followers actorIRI = false := by
      rw [← Bool.not_eq_true, Urls_Contains_iff]
      exact hfollower
    refine ⟨{ h with
        activities := h.activities ++ [follow.id]
        outbox := h.outbox ++ [{ types := [TypeReject], to_ := [actorIRI], object := follow }] },
      ?_, rfl, rfl, rfl⟩
    rw [hrules]
    unfold Inbox.handleFollowActivity
    simp [hactor, hobject, hcontains, hf, hauth]

/-- C26 amended, on `sampleInboxHandler`: service2 is accepted, service3 is rejected, and a
second `Follow` of service2, now a follower, is answered with another `Accept`. -/
theorem HandleActivity_Follow_witness :
    (∃ h1, sampleInboxHandler.HandleActivity sampleFollowerAuth (fun h _ => .ok h)
        (followOf service2IRI) = .ok h1 ∧
      h1.followers = [service2IRI] ∧ h1.outbox.map (fun r => r.types) = [[TypeAccept]] ∧
      h1.delivered = [followOf service2IRI]) ∧
    (∃ h1, sampleInboxHandler.HandleActivity sampleFollowerAuth (fun h _ => .ok h)
        (followOf service3IRI) = .ok h1 ∧
      h1.followers = [] ∧ h1.outbox.map (fun r => r.types) = [[TypeReject]] ∧
      h1.delivered = []) ∧
    (∃ h1, Inbox.HandleActivity { sampleInboxHandler with followers := [service2IRI] }
        sampleFollowerAuth (fun h _ => .ok h) (followOf service2IRI) = .ok h1 ∧
      h1.followers = [service2IRI] ∧ h1.outbox.map (fun r => r.types) = [[TypeAccept]]) := by
  obtain ⟨h1, ha, hmem, hiff, ho, hd⟩ := (HandleActivity_Follow sampleInboxHandler
    sampleFollowerAuth (fun h _ => .ok h) (followOf service2IRI) service2IRI (by decide) rfl rfl
    (by decide) (by decide) (by decide)).2.1 (by decide) rfl
  obtain ⟨h2, hb, hf, ho2, hd2⟩ := (HandleActivity_Follow sampleInboxHandler sampleFollowerAuth
    (fun h _ => .ok h) (followOf service3IRI) service3IRI (by decide) rfl rfl (by decide)
    (by decide) (by decide)).2.2 (by decide) rfl
  obtain ⟨h3, hc, hf3, ho3, _⟩ := (HandleActivity_Follow
    { sampleInboxHandler with followers := [service2IRI] } sampleFollowerAuth
    (fun h _ => .ok h) (followOf service2IRI) service2IRI (by decide) rfl rfl (by decide)
    (by decide) (by decide)).1 (by decide)
  refine ⟨⟨h1, ha, ?_, by rw [ho]; rfl, by rw [hd]; rfl⟩,
    ⟨h2, hb, by rw [hf]; rfl, by rw [ho2]; rfl, by rw [hd2]; rfl⟩,
    ⟨h3, hc, by rw [hf3], by rw [ho3]; rfl⟩⟩
  have hx : (sampleInboxHandler.HandleActivity sampleFollowerAuth (fun h _ => .ok h)
      (followOf service2IRI)).toOption.map (fun h => h.followers) = some [service2IRI] := rfl
  rw [ha] at hx
  simpa [Except.toOption] using hx

/-- C26 as stated fails in three ways. A `Follow` of service3, which is a follower already
and which `FollowerAuth` rejects, is answered with an `Accept` and no `Reject`. A `Follow` of
service2, which `FollowerAuth` accepts, whose ID is in the store already, changes nothing:
service2 is not added to the follower set and no `Accept` is posted. A `Follow` of service2
with an empty list `to` is an error. In each case the object is the IRI of the service and the
actor is in the store. -/
theorem HandleActivity_Follow_counterexample :
    (followOf service3IRI).object = some sampleInboxHandler.ServiceIRI ∧
    service3IRI ∈ sampleInboxHandler.actors ∧
    sampleFollowerAuth service3IRI = .ok false ∧
    Inbox.HandleActivity { sampleInboxHandler with followers := [service3IRI] }
        sampleFollowerAuth (fun h _ => .ok h) (followOf service3IRI) =
      .ok { sampleInboxHandler with
        activities := [(followOf service3IRI).id]
        followers := [service3IRI]
        outbox := [{ types := [TypeAccept], to_ := [service3IRI],
                     object := followOf service3IRI }]
        delivered := [followOf service3IRI] } ∧
    (followOf service2IRI).object = some sampleInboxHandler.ServiceIRI ∧
    service2IRI ∈ sampleInboxHandler.actors ∧
    sampleFollowerAuth service2IRI = .ok true ∧
    Inbox.HandleActivity { sampleInboxHandler with activities := [(followOf service2IRI).id] }
        sampleFollowerAuth (fun h _ => .ok h) (followOf service2IRI) =
      .ok { sampleInboxHandler with activities := [(followOf service2IRI).id] } ∧
    sampleInboxHandler.HandleActivity sampleFollowerAuth (fun h _ => .ok h)
        { followOf service2IRI with to_ := [] } = .error Error.plain :=
  ⟨rfl, by decide, rfl, rfl, rfl, by decide, rfl, rfl, rfl⟩

/-- C27 fails on `trailingAttachmentEvent`: its anchors are set, its second attachment is not
of type `AnchorObject` and fails `validateAnchorObject`, and `Validate` returns no error,
because its loop ends at the first attachment, the one the anchors URL names. -/
theorem Validate_ok_with_invalid_attachment :
    trailingAttachmentEvent.anchors =
      some { str := "hl:".toList ++ canonicalMarshal (MarshalToDoc sampleContentObject) } ∧
    serviceAttachment ∈ trailingAttachmentEvent.attachment ∧
    TypeProperty.Is serviceAttachment.types TypeAnchorObject = false ∧
    validateAnchorObject (stdLib id) serviceAttachment = .error Err.exactlyOneURL ∧
    AnchorEventType.Validate (stdLib id) (some trailingAttachmentEvent) = .ok () :=
  ⟨rfl, by simp [trailingAttachmentEvent], by decide, rfl, rfl⟩

/-- C28. For every anchor event with anchors set on which `Validate` succeeds,
`AnchorObject(Anchors())` succeeds and returns the attachment that the loop of `Validate`
ended on, whose hashlink `validateAnchorObject` has verified; and `CreatePayload` on the event
reads the content object of that attachment: its result is the error of the unmarshalling of
that content object, or the missing-subject error when the subject in it is empty, or the
error of `getPreviousAnchors` on its resources and the parents of the event, or else the
payload with its subject as core index, the number of its resources as operation count and
the previous anchors that `getPreviousAnchors` returns for its resources. -/
theorem AnchorObject_of_Validate_ok (lib : Lib) (e : AnchorEventType) (anchors : URL)
    (hanchors : e.anchors = some anchors)
    (h : AnchorEventType.Validate lib (some e) = .ok ()) :
    ∃ ao, validateAttachments lib anchors e.attachment = .ok (some ao) ∧
      AnchorEventType.AnchorObject (some e) (AnchorEventType.Anchors (some e)) = .ok ao ∧
      validateAnchorObject lib ao = .ok () ∧
      (∃ bytes, lib.MarshalCanonical ao.contentObject = some bytes ∧
        lib.CreateHashLink bytes = some anchors.String) ∧
      (∀ g, CreatePayload g (some e) =
        match Document.Unmarshal ao.contentObject with
        | .error _ => .error Err.unmarshalContentObject
        | .ok c =>
          if c.Subject = [] then
            .error Err.missingSubject
          else
            match getPreviousAnchors c.Resources (AnchorEventType.Parent (some e)) with
            | .error err => .error err
            | .ok prevAnchors =>
              .ok { Namespace := g.namespace_
                    Version := g.version
                    CoreIndex := c.Subject
                    OperationCount := c.Resources.length
                    PreviousAnchors := prevAnchors
                    AnchorOrigin := (match e.attributedTo with
                      | some u => u.String
                      | none => [])
                    Published := e.published }) ∧
      ∀ g p, CreatePayload g (some e) = .ok p →
        ∃ c, Document.Unmarshal ao.contentObject = .ok c ∧ p.CoreIndex = c.Subject := by
  simp only [AnchorEventType.Validate, AnchorEventType.Anchors, hanchors] at h
  cases hloop : validateAttachments lib anchors e.attachment with
  | error err => simp [hloop] at h
  | ok found =>
    cases found with
    | none => simp [hloop] at h
    | some ao =>
      obtain ⟨_, _, hval, hurl⟩ := validateAttachments_some hloop
      obtain ⟨u, hurl1, _, _, bytes, hbytes, hhl⟩ := validateAnchorObject_ok hval
      rw [hurl] at hurl1
      simp only [List.cons.injEq, and_true] at hurl1
      subst hurl1
      have hfind := validateAttachments_some_first hloop
      have hao : AnchorEventType.AnchorObject (some e) (AnchorEventType.Anchors (some e)) =
          .ok ao := by
        simp only [AnchorEventType.AnchorObject, AnchorEventType.Anchors, hanchors, hfind]
      refine ⟨ao, rfl, hao, hval, ⟨bytes, hbytes, hhl⟩, ?_, ?_⟩
      · intro g
        unfold CreatePayload
        rw [hao]
      intro g p hp
      obtain ⟨ao1, c, hao1, hc, _, _, hcore, _⟩ := CreatePayload_ok hp
      rw [hao] at hao1
      cases hao1
      exact ⟨c, hc, hcore⟩

/-- C28, on `twoAttachmentEvent` with the identity as digest: the attachment found is the
second one, and `CreatePayload` returns the payload read from its content object. -/
theorem AnchorObject_of_Validate_ok_witness :
    ∃ ao, validateAttachments (stdLib id)
        { str := "hl:".toList ++ canonicalMarshal (MarshalToDoc sampleContentObject) }
        twoAttachmentEvent.attachment = .ok (some ao) ∧
      AnchorEventType.AnchorObject (some twoAttachmentEvent)
        (AnchorEventType.Anchors (some twoAttachmentEvent)) = .ok ao ∧
      validateAnchorObject (stdLib id) ao = .ok () ∧
      (∃ bytes, (stdLib id).MarshalCanonical ao.contentObject = some bytes ∧
        (stdLib id).CreateHashLink bytes =
          some (URL.String
            { str := "hl:".toList ++ canonicalMarshal (MarshalToDoc sampleContentObject) })) ∧
      ao.contentObject = MarshalToDoc sampleContentObject ∧
      (CreatePayload (New []) (some twoAttachmentEvent)).toOption.map
          (fun p => (p.CoreIndex, p.OperationCount, p.PreviousAnchors)) =
        some (sampleContentObject.Subject, 2, samplePayload.PreviousAnchors) := by
  obtain ⟨ao, h1, h2, h3, h4, h5, _⟩ := AnchorObject_of_Validate_ok (stdLib id)
    twoAttachmentEvent
    { str := "hl:".toList ++ canonicalMarshal (MarshalToDoc sampleContentObject) } rfl rfl
  have hao : AnchorEventType.AnchorObject (some twoAttachmentEvent)
      (AnchorEventType.Anchors (some twoAttachmentEvent)) =
        .ok (anchorObjectOf sampleContentObject) := rfl
  rw [h2] at hao
  simp only [Except.ok.injEq] at hao
  refine ⟨ao, h1, h2, h3, h4, by rw [hao]; rfl, ?_⟩
  rw [h5 (New []), hao]
  rfl

/-- C29. Suffix round trip: for every string `s`, `removeMultihashPrefix` of `did:orb:uAAA:`
followed by `s` succeeds with `s`; and whenever `CreatePayload` succeeds on an anchor event
whose matching attachment carries `CreateContentObject` of a payload `p` (a map: its keys are
distinct), the keys of the returned `previousAnchors` are the keys of `p.previousAnchors`, and
`operationCount` is the number of those keys. -/
theorem CreatePayload_keys (g1 g2 : Generator) (p q : Payload) (e : AnchorEventType)
    (ao : AnchorObjectType) (hkeys : (p.PreviousAnchors.map Prod.fst).Nodup)
    (hao : AnchorEventType.AnchorObject (some e) e.anchors = .ok ao)
    (hdoc : CreateContentObject g1 p = .ok ao.contentObject)
    (hq : CreatePayload g2 (some e) = .ok q) :
    (∀ s : Str, removeMultihashPrefix ("did:orb:uAAA:".toList ++ s) = .ok s) ∧
    q.PreviousAnchors.map Prod.fst = p.PreviousAnchors.map Prod.fst ∧
    (∀ k, k ∈ q.PreviousAnchors.map Prod.fst ↔ k ∈ p.PreviousAnchors.map Prod.fst) ∧
    q.OperationCount = (p.PreviousAnchors.map Prod.fst).length := by
  have hsuffix : ∀ s : Str, removeMultihashPrefix ("did:orb:uAAA:".toList ++ s) = .ok s :=
    fun s => removeMultihashPrefix_append s
  obtain ⟨_, _, resources, hres, hdoc1⟩ := CreateContentObject_ok hdoc
  have hc := Unmarshal_MarshalToDoc
    { Subject := p.CoreIndex, Properties := some { Generator := g1.id, Resources := resources } }
  rw [← hdoc1] at hc
  obtain ⟨ao1, c1, hao1, hc1, _, hprev, _, hcount⟩ := CreatePayload_ok hq
  have hao2 : AnchorEventType.AnchorObject (some e) (AnchorEventType.Anchors (some e)) =
      .ok ao := hao
  rw [hao2] at hao1
  cases hao1
  rw [hc] at hc1
  cases hc1
  have hk := getPreviousAnchorsLoop_keys hres hprev hkeys (by simp)
  simp only [List.map_nil, List.nil_append] at hk
  refine ⟨hsuffix, hk, fun k => by rw [hk], ?_⟩
  rw [hcount]
  simp only [contentObject.Resources]
  rw [createResources_eq_map hres]
  simp

/-- C29, on `samplePayload` and `twoParentEvent`, where the values differ and the keys do
not. -/
theorem CreatePayload_keys_witness :
    (∀ s : Str, removeMultihashPrefix ("did:orb:uAAA:".toList ++ s) = .ok s) ∧
    ["s1".toList, "s2".toList] = samplePayload.PreviousAnchors.map Prod.fst ∧
    (∀ k, k ∈ ["s1".toList, "s2".toList] ↔ k ∈ samplePayload.PreviousAnchors.map Prod.fst) ∧
    2 = (samplePayload.PreviousAnchors.map Prod.fst).length :=
  CreatePayload_keys (New []) (New []) samplePayload
    { Namespace := Namespace
      Version := Version
      CoreIndex := "hl:uEiCore".toList
      OperationCount := 2
      PreviousAnchors := [("s1".toList, "hl:a:z".toList), ("s2".toList, [])]
      AnchorOrigin := "https://orb.domain1.com/services/orb".toList
      Published := none }
    twoParentEvent (anchorObjectOf sampleContentObject) (by decide) rfl rfl rfl

/-- C30. `Validate` never indexes an empty URL list: for every anchor event, and for every
anchor object handed to `validateAnchorObject`, the index expressions `URL()[0]` are reached
only with a URL list of exactly one element, so neither function ends in the out-of-range
failure. -/
theorem Validate_ne_indexOutOfRange (lib : Lib) (t : Option AnchorEventType)
    (anchorObj : AnchorObjectType) :
    AnchorEventType.Validate lib t ≠ .error Err.indexOutOfRange ∧
    validateAnchorObject lib anchorObj ≠ .error Err.indexOutOfRange ∧
    (∀ e anchors ao, t = some e →
      validateAttachments lib anchors e.attachment = .ok (some ao) → ao.url.length = 1) ∧
    (validateAnchorObject lib anchorObj = .ok () → anchorObj.url.length = 1) := by
  refine ⟨?_, validateAnchorObject_ne_indexOutOfRange lib anchorObj, ?_, ?_⟩
  · cases t with
    | none => simp [AnchorEventType.Validate]
    | some e =>
      simp only [AnchorEventType.Validate]
      cases hanch : AnchorEventType.Anchors (some e) with
      | none =>
        simp only
        split_ifs <;> simp
      | some anchors =>
        simp only
        cases hloop : validateAttachments lib anchors e.attachment with
        | error err =>
          simp only
          intro he
          simp only [Except.error.injEq] at he
          rw [he] at hloop
          exact validateAttachments_ne_indexOutOfRange lib anchors e.attachment hloop
        | ok found =>
          cases found with
          | none => simp
          | some ao =>
            simp only
            split_ifs <;> simp
  · intro e anchors ao _ hloop
    obtain ⟨_, _, _, hurl⟩ := validateAttachments_some hloop
    rw [hurl]
    rfl
  · intro hval
    obtain ⟨u, hurl, _⟩ := validateAnchorObject_ok hval
    rw [hurl]
    rfl

end Orb
